import Mathlib

/-!
# goda: package graph and Robert Martin metrics

A shallow embedding of `internal/stat/decl.go` and `internal/pkggraph/graph.go`.

Conventions of the embedding.

* A Go map that is only ranged over (`pkgs`, `allPkgs`) is the list of its values, in the
  order the `range` visits them; the keys are never read by the code. The statements hold
  for every such list, hence for every order of visit.
* `Package.Imports` is a Go map from import path to package; the code reads only its keys
  (membership, `len`, `range` over keys), so it is the list of its keys.
* `*Node` is an index into `Graph.heap`; `Graph.Packages` and `Graph.Sorted` hold such
  indices, so that both see the same mutable node, as the pointers do in Go.
* `float64` fields are exact rationals.
* `int64` counters are integers wrapped into the int64 range by `wrap64`.
* The fields `Color`, `Up`, `Down`, `Errors`, `Graph` of `Node` and the embedded `Stat` of
  `Graph` are written by `From` only (from `allImportsCache` and `Stat.Add`) and read
  by none of the functions embedded here; they are left out.
-/

namespace Goda

/-! ## internal/stat/decl.go -/

namespace stat

/-- Two's-complement wrap-around of an integer into the int64 range. -/
def wrap64 (x : Int) : Int := (x + 2 ^ 63) % 2 ^ 64 - 2 ^ 63

/-- Decls: stats about top-level declarations (all fields are int64). -/
structure Decls where
  Func : Int := 0
  Type_ : Int := 0
  Interface : Int := 0
  Const : Int := 0
  Var : Int := 0
  Other : Int := 0
  deriving DecidableEq, Repr

/-- Decls.Add: field-wise `+=`. -/
def Decls.Add (s b : Decls) : Decls :=
  { Func := wrap64 (s.Func + b.Func)
    Type_ := wrap64 (s.Type_ + b.Type_)
    Interface := wrap64 (s.Interface + b.Interface)
    Const := wrap64 (s.Const + b.Const)
    Var := wrap64 (s.Var + b.Var)
    Other := wrap64 (s.Other + b.Other) }

/-- Decls.Sub: field-wise `-=`. -/
def Decls.Sub (s b : Decls) : Decls :=
  { Func := wrap64 (s.Func - b.Func)
    Type_ := wrap64 (s.Type_ - b.Type_)
    Interface := wrap64 (s.Interface - b.Interface)
    Const := wrap64 (s.Const - b.Const)
    Var := wrap64 (s.Var - b.Var)
    Other := wrap64 (s.Other - b.Other) }

/-- Decls.Total: `Func + Type + Const + Var + Other`. -/
def Decls.Total (s : Decls) : Int :=
  wrap64 (wrap64 (wrap64 (wrap64 (s.Func + s.Type_) + s.Const) + s.Var) + s.Other)

/-- The tokens `token.Token` a general declaration can carry. -/
inductive Token where
  | IMPORT | CONST | TYPE | VAR | ILLEGAL
  deriving DecidableEq, Repr

/-- An `ast.Ident`: its name and what `IsExported()` answers for it. -/
structure Ident where
  Name : String
  IsExported : Bool
  deriving DecidableEq, Repr

/-- An `ast.Expr`, as far as the classifier looks at it: an `*ast.InterfaceType` or not. -/
inductive Expr where
  | InterfaceType | OtherExpr
  deriving DecidableEq, Repr

/-- An `ast.Spec`. -/
inductive Spec where
  | TypeSpec (Name : Ident) (Type_ : Expr)
  | ImportSpec
  | ValueSpec
  deriving DecidableEq, Repr

/-- An `ast.Decl`. -/
inductive Decl where
  | GenDecl (Tok : Token) (Specs : List Spec)
  | FuncDecl
  | BadDecl
  deriving DecidableEq, Repr

/-- An `ast.File`, as far as the classifier looks at it. -/
structure File where
  Decls : List Decl
  deriving DecidableEq, Repr

/-- The body of the loop over `decl.Specs` of a `type` declaration. -/
def typeSpecStep (st : Decls) (spec : Spec) : Decls :=
  let st := { st with Type_ := wrap64 (st.Type_ + 1) }
  match spec with
  | Spec.TypeSpec name ty =>
    if ty = Expr.InterfaceType ∧ name.IsExported = true then
      { st with Interface := wrap64 (st.Interface + 1) }
    else st
  | _ => st

/-- The body of the loop over `f.Decls`. -/
def declStep (st : Decls) (decl : Decl) : Decls :=
  match decl with
  | Decl.GenDecl Token.TYPE specs => specs.foldl typeSpecStep st
  | Decl.GenDecl Token.VAR _ => { st with Var := wrap64 (st.Var + 1) }
  | Decl.GenDecl Token.CONST _ => { st with Const := wrap64 (st.Const + 1) }
  | Decl.GenDecl _ _ => { st with Other := wrap64 (st.Other + 1) }
  | Decl.FuncDecl => { st with Func := wrap64 (st.Func + 1) }
  | Decl.BadDecl => { st with Other := wrap64 (st.Other + 1) }

/-- DeclsFromAst: the declaration classifier. -/
def DeclsFromAst (f : File) : Decls :=
  f.Decls.foldl declStep {}

/-- Whether a spec is a type spec with an exported name whose type is an interface type. -/
def Spec.isExportedInterface : Spec → Bool
  | Spec.TypeSpec name ty => decide (ty = Expr.InterfaceType ∧ name.IsExported = true)
  | _ => false

/-- The specs of a declaration when it is a `type` declaration, and none otherwise. -/
def Decl.typeSpecs : Decl → List Spec
  | Decl.GenDecl Token.TYPE specs => specs
  | _ => []

/-- The number of specs of the `type` declarations of a file. -/
def File.typeSpecCount (f : File) : Nat :=
  (f.Decls.map (fun d => d.typeSpecs.length)).sum

/-- The number of exported interface type specs of the `type` declarations of a file. -/
def File.interfaceCount (f : File) : Nat :=
  (f.Decls.map (fun d => d.typeSpecs.countP Spec.isExportedInterface)).sum

/-- The declaration stats of a package come from the classifier: they are the sum, by
`Decls.Add`, of what `DeclsFromAst` returns for the files of a package whose type specs
number less than `2 ^ 63` in all. -/
def Decls.classified (d : Decls) : Prop :=
  ∃ files : List File, (files.map File.typeSpecCount).sum < 2 ^ 63 ∧
    d = files.foldl (fun s f => s.Add (DeclsFromAst f)) {}

/-- A function declaration. -/
def Decl.isFunc : Decl → Bool
  | Decl.FuncDecl => true
  | _ => false

/-- A `type` declaration. -/
def Decl.isType : Decl → Bool
  | Decl.GenDecl Token.TYPE _ => true
  | _ => false

/-- A `const` declaration. -/
def Decl.isConst : Decl → Bool
  | Decl.GenDecl Token.CONST _ => true
  | _ => false

/-- A `var` declaration. -/
def Decl.isVar : Decl → Bool
  | Decl.GenDecl Token.VAR _ => true
  | _ => false

/-- Any other declaration: a general declaration with another token, or a declaration
that is neither general nor a function. -/
def Decl.isOther : Decl → Bool
  | Decl.GenDecl Token.IMPORT _ => true
  | Decl.GenDecl Token.ILLEGAL _ => true
  | Decl.BadDecl => true
  | _ => false

/-- An int64 value. -/
def isInt64 (x : Int) : Prop := -2 ^ 63 ≤ x ∧ x < 2 ^ 63

instance (x : Int) : Decidable (isInt64 x) := by
  unfold isInt64; infer_instance

/-- All six counters are int64 values. -/
def Decls.inRange (s : Decls) : Prop :=
  isInt64 s.Func ∧ isInt64 s.Type_ ∧ isInt64 s.Interface ∧ isInt64 s.Const ∧
    isInt64 s.Var ∧ isInt64 s.Other

instance (s : Decls) : Decidable s.inRange := by
  unfold Decls.inRange; infer_instance


/-- Stat: of the statistics of a package only `Decls` is read by the graph code. -/
structure Stat where
  Decls : Decls := {}
  deriving DecidableEq, Repr

end stat

/-! ## go/types and go/packages, as far as the graph code reads them -/

/-- A `*types.Interface`: an identity for the implements oracle, and `NumMethods()`. -/
structure Interface where
  tag : Nat
  NumMethods : Nat
  deriving DecidableEq, Repr

/-- A `types.Type`: the type of a declared type name, carrying the interface that is its
underlying type when it has one, or a pointer made by `types.NewPointer`. -/
inductive GoType where
  | Named (tag : Nat) (underlying : Option Interface)
  | Pointer (elem : GoType)
  deriving DecidableEq, Repr

/-- The result of `t.Underlying().(*types.Interface)`. -/
def GoType.underlyingInterface : GoType → Option Interface
  | GoType.Named _ u => u
  | GoType.Pointer _ => none

/-- A `types.Object` of a package scope: a `*types.TypeName` with its `Type()`, or
another kind of object. -/
inductive Object where
  | TypeName (typ : GoType)
  | OtherObject
  deriving DecidableEq, Repr

/-- A `packages.Package`. `Imports` lists the keys of the import map; `Types` is `none`
for a nil `Types`, and otherwise lists the objects `Scope().Lookup(name)` returns for
`Scope().Names()`, in that order. -/
structure Package where
  ID : String
  PkgPath : String
  Imports : List String := []
  Types : Option (List Object) := none
  deriving DecidableEq, Repr

/-! ## The words of the structural coupling claims -/

/-- The named non-interface type an object of a package scope declares, if it does. -/
def Object.concreteType : Object → Option GoType
  | Object.TypeName t => if t.underlyingInterface = none then some t else none
  | Object.OtherObject => none

/-- The interface with at least one method an object of a package scope declares, if it
does. -/
def Object.methodInterface : Object → Option Interface
  | Object.TypeName t =>
    match t.underlyingInterface with
    | some i => if 1 ≤ i.NumMethods then some i else none
    | none => none
  | Object.OtherObject => none

/-- The named non-interface types of a package; none without type information. -/
def Package.concreteTypes (p : Package) : List GoType :=
  match p.Types with
  | none => []
  | some objs => objs.filterMap Object.concreteType

/-- The interfaces with at least one method of a package; none without type
information. -/
def Package.methodInterfaces (p : Package) : List Interface :=
  match p.Types with
  | none => []
  | some objs => objs.filterMap Object.methodInterface

/-- Some named non-interface type `T` of `C`, or `*T`, implements some interface with at
least one method of `I`. -/
def satisfies (Implements : GoType → Interface → Bool) (C I : Package) : Prop :=
  ∃ t ∈ C.concreteTypes, ∃ i ∈ I.methodInterfaces,
    Implements t i = true ∨ Implements (GoType.Pointer t) i = true

instance (Implements : GoType → Interface → Bool) (C I : Package) :
    Decidable (satisfies Implements C I) := by
  unfold satisfies; infer_instance

/-- `C` directly imports `I`: the import path of `I` is a key of the import map of `C`. -/
def importsDirectly (C I : Package) : Prop := I.PkgPath ∈ C.Imports

instance (C I : Package) : Decidable (importsDirectly C I) := by
  unfold importsDirectly; infer_instance

/-! ## internal/pkggraph/graph.go -/

namespace pkggraph

/-- Node: a package of the graph with its metrics. `ImportsNodes` holds node references. -/
structure Node where
  Package : Package
  ImportsNodes : List Nat := []
  Stat : stat.Stat := {}
  Ca : ℚ := 0
  Ce : ℚ := 0
  A : ℚ := 0
  I : ℚ := 0
  D : ℚ := 0
  SCa : ℚ := 0
  SCe : ℚ := 0
  deriving DecidableEq

/-- Graph: `heap` holds the allocated nodes, `Packages` maps an ID to a node reference
(the entries in the order a `range` visits them), `Sorted` lists node references. -/
structure Graph where
  heap : List Node := []
  Packages : List (String × Nat) := []
  Sorted : List Nat := []
  deriving DecidableEq

/-- Map assignment `m[k] = v`. -/
def mapSet (m : List (String × Nat)) (k : String) (v : Nat) : List (String × Nat) :=
  match m with
  | [] => [(k, v)]
  | (k', v') :: rest => if k' = k then (k, v) :: rest else (k', v') :: mapSet rest k v

/-- Map lookup `v, ok := m[k]`. -/
def mapGet (m : List (String × Nat)) (k : String) : Option Nat :=
  match m with
  | [] => none
  | (k', v') :: rest => if k' = k then some v' else mapGet rest k

/-- Apply `f` to the node a reference points to. -/
def Graph.update (g : Graph) (r : Nat) (f : Node → Node) : Graph :=
  { g with heap := g.heap.modify f r }

/-- The nodes of the graph: what the references in `g.Packages` point to. -/
def Graph.nodes (g : Graph) : List Node :=
  g.Packages.filterMap (fun e => g.heap[e.2]?)

/-- The nodes `g.Sorted` points to, in that order. -/
def Graph.sortedNodes (g : Graph) : List Node :=
  g.Sorted.filterMap (fun r => g.heap[r]?)

/-- The loop `for _, n := range g.Packages { body }` for a body that writes only `n`. -/
def Graph.forEachNode (g : Graph) (body : Node → Node) : Graph :=
  g.Packages.foldl (fun g e => g.update e.2 body) g

/-- Graph.AddNode: `g.Packages[n.ID] = n`, for the node `n` that `r` points to. -/
def Graph.AddNode (g : Graph) (r : Nat) : Graph :=
  match g.heap[r]? with
  | some n => { g with Packages := mapSet g.Packages n.Package.ID r }
  | none => g

/-- LoadNode, with `stat.Package` as the parameter `statPackage`. -/
def LoadNode (statPackage : Package → stat.Stat) (p : Package) : Node :=
  { Package := p, Stat := statPackage p }

/-- The ID of the node a reference points to. -/
def idOf (heap : List Node) (r : Nat) : String :=
  match heap[r]? with
  | some n => n.Package.ID
  | none => ""

/-- SortNodes: sort node references by `xs[i].ID < xs[k].ID`. `sort.Slice` is not stable;
where IDs repeat this is one of the orders it may produce. -/
def SortNodes (heap : List Node) (xs : List Nat) : List Nat :=
  xs.insertionSort (fun a b => ¬ idOf heap b < idOf heap a)

/-- The body of the first loop of From: create the node of `p`. -/
def From.create (statPackage : Package → stat.Stat) (g : Graph) (p : Package) : Graph :=
  let r := g.heap.length
  let g := { g with heap := g.heap ++ [LoadNode statPackage p] }
  let g := { g with Sorted := g.Sorted ++ [r] }
  g.AddNode r

/-- The body of the loop of From that builds the node imports of `n`. -/
def From.link (g : Graph) (n : Node) : Node :=
  n.Package.Imports.foldl
    (fun n id =>
      match mapGet g.Packages id with
      | none => n
      | some direct => { n with ImportsNodes := n.ImportsNodes ++ [direct] })
    n

/-- The body of the last loop of From: `SortNodes(n.ImportsNodes)`. -/
def From.sortImports (g : Graph) (n : Node) : Node :=
  { n with ImportsNodes := SortNodes g.heap n.ImportsNodes }

/-- From: create a new graph from a map of packages. -/
def From (statPackage : Package → stat.Stat) (pkgs : List Package) : Graph :=
  let g := pkgs.foldl (From.create statPackage) {}
  let g := { g with Sorted := SortNodes g.heap g.Sorted }
  let g := g.forEachNode (From.link g)
  g.forEachNode (From.sortImports g)

/-- The inner loop of ComputeMetrics that counts `ca` for the node `n`. -/
def countCa (allPkgs : List Package) (n : Node) : Nat :=
  allPkgs.foldl
    (fun ca p =>
      if p.ID = n.Package.ID then ca
      else if n.Package.PkgPath ∈ p.Imports then ca + 1
      else ca)
    0

/-- The body of the first loop of ComputeMetrics: Ca of `n`. -/
def caStep (allPkgs : List Package) (n : Node) : Node :=
  { n with Ca := (countCa allPkgs n : ℚ) }

/-- The body of the second loop of ComputeMetrics: Ce of `n`. -/
def ceStep (n : Node) : Node :=
  { n with Ce := (n.Package.Imports.length : ℚ) }

/-- The body of the third loop of ComputeMetrics: A, I and D of `n`. -/
def aidStep (n : Node) : Node :=
  let totalTypes := n.Stat.Decls.Type_
  let interfaces := n.Stat.Decls.Interface
  let n := if totalTypes > 0 then { n with A := (interfaces : ℚ) / (totalTypes : ℚ) } else n
  let total := n.Ca + n.Ce
  let n := if total > 0 then { n with I := n.Ce / total } else n
  { n with D := |n.A + n.I - 1| }

/-- Graph.ComputeMetrics: Ca, Ce, A, I, D of every node of the graph. -/
def Graph.ComputeMetrics (g : Graph) (allPkgs : List Package) : Graph :=
  let g := g.forEachNode (caStep allPkgs)
  let g := g.forEachNode ceStep
  g.forEachNode aidStep

/-- The local type pkgIfaces of ComputeStructuralCoupling. -/
structure pkgIfaces where
  id : String
  ifaces : List Interface
  deriving DecidableEq, Repr

/-- The local type pkgConcretes of ComputeStructuralCoupling: `concretes` are the named
types that are not interfaces. -/
structure pkgConcretes where
  id : String
  concretes : List GoType
  deriving DecidableEq, Repr

/-- The loop over `scope.Names()`: the interfaces with at least one method and the
types whose underlying type is not an interface, each in the order met. -/
def scanScope (objs : List Object) : List Interface × List GoType :=
  objs.foldl
    (fun acc obj =>
      match obj with
      | Object.TypeName t =>
        match t.underlyingInterface with
        | some iface => if iface.NumMethods > 0 then (acc.1 ++ [iface], acc.2) else acc
        | none => (acc.1, acc.2 ++ [t])
      | Object.OtherObject => acc)
    ([], [])

/-- The body of the first loop of ComputeStructuralCoupling, for the node `n`. -/
def collectStep (acc : List pkgIfaces × List pkgConcretes) (n : Node) :
    List pkgIfaces × List pkgConcretes :=
  match n.Package.Types with
  | none => acc
  | some objs =>
    let sc := scanScope objs
    let allIfaces :=
      if sc.1.length > 0 then acc.1 ++ [{ id := n.Package.ID, ifaces := sc.1 }] else acc.1
    let allConcretes :=
      if sc.2.length > 0 then acc.2 ++ [{ id := n.Package.ID, concretes := sc.2 }] else acc.2
    (allIfaces, allConcretes)

/-- The first loop of ComputeStructuralCoupling, over `g.Sorted`. -/
def collect (g : Graph) : List pkgIfaces × List pkgConcretes :=
  g.Sorted.foldl
    (fun acc r =>
      match g.heap[r]? with
      | some n => collectStep acc n
      | none => acc)
    ([], [])

/-- The search for a concrete type of `cp` that, itself or as a pointer, implements an
interface of `ip`; it stops at the first one found. -/
def satisfied (Implements : GoType → Interface → Bool) (cp : pkgConcretes) (ip : pkgIfaces) :
    Bool :=
  cp.concretes.any (fun ct =>
    ip.ifaces.any (fun iface => Implements ct iface || Implements (GoType.Pointer ct) iface))

/-- The statement `n.SCe++`. -/
def incSCe (n : Node) : Node := { n with SCe := n.SCe + 1 }

/-- The statement `n.SCa++`. -/
def incSCa (n : Node) : Node := { n with SCa := n.SCa + 1 }

/-- The body of the inner loop of ComputeStructuralCoupling, for the concrete package
`cp`, whose node is `cn`, and the interface package `ip`. -/
def couplePair (Implements : GoType → Interface → Bool) (cp : pkgConcretes) (cn : Nat)
    (g : Graph) (ip : pkgIfaces) : Graph :=
  if cp.id = ip.id then g
  else
    match mapGet g.Packages ip.id with
    | none => g
    | some inn =>
      if satisfied Implements cp ip = false then g
      else
        match g.heap[cn]?, g.heap[inn]? with
        | some cnode, some inode =>
          let g := if inode.Package.PkgPath ∈ cnode.Package.Imports then g
            else g.update cn incSCe
          if cnode.Package.PkgPath ∈ inode.Package.Imports then g
          else g.update inn incSCa
        | _, _ => g

/-- Graph.ComputeStructuralCoupling, with `types.Implements` as the parameter
`Implements`. -/
def Graph.ComputeStructuralCoupling (g : Graph) (Implements : GoType → Interface → Bool) :
    Graph :=
  let all := collect g
  all.2.foldl
    (fun g cp =>
      match mapGet g.Packages cp.id with
      | none => g
      | some cn => all.1.foldl (couplePair Implements cp cn) g)
    g

/-! ### Auxiliary notions for the statements -/

/-- One increment of ComputeStructuralCoupling: the node reference, and whether it is
`SCe++` (true) or `SCa++` (false). -/
def applyOp (g : Graph) (op : Nat × Bool) : Graph :=
  g.update op.1 (if op.2 then incSCe else incSCa)

/-- The increments `couplePair` makes, read off the map `Packages` and the packages `P`
of the heap, which the increments leave as they are. -/
def pairOps (Implements : GoType → Interface → Bool) (Packages : List (String × Nat))
    (P : List Goda.Package) (cp : pkgConcretes) (cn : Nat) (ip : pkgIfaces) :
    List (Nat × Bool) :=
  if cp.id = ip.id then []
  else
    match mapGet Packages ip.id with
    | none => []
    | some inn =>
      if satisfied Implements cp ip = false then []
      else
        match P[cn]?, P[inn]? with
        | some cpkg, some ipkg =>
          (if ipkg.PkgPath ∈ cpkg.Imports then [] else [(cn, true)]) ++
            (if cpkg.PkgPath ∈ ipkg.Imports then [] else [(inn, false)])
        | _, _ => []

/-- The increments of one run of ComputeStructuralCoupling, in the order made. -/
def allOps (Implements : GoType → Interface → Bool) (g : Graph) : List (Nat × Bool) :=
  (collect g).2.flatMap (fun cp =>
    match mapGet g.Packages cp.id with
    | none => []
    | some cn =>
      (collect g).1.flatMap
        (pairOps Implements g.Packages (g.heap.map (fun n => n.Package)) cp cn))

/-- The entry the first loop of ComputeStructuralCoupling appends to `allIfaces` for a
package, if it appends one. -/
def iEntry (p : Goda.Package) : Option pkgIfaces :=
  if p.methodInterfaces.length > 0 then some { id := p.ID, ifaces := p.methodInterfaces }
  else none

/-- The entry the first loop of ComputeStructuralCoupling appends to `allConcretes` for
a package, if it appends one. -/
def cEntry (p : Goda.Package) : Option pkgConcretes :=
  if p.concreteTypes.length > 0 then some { id := p.ID, concretes := p.concreteTypes }
  else none

/-- The increments made for the concrete package `C` and the interface package `I`. -/
def pkgOps (Implements : GoType → Interface → Bool) (Packages : List (String × Nat))
    (P : List Goda.Package) (C I : Goda.Package) : List (Nat × Bool) :=
  match cEntry C with
  | none => []
  | some cp =>
    match mapGet Packages cp.id with
    | none => []
    | some cn =>
      match iEntry I with
      | none => []
      | some ip => pairOps Implements Packages P cp cn ip

/-- What one call of ComputeMetrics makes of a node. -/
def metricsOf (allPkgs : List Package) (n : Node) : Node :=
  aidStep (ceStep (caStep allPkgs n))

/-- A node as From leaves it: loaded from one of the packages, all metrics zero. -/
def Node.fresh (sp : Goda.Package → stat.Stat) (pkgs : List Goda.Package) (n : Node) : Prop :=
  n.Package ∈ pkgs ∧ n.Stat = sp n.Package ∧ n.Ca = 0 ∧ n.Ce = 0 ∧ n.A = 0 ∧ n.I = 0 ∧
    n.D = 0 ∧ n.SCa = 0 ∧ n.SCe = 0

/-- The map `Packages` is a proper index of the heap: a key is mapped to a node with
that ID, no node is the value of two keys, and every value points into the heap. -/
def Graph.indexed (g : Graph) : Prop :=
  (∀ k r, mapGet g.Packages k = some r →
      ∃ n, g.heap[r]? = some n ∧ n.Package.ID = k) ∧
    (g.Packages.map Prod.snd).Nodup ∧
    (∀ r ∈ g.Packages.map Prod.snd, r < g.heap.length)


/-- Every node of `Sorted` is the node that `Packages` holds for its ID:
`g.Packages[n.ID] == n` for every `n` of `g.Sorted`, as From leaves a graph built from
packages with pairwise distinct IDs. -/
def Graph.keyed (g : Graph) : Prop :=
  ∀ r ∈ g.Sorted, ∀ n ∈ g.heap[r]?, mapGet g.Packages n.Package.ID = some r

instance (g : Graph) : Decidable g.keyed := by
  unfold Graph.keyed; infer_instance

/-- The package with an empty scope in place of missing type information. -/
def withEmptyScope (p : Goda.Package) : Goda.Package :=
  match p.Types with
  | none => { p with Types := some [] }
  | some _ => p

/-- The node with an empty scope in place of missing type information. -/
def Node.withEmptyScope (n : Node) : Node :=
  { n with Package := pkggraph.withEmptyScope n.Package }

/-- The graph in which every node without type information has an empty scope instead:
such a node has type information and declares neither interfaces nor concrete types. -/
def Graph.withEmptyScopes (g : Graph) : Graph :=
  { g with heap := g.heap.map Node.withEmptyScope }


end pkggraph

/-! ## Examples: the test project of internal/metrics/testdata and the scenarios of the spec -/

namespace testproject

/-- The interface `base.Reader`. -/
def Reader : Interface := { tag := 1, NumMethods := 1 }

/-- The interface `base.Writer`. -/
def Writer : Interface := { tag := 2, NumMethods := 1 }

/-- The interface `service.Handler`. -/
def Handler : Interface := { tag := 3, NumMethods := 1 }

/-- Package `testproject/base`: Config, Reader, Writer. -/
def base : Package :=
  { ID := "testproject/base", PkgPath := "testproject/base", Imports := [],
    Types := some [Object.TypeName (GoType.Named 10 none),
      Object.TypeName (GoType.Named 11 (some Reader)),
      Object.TypeName (GoType.Named 12 (some Writer))] }

/-- Package `testproject/compat`: ByteReader, ByteWriter. -/
def compat : Package :=
  { ID := "testproject/compat", PkgPath := "testproject/compat", Imports := [],
    Types := some [Object.TypeName (GoType.Named 20 none),
      Object.TypeName (GoType.Named 21 none)] }

/-- Package `testproject/handler`: Client, Server. -/
def handler : Package :=
  { ID := "testproject/handler", PkgPath := "testproject/handler",
    Imports := ["testproject/base", "testproject/service"],
    Types := some [Object.TypeName (GoType.Named 30 none),
      Object.TypeName (GoType.Named 31 none)] }

/-- Package `testproject/service`: Handler, Registry. -/
def service : Package :=
  { ID := "testproject/service", PkgPath := "testproject/service",
    Imports := ["testproject/base", "testproject/types"],
    Types := some [Object.TypeName (GoType.Named 40 (some Handler)),
      Object.TypeName (GoType.Named 41 none)] }

/-- Package `testproject/types`: Error, Request, Response. -/
def types : Package :=
  { ID := "testproject/types", PkgPath := "testproject/types",
    Imports := ["testproject/base"],
    Types := some [Object.TypeName (GoType.Named 50 none),
      Object.TypeName (GoType.Named 51 none),
      Object.TypeName (GoType.Named 52 none)] }

/-- The five packages, in some order of the map. -/
def pkgs : List Package := [service, base, types, compat, handler]

/-- A type declaration with one spec. -/
def typeDecl (name : String) (exported : Bool) (e : stat.Expr) : stat.Decl :=
  stat.Decl.GenDecl stat.Token.TYPE [stat.Spec.TypeSpec { Name := name, IsExported := exported } e]

/-- The source file of each package, by package ID. -/
def files (id : String) : List stat.File :=
  if id = "testproject/base" then
    [{ Decls := [typeDecl "Reader" true stat.Expr.InterfaceType,
        typeDecl "Writer" true stat.Expr.InterfaceType,
        typeDecl "Config" true stat.Expr.OtherExpr] }]
  else if id = "testproject/compat" then
    [{ Decls := [typeDecl "ByteReader" true stat.Expr.OtherExpr, stat.Decl.FuncDecl,
        typeDecl "ByteWriter" true stat.Expr.OtherExpr, stat.Decl.FuncDecl] }]
  else if id = "testproject/handler" then
    [{ Decls := [stat.Decl.GenDecl stat.Token.IMPORT [stat.Spec.ImportSpec, stat.Spec.ImportSpec],
        typeDecl "Server" true stat.Expr.OtherExpr,
        typeDecl "Client" true stat.Expr.OtherExpr] }]
  else if id = "testproject/service" then
    [{ Decls := [stat.Decl.GenDecl stat.Token.IMPORT [stat.Spec.ImportSpec, stat.Spec.ImportSpec],
        typeDecl "Handler" true stat.Expr.InterfaceType,
        typeDecl "Registry" true stat.Expr.OtherExpr] }]
  else if id = "testproject/types" then
    [{ Decls := [stat.Decl.GenDecl stat.Token.IMPORT [stat.Spec.ImportSpec],
        typeDecl "Request" true stat.Expr.OtherExpr,
        typeDecl "Response" true stat.Expr.OtherExpr,
        typeDecl "Error" true stat.Expr.OtherExpr] }]
  else []

/-- The package statistics: the classifier results of the files, added up. -/
def statPackage (p : Package) : stat.Stat :=
  { Decls := (files p.ID).foldl (fun s f => s.Add (stat.DeclsFromAst f)) {} }

/-- What `types.Implements` answers on the test project: `*ByteReader` implements
`Reader` and `*ByteWriter` implements `Writer`. -/
def Implements (t : GoType) (i : Interface) : Bool :=
  match t with
  | GoType.Pointer (GoType.Named 20 _) => i.tag == 1
  | GoType.Pointer (GoType.Named 21 _) => i.tag == 2
  | _ => false

end testproject

namespace scenario

/-- Module `A` of the end-to-end scenario: no imports, one interface with one method. -/
def A : Package :=
  { ID := "A", PkgPath := "A", Imports := [],
    Types := some [Object.TypeName (GoType.Named 1 (some { tag := 1, NumMethods := 1 }))] }

/-- Module `B` of the end-to-end scenario: imports `A`, one concrete type. -/
def B : Package :=
  { ID := "B", PkgPath := "B", Imports := ["A"],
    Types := some [Object.TypeName (GoType.Named 2 none)] }

/-- The implements oracle of the scenario: the concrete type of `B` implements the
interface of `A`. -/
def Implements (t : GoType) (i : Interface) : Bool :=
  match t with
  | GoType.Named 2 _ => i.tag == 1
  | _ => false

end scenario

namespace scenario

/-- A graph with one node, without type declarations or imports, whose A and I a caller
has set to 1/2. -/
def staleGraph : pkggraph.Graph :=
  { heap := [{ Package := { ID := "p", PkgPath := "p" }, A := 1 / 2, I := 1 / 2 }],
    Packages := [("p", 0)],
    Sorted := [0] }

end scenario

namespace scenario

/-- A file with the one declaration `type ( A int; B string )`. -/
def twoSpecs : stat.File :=
  { Decls := [stat.Decl.GenDecl stat.Token.TYPE
      [stat.Spec.TypeSpec { Name := "A", IsExported := true } stat.Expr.OtherExpr,
       stat.Spec.TypeSpec { Name := "B", IsExported := true } stat.Expr.OtherExpr]] }

/-- Counters with `2 ^ 62` type declarations and no interface. -/
def hugeTypes : stat.Decls := { Type_ := 2 ^ 62 }

/-- Counters at the upper end of int64. -/
def maxFunc : stat.Decls := { Func := 2 ^ 63 - 1 }

end scenario

namespace scenario

/-- A package loaded without type information (`Types == nil`). -/
def U : Package := { ID := "U", PkgPath := "U" }

/-- A package that imports nothing, with one concrete type. -/
def C : Package :=
  { ID := "C", PkgPath := "C", Imports := [],
    Types := some [Object.TypeName (GoType.Named 2 none)] }

/-- A package whose only type is `type Any interface{}`, an interface without methods. -/
def E : Package :=
  { ID := "E", PkgPath := "E", Imports := [],
    Types := some [Object.TypeName (GoType.Named 3 (some { tag := 3, NumMethods := 0 }))] }

/-- An implements oracle that answers yes for every type and interface. -/
def always (_ : GoType) (_ : Interface) : Bool := true

/-- An implements oracle that answers yes exactly for the interfaces with a method. -/
def withMethods (_ : GoType) (i : Interface) : Bool := decide (1 ≤ i.NumMethods)

end scenario


/-! ## Lemmas on the classifier counters -/

namespace stat

theorem wrap64_of_range (x : Int) (h1 : -2 ^ 63 ≤ x) (h2 : x < 2 ^ 63) : wrap64 x = x := by
  unfold wrap64
  rw [Int.emod_eq_of_lt (by omega) (by omega)]
  omega

theorem wrap64_modEq (x : Int) : wrap64 x ≡ x [ZMOD 2 ^ 64] := by
  unfold wrap64 Int.ModEq
  have h := Int.emod_emod_of_dvd (x + 2 ^ 63) (dvd_refl ((2 : Int) ^ 64))
  omega

theorem wrap64_congr (x y : Int) (h : x ≡ y [ZMOD 2 ^ 64]) : wrap64 x = wrap64 y := by
  unfold wrap64
  have h' : x + 2 ^ 63 ≡ y + 2 ^ 63 [ZMOD 2 ^ 64] := Int.ModEq.add_right _ h
  unfold Int.ModEq at h'
  rw [h']

theorem wrap64_add_wrap64 (a b : Int) : wrap64 (wrap64 a + wrap64 b) = wrap64 (a + b) :=
  wrap64_congr _ _ (Int.ModEq.add (wrap64_modEq a) (wrap64_modEq b))

theorem wrap64_wrap64_add (a b : Int) : wrap64 (wrap64 a + b) = wrap64 (a + b) :=
  wrap64_congr _ _ (Int.ModEq.add (wrap64_modEq a) (Int.ModEq.refl b))

theorem typeSpecStep_counts (st : Decls) (spec : Spec) (T I : Int)
    (hT : st.Type_ = wrap64 T) (hI : st.Interface = wrap64 I) :
    (typeSpecStep st spec).Type_ = wrap64 (T + 1) ∧
      (typeSpecStep st spec).Interface =
        wrap64 (I + (if spec.isExportedInterface then 1 else 0)) := by
  cases spec with
  | TypeSpec name ty =>
    by_cases h : ty = Expr.InterfaceType ∧ name.IsExported = true
    · simp [typeSpecStep, Spec.isExportedInterface, h, hT, hI, wrap64_wrap64_add]
    · simp [typeSpecStep, Spec.isExportedInterface, h, hT, hI, wrap64_wrap64_add]
  | ImportSpec => simp [typeSpecStep, Spec.isExportedInterface, hT, hI, wrap64_wrap64_add]
  | ValueSpec => simp [typeSpecStep, Spec.isExportedInterface, hT, hI, wrap64_wrap64_add]

theorem foldl_typeSpecStep_counts (specs : List Spec) :
    ∀ (st : Decls) (T I : Int), st.Type_ = wrap64 T → st.Interface = wrap64 I →
      (specs.foldl typeSpecStep st).Type_ = wrap64 (T + specs.length) ∧
        (specs.foldl typeSpecStep st).Interface =
          wrap64 (I + specs.countP Spec.isExportedInterface) := by
  induction specs with
  | nil => intro st T I hT hI; simpa using ⟨hT, hI⟩
  | cons sp rest ih =>
    intro st T I hT hI
    obtain ⟨h1, h2⟩ := typeSpecStep_counts st sp T I hT hI
    obtain ⟨h3, h4⟩ := ih _ _ _ h1 h2
    rw [List.foldl_cons, h3, h4]
    constructor
    · congr 1; simp; ring
    · congr 1
      rw [List.countP_cons]
      cases sp.isExportedInterface <;> simp
      ring

theorem declStep_counts (st : Decls) (d : Decl) (T I : Int)
    (hT : st.Type_ = wrap64 T) (hI : st.Interface = wrap64 I) :
    (declStep st d).Type_ = wrap64 (T + d.typeSpecs.length) ∧
      (declStep st d).Interface = wrap64 (I + d.typeSpecs.countP Spec.isExportedInterface) := by
  cases d with
  | GenDecl tok specs =>
    cases tok
    case TYPE => exact foldl_typeSpecStep_counts specs st T I hT hI
    all_goals simpa [declStep, Decl.typeSpecs] using ⟨hT, hI⟩
  | FuncDecl => simpa [declStep, Decl.typeSpecs] using ⟨hT, hI⟩
  | BadDecl => simpa [declStep, Decl.typeSpecs] using ⟨hT, hI⟩

theorem foldl_declStep_counts (ds : List Decl) :
    ∀ (st : Decls) (T I : Int), st.Type_ = wrap64 T → st.Interface = wrap64 I →
      (ds.foldl declStep st).Type_ =
          wrap64 (T + ((ds.map (fun d => d.typeSpecs.length)).sum : Nat)) ∧
        (ds.foldl declStep st).Interface =
          wrap64 (I + ((ds.map (fun d => d.typeSpecs.countP Spec.isExportedInterface)).sum : Nat)) := by
  induction ds with
  | nil => intro st T I hT hI; simpa using ⟨hT, hI⟩
  | cons d rest ih =>
    intro st T I hT hI
    obtain ⟨h1, h2⟩ := declStep_counts st d T I hT hI
    obtain ⟨h3, h4⟩ := ih _ _ _ h1 h2
    rw [List.foldl_cons, h3, h4]
    constructor <;> (congr 1; simp; ring)

theorem DeclsFromAst_counts (f : File) :
    (DeclsFromAst f).Type_ = wrap64 (f.typeSpecCount : Nat) ∧
      (DeclsFromAst f).Interface = wrap64 (f.interfaceCount : Nat) := by
  have h := foldl_declStep_counts f.Decls {} 0 0 (by decide) (by decide)
  simpa [DeclsFromAst, File.typeSpecCount, File.interfaceCount] using h

theorem interfaceCount_le (f : File) : f.interfaceCount ≤ f.typeSpecCount := by
  unfold File.interfaceCount File.typeSpecCount
  generalize f.Decls = ds
  induction ds with
  | nil => simp
  | cons d rest ih =>
    simp only [List.map_cons, List.sum_cons]
    exact Nat.add_le_add (List.countP_le_length _) ih

theorem foldl_Add_counts (files : List File) :
    ∀ (st : Decls) (T I : Int), st.Type_ = wrap64 T → st.Interface = wrap64 I →
      (files.foldl (fun s f => s.Add (DeclsFromAst f)) st).Type_ =
          wrap64 (T + ((files.map File.typeSpecCount).sum : Nat)) ∧
        (files.foldl (fun s f => s.Add (DeclsFromAst f)) st).Interface =
          wrap64 (I + ((files.map File.interfaceCount).sum : Nat)) := by
  induction files with
  | nil => intro st T I hT hI; simpa using ⟨hT, hI⟩
  | cons f rest ih =>
    intro st T I hT hI
    obtain ⟨hf1, hf2⟩ := DeclsFromAst_counts f
    have h1 : (st.Add (DeclsFromAst f)).Type_ = wrap64 (T + (f.typeSpecCount : Nat)) := by
      simp only [Decls.Add, hT, hf1, wrap64_add_wrap64]
    have h2 : (st.Add (DeclsFromAst f)).Interface = wrap64 (I + (f.interfaceCount : Nat)) := by
      simp only [Decls.Add, hI, hf2, wrap64_add_wrap64]
    obtain ⟨h3, h4⟩ := ih _ _ _ h1 h2
    rw [List.foldl_cons, h3, h4]
    constructor <;> (congr 1; simp; ring)

theorem classified_bounds (d : Decls) (h : d.classified) :
    0 ≤ d.Interface ∧ d.Interface ≤ d.Type_ := by
  obtain ⟨files, hlt, rfl⟩ := h
  obtain ⟨hT, hI⟩ := foldl_Add_counts files {} 0 0 (by decide) (by decide)
  have hle : (files.map File.interfaceCount).sum ≤ (files.map File.typeSpecCount).sum := by
    clear hT hI hlt
    induction files with
    | nil => simp
    | cons f rest ih =>
      simp only [List.map_cons, List.sum_cons]
      exact Nat.add_le_add (interfaceCount_le f) ih
  rw [hT, hI, zero_add, zero_add, wrap64_of_range _ (by omega) (by omega),
    wrap64_of_range _ (by omega) (by omega)]
  omega

end stat

/-! ## Lemmas on the graph loops -/

namespace pkggraph

theorem iterate_idem {α : Type} (f : α → α) (hf : ∀ x, f (f x) = f x) :
    ∀ (k : Nat) (x : α), 0 < k → f^[k] x = f x := by
  intro k
  induction k with
  | zero => intro x h; omega
  | succ k ih =>
    intro x _
    rcases Nat.eq_zero_or_pos k with h0 | hpos
    · subst h0; rfl
    · rw [Function.iterate_succ_apply, ih (f x) hpos, hf]

theorem foldl_modify_getElem? (body : Node → Node) (refs : List Nat) :
    ∀ (heap : List Node) (i : Nat),
      (refs.foldl (fun h r => h.modify body r) heap)[i]? =
        (heap[i]?).map (body^[refs.count i]) := by
  induction refs with
  | nil => intro heap i; simp
  | cons r rs ih =>
    intro heap i
    rw [List.foldl_cons, ih, List.getElem?_modify]
    by_cases h : r = i
    · subst h
      cases hg : heap[r]? <;> simp [Function.iterate_succ_apply]
    · cases hg : heap[i]? <;> simp [h, List.count_cons]

theorem foldl_update_eq (body : Node → Node) (es : List (String × Nat)) :
    ∀ g : Graph, es.foldl (fun g e => g.update e.2 body) g =
      { g with heap := (es.map Prod.snd).foldl (fun h r => h.modify body r) g.heap } := by
  induction es with
  | nil => intro g; rfl
  | cons e es ih => intro g; simp only [List.foldl_cons, List.map_cons]; rw [ih]; rfl

theorem forEachNode_heap (g : Graph) (body : Node → Node) :
    (g.forEachNode body).heap =
      (g.Packages.map Prod.snd).foldl (fun h r => h.modify body r) g.heap := by
  unfold Graph.forEachNode; rw [foldl_update_eq]

theorem forEachNode_Packages (g : Graph) (body : Node → Node) :
    (g.forEachNode body).Packages = g.Packages := by
  unfold Graph.forEachNode; rw [foldl_update_eq]

theorem forEachNode_Sorted (g : Graph) (body : Node → Node) :
    (g.forEachNode body).Sorted = g.Sorted := by
  unfold Graph.forEachNode; rw [foldl_update_eq]

theorem forEachNode_getElem? (g : Graph) (body : Node → Node) (i : Nat) :
    (g.forEachNode body).heap[i]? =
      (g.heap[i]?).map (body^[(g.Packages.map Prod.snd).count i]) := by
  rw [forEachNode_heap, foldl_modify_getElem?]

theorem forEachNode_nodes (g : Graph) (body : Node → Node)
    (hidem : ∀ n, body (body n) = body n) :
    (g.forEachNode body).nodes = g.nodes.map body := by
  unfold Graph.nodes
  rw [forEachNode_Packages, List.map_filterMap]
  apply List.filterMap_congr
  intro e he
  rw [forEachNode_getElem?]
  have hpos : 0 < (g.Packages.map Prod.snd).count e.2 :=
    List.count_pos_iff.mpr (List.mem_map_of_mem Prod.snd he)
  cases hg : g.heap[e.2]? with
  | none => rfl
  | some n => simp only [Option.map_some']; rw [iterate_idem body hidem _ _ hpos]

theorem aidStep_idem (n : Node) : aidStep (aidStep n) = aidStep n := by
  unfold aidStep
  by_cases h1 : n.Stat.Decls.Type_ > 0 <;> by_cases h2 : n.Ca + n.Ce > 0 <;> simp [h1, h2]

theorem ComputeMetrics_nodes (g : Graph) (allPkgs : List Package) :
    (g.ComputeMetrics allPkgs).nodes = g.nodes.map (metricsOf allPkgs) := by
  unfold Graph.ComputeMetrics
  rw [forEachNode_nodes _ aidStep aidStep_idem, forEachNode_nodes _ ceStep (fun _ => rfl),
    forEachNode_nodes _ (caStep allPkgs) (fun _ => rfl), List.map_map, List.map_map]
  rfl

theorem countCa_eq (allPkgs : List Package) (n : Node) :
    countCa allPkgs n =
      allPkgs.countP (fun m => decide (m.ID ≠ n.Package.ID ∧ n.Package.PkgPath ∈ m.Imports)) := by
  unfold countCa
  suffices h : ∀ (l : List Package) (k : Nat),
      l.foldl (fun ca p => if p.ID = n.Package.ID then ca
        else if n.Package.PkgPath ∈ p.Imports then ca + 1 else ca) k =
      k + l.countP (fun m => decide (m.ID ≠ n.Package.ID ∧ n.Package.PkgPath ∈ m.Imports)) by
    simpa using h allPkgs 0
  intro l
  induction l with
  | nil => intro k; simp
  | cons p ps ih =>
    intro k
    rw [List.foldl_cons, ih, List.countP_cons]
    by_cases h1 : p.ID = n.Package.ID
    · simp [h1]
    · by_cases h2 : n.Package.PkgPath ∈ p.Imports
      · simp [h1, h2]; omega
      · simp [h1, h2]

theorem iterate_preserves {α : Type} (P : α → Prop) (f : α → α) (hf : ∀ x, P x → P (f x)) :
    ∀ (k : Nat) (x : α), P x → P (f^[k] x) := by
  intro k
  induction k with
  | zero => intro x hx; exact hx
  | succ k ih => intro x hx; rw [Function.iterate_succ_apply]; exact ih _ (hf x hx)

theorem forEachNode_forall (g : Graph) (body : Node → Node) (P : Node → Prop)
    (hbody : ∀ n, P n → P (body n)) (h : ∀ n ∈ g.heap, P n) :
    ∀ n ∈ (g.forEachNode body).heap, P n := by
  intro n hn
  obtain ⟨i, hi⟩ := List.mem_iff_getElem?.mp hn
  rw [forEachNode_getElem?] at hi
  cases hg : g.heap[i]? with
  | none => rw [hg] at hi; simp at hi
  | some m =>
    rw [hg] at hi
    simp only [Option.map_some', Option.some.injEq] at hi
    rw [← hi]
    exact iterate_preserves P body hbody _ _ (h m (List.mem_iff_getElem?.mpr ⟨i, hg⟩))

theorem nodes_subset_heap (g : Graph) : ∀ n ∈ g.nodes, n ∈ g.heap := by
  intro n hn
  unfold Graph.nodes at hn
  obtain ⟨e, _, he⟩ := List.mem_filterMap.mp hn
  exact List.mem_iff_getElem?.mpr ⟨e.2, he⟩

theorem AddNode_heap (g : Graph) (r : Nat) : (g.AddNode r).heap = g.heap := by
  unfold Graph.AddNode
  cases g.heap[r]? <;> rfl

theorem create_heap (sp : Package → stat.Stat) (g : Graph) (p : Package) :
    (From.create sp g p).heap = g.heap ++ [LoadNode sp p] := by
  unfold From.create
  simp only [AddNode_heap]

theorem foldl_create_heap (sp : Package → stat.Stat) (pkgs : List Package) :
    ∀ g : Graph, (pkgs.foldl (From.create sp) g).heap = g.heap ++ pkgs.map (LoadNode sp) := by
  induction pkgs with
  | nil => intro g; simp
  | cons p ps ih => intro g; rw [List.foldl_cons, ih, create_heap]; simp

theorem link_fields (g : Graph) (n : Node) :
    ∃ l, From.link g n = { n with ImportsNodes := l } := by
  unfold From.link
  generalize n.Package.Imports = ids
  induction ids generalizing n with
  | nil => exact ⟨n.ImportsNodes, rfl⟩
  | cons id ids ih =>
    rw [List.foldl_cons]
    cases mapGet g.Packages id with
    | none => exact ih n
    | some d =>
      obtain ⟨l, hl⟩ := ih { n with ImportsNodes := n.ImportsNodes ++ [d] }
      exact ⟨l, hl⟩

theorem modify_map_inv {β : Type} (proj : Node → β) (f : Node → Node)
    (hf : ∀ n, proj (f n) = proj n) (heap : List Node) (r : Nat) :
    (heap.modify f r).map proj = heap.map proj := by
  apply List.ext_getElem?
  intro i
  rw [List.getElem?_map, List.getElem?_map, List.getElem?_modify]
  cases heap[i]? with
  | none => rfl
  | some n =>
    by_cases h : r = i
    · simp [h, hf]
    · simp [h]

theorem forEachNode_map_inv {β : Type} (g : Graph) (body : Node → Node) (proj : Node → β)
    (hbody : ∀ n, proj (body n) = proj n) :
    (g.forEachNode body).heap.map proj = g.heap.map proj := by
  rw [forEachNode_heap]
  generalize g.Packages.map Prod.snd = refs
  generalize g.heap = heap
  induction refs generalizing heap with
  | nil => rfl
  | cons r rs ih => rw [List.foldl_cons, ih, modify_map_inv proj body hbody]

theorem From_heap_fresh (sp : Package → stat.Stat) (pkgs : List Package) :
    ∀ n ∈ (From sp pkgs).heap, Node.fresh sp pkgs n := by
  unfold From
  apply forEachNode_forall
  · intro n hn; exact hn
  apply forEachNode_forall
  · intro n hn
    obtain ⟨l, hl⟩ := link_fields
      { heap := (pkgs.foldl (From.create sp) {}).heap
        Packages := (pkgs.foldl (From.create sp) {}).Packages
        Sorted := SortNodes (pkgs.foldl (From.create sp) {}).heap
          (pkgs.foldl (From.create sp) {}).Sorted } n
    rw [hl]; exact hn
  · intro n hn
    simp only [foldl_create_heap] at hn
    simp only [List.nil_append, List.mem_map] at hn
    obtain ⟨p, hp, rfl⟩ := hn
    exact ⟨hp, rfl, rfl, rfl, rfl, rfl, rfl, rfl, rfl⟩

theorem From_heap_map {β : Type} (sp : Package → stat.Stat) (pkgs : List Package)
    (proj : Node → β) (hproj : ∀ (n : Node) (l : List Nat),
      proj { n with ImportsNodes := l } = proj n) :
    (From sp pkgs).heap.map proj = (pkgs.map (LoadNode sp)).map proj := by
  unfold From
  dsimp only
  rw [forEachNode_map_inv _ (From.sortImports _) proj (fun n => hproj n _),
    forEachNode_map_inv _ (From.link _) proj
      (fun n => by obtain ⟨l, hl⟩ := link_fields _ n; rw [hl]; exact hproj n l)]
  simp only [foldl_create_heap]
  rfl

theorem From_nodes_fresh (sp : Package → stat.Stat) (pkgs : List Package) :
    ∀ n ∈ (From sp pkgs).nodes, Node.fresh sp pkgs n :=
  fun n hn => From_heap_fresh sp pkgs n (nodes_subset_heap _ n hn)

theorem aidStep_keeps (n : Node) :
    (aidStep n).Package = n.Package ∧ (aidStep n).Stat = n.Stat ∧ (aidStep n).Ca = n.Ca ∧
      (aidStep n).Ce = n.Ce ∧ (aidStep n).SCa = n.SCa ∧ (aidStep n).SCe = n.SCe ∧
      (aidStep n).ImportsNodes = n.ImportsNodes := by
  unfold aidStep
  by_cases h1 : n.Stat.Decls.Type_ > 0 <;> by_cases h2 : n.Ca + n.Ce > 0 <;> simp [h1, h2]

theorem countCa_congr (allPkgs : List Package) (x y : Node) (h : x.Package = y.Package) :
    countCa allPkgs x = countCa allPkgs y := by
  unfold countCa; rw [h]

theorem ceStep_caStep_fix (allPkgs : List Package) (x : Node)
    (hCa : x.Ca = (countCa allPkgs x : ℚ)) (hCe : x.Ce = (x.Package.Imports.length : ℚ)) :
    ceStep (caStep allPkgs x) = x := by
  cases x
  simp only [ceStep, caStep] at *
  simp only [Node.mk.injEq, and_true, true_and]
  exact ⟨hCa.symm, hCe.symm⟩

theorem metricsOf_idem (allPkgs : List Package) (n : Node) :
    metricsOf allPkgs (metricsOf allPkgs n) = metricsOf allPkgs n := by
  unfold metricsOf
  obtain ⟨hP, _, hCa, hCe, _⟩ := aidStep_keeps (ceStep (caStep allPkgs n))
  rw [ceStep_caStep_fix allPkgs (aidStep (ceStep (caStep allPkgs n))), aidStep_idem]
  · rw [hCa, countCa_congr allPkgs _ _ hP]; rfl
  · rw [hCe, hP]; rfl

theorem ComputeMetrics_Packages (g : Graph) (allPkgs : List Package) :
    (g.ComputeMetrics allPkgs).Packages = g.Packages := by
  unfold Graph.ComputeMetrics
  simp only [forEachNode_Packages]

theorem ComputeMetrics_Sorted (g : Graph) (allPkgs : List Package) :
    (g.ComputeMetrics allPkgs).Sorted = g.Sorted := by
  unfold Graph.ComputeMetrics
  simp only [forEachNode_Sorted]

theorem ComputeMetrics_getElem? (g : Graph) (allPkgs : List Package) (i : Nat) :
    (g.ComputeMetrics allPkgs).heap[i]? =
      if i ∈ g.Packages.map Prod.snd then (g.heap[i]?).map (metricsOf allPkgs)
      else g.heap[i]? := by
  unfold Graph.ComputeMetrics
  simp only [forEachNode_getElem?, forEachNode_Packages]
  by_cases hi : i ∈ g.Packages.map Prod.snd
  · have hpos : 0 < (g.Packages.map Prod.snd).count i := List.count_pos_iff.mpr hi
    rw [if_pos hi]
    cases hg : g.heap[i]? with
    | none => rfl
    | some n =>
      simp only [Option.map_some']
      rw [iterate_idem (caStep allPkgs) (fun _ => rfl) _ _ hpos,
        iterate_idem ceStep (fun _ => rfl) _ _ hpos,
        iterate_idem aidStep aidStep_idem _ _ hpos]
      rfl
  · rw [if_neg hi, List.count_eq_zero_of_not_mem hi]
    cases hg : g.heap[i]? <;> rfl

theorem ComputeMetrics_twice (g : Graph) (allPkgs : List Package) :
    (g.ComputeMetrics allPkgs).ComputeMetrics allPkgs = g.ComputeMetrics allPkgs := by
  have hP := ComputeMetrics_Packages (g.ComputeMetrics allPkgs) allPkgs
  have hS := ComputeMetrics_Sorted (g.ComputeMetrics allPkgs) allPkgs
  have hH : ((g.ComputeMetrics allPkgs).ComputeMetrics allPkgs).heap =
      (g.ComputeMetrics allPkgs).heap := by
    apply List.ext_getElem?
    intro i
    rw [ComputeMetrics_getElem? (g.ComputeMetrics allPkgs), ComputeMetrics_Packages]
    by_cases hi : i ∈ g.Packages.map Prod.snd
    · rw [if_pos hi, ComputeMetrics_getElem?, if_pos hi]
      cases hg : g.heap[i]? with
      | none => rfl
      | some n => simp only [Option.map_some']; rw [metricsOf_idem]
    · rw [if_neg hi]
  cases hgg : (g.ComputeMetrics allPkgs).ComputeMetrics allPkgs
  cases hg : g.ComputeMetrics allPkgs
  rw [hgg, hg] at hP hS hH
  simp only at hP hS hH
  rw [hP, hS, hH]

end pkggraph

/-! ## The coupling metrics of ComputeMetrics -/

namespace pkggraph

theorem metricsOf_fresh (allPkgs : List Package) (n0 : Node) (hA : n0.A = 0) (hI : n0.I = 0) :
    (metricsOf allPkgs n0).Package = n0.Package ∧
    (metricsOf allPkgs n0).Stat = n0.Stat ∧
    (metricsOf allPkgs n0).Ca = (countCa allPkgs n0 : ℚ) ∧
    (metricsOf allPkgs n0).Ce = (n0.Package.Imports.length : ℚ) ∧
    (metricsOf allPkgs n0).A =
      (if n0.Stat.Decls.Type_ > 0
        then (n0.Stat.Decls.Interface : ℚ) / (n0.Stat.Decls.Type_ : ℚ) else 0) ∧
    (metricsOf allPkgs n0).I =
      (if (countCa allPkgs n0 : ℚ) + (n0.Package.Imports.length : ℚ) > 0
        then (n0.Package.Imports.length : ℚ) /
          ((countCa allPkgs n0 : ℚ) + (n0.Package.Imports.length : ℚ)) else 0) ∧
    (metricsOf allPkgs n0).D = |(metricsOf allPkgs n0).A + (metricsOf allPkgs n0).I - 1| := by
  unfold metricsOf caStep ceStep aidStep
  by_cases h1 : n0.Stat.Decls.Type_ > 0 <;>
    by_cases h2 : (countCa allPkgs n0 : ℚ) + (n0.Package.Imports.length : ℚ) > 0 <;>
    simp [h1, h2, hA, hI]

theorem fresh_metrics_node (sp : Package → stat.Stat) (pkgs allPkgs : List Package) (n : Node)
    (hn : n ∈ ((From sp pkgs).ComputeMetrics allPkgs).nodes) :
    ∃ n0, Node.fresh sp pkgs n0 ∧ n = metricsOf allPkgs n0 := by
  rw [ComputeMetrics_nodes] at hn
  obtain ⟨n0, h0, rfl⟩ := List.mem_map.mp hn
  exact ⟨n0, From_nodes_fresh sp pkgs n0 h0, rfl⟩

/-- C1: after ComputeMetrics on a graph built by From, a node whose package path is its
ID has Ca equal to the number of packages of the universe `allPkgs`, with another ID,
whose direct imports contain that ID. The count runs over the whole universe, whether
or not a package is in the graph. -/
theorem C1_Ca_counts_importers_in_universe (sp : Package → stat.Stat)
    (pkgs allPkgs : List Package) (n : Node)
    (hn : n ∈ ((From sp pkgs).ComputeMetrics allPkgs).nodes)
    (hid : n.Package.PkgPath = n.Package.ID) :
    n.Ca = (allPkgs.countP
      (fun m => decide (m.ID ≠ n.Package.ID ∧ n.Package.ID ∈ m.Imports)) : ℚ) := by
  obtain ⟨n0, hf, rfl⟩ := fresh_metrics_node sp pkgs allPkgs n hn
  obtain ⟨_, _, _, _, hA, hI, _⟩ := hf
  obtain ⟨hP, _, hCa, _⟩ := metricsOf_fresh allPkgs n0 hA hI
  rw [hP] at hid ⊢
  rw [hCa, countCa_eq, hid]

/-- Witness of C1: the graph holds `base` alone, the universe the five packages of the
test project; the three importers of `base`, all outside the graph, are counted. -/
theorem C1_witness :
    ({ Package := testproject.base, Stat := testproject.statPackage testproject.base,
       Ca := 3, Ce := 0, A := 2 / 3, I := 0, D := 1 / 3 } : Node) ∈
      ((From testproject.statPackage [testproject.base]).ComputeMetrics testproject.pkgs).nodes ∧
    testproject.base.PkgPath = testproject.base.ID ∧
    (3 : ℚ) = (testproject.pkgs.countP
      (fun m => decide (m.ID ≠ testproject.base.ID ∧ testproject.base.ID ∈ m.Imports)) : ℚ) :=
  ⟨by decide!, rfl,
    C1_Ca_counts_importers_in_universe testproject.statPackage [testproject.base]
      testproject.pkgs
      { Package := testproject.base, Stat := testproject.statPackage testproject.base,
        Ca := 3, Ce := 0, A := 2 / 3, I := 0, D := 1 / 3 }
      (by decide!) rfl⟩

/-- C2: after ComputeMetrics on any graph, with any universe, each node has Ce equal to
the number of entries of the direct import map of its package, whether or not the
targets are in the graph or in the universe. -/
theorem C2_Ce_is_import_count (g : Graph) (allPkgs : List Package) (n : Node)
    (hn : n ∈ (g.ComputeMetrics allPkgs).nodes) :
    n.Ce = (n.Package.Imports.length : ℚ) := by
  rw [ComputeMetrics_nodes] at hn
  obtain ⟨n0, _, rfl⟩ := List.mem_map.mp hn
  obtain ⟨hP, _, _, hCe, _⟩ := aidStep_keeps (ceStep (caStep allPkgs n0))
  unfold metricsOf
  rw [hCe, hP]
  rfl

/-- Witness of C2: `Z` imports only `W`, which is neither in the graph nor in the
universe, and has Ce(Z) = 1. -/
theorem C2_witness :
    ({ Package := { ID := "Z", PkgPath := "Z", Imports := ["W"] },
       Ca := 0, Ce := 1, A := 0, I := 1, D := 0 } : Node) ∈
      ((From (fun _ => {}) [{ ID := "Z", PkgPath := "Z", Imports := ["W"] }]).ComputeMetrics
        [{ ID := "Z", PkgPath := "Z", Imports := ["W"] }]).nodes ∧
    (1 : ℚ) = ((["W"] : List String).length : ℚ) :=
  ⟨by decide!,
    C2_Ce_is_import_count
      (From (fun _ => {}) [{ ID := "Z", PkgPath := "Z", Imports := ["W"] }])
      [{ ID := "Z", PkgPath := "Z", Imports := ["W"] }]
      { Package := { ID := "Z", PkgPath := "Z", Imports := ["W"] },
        Ca := 0, Ce := 1, A := 0, I := 1, D := 0 }
      (by decide!)⟩

/-- C3: after ComputeMetrics on a graph freshly built by From, each node has
A = Decls.Interface / Decls.Type when Decls.Type > 0, and A = 0 when Decls.Type = 0. -/
theorem C3_abstractness (sp : Package → stat.Stat) (pkgs allPkgs : List Package) (n : Node)
    (hn : n ∈ ((From sp pkgs).ComputeMetrics allPkgs).nodes) :
    (n.Stat.Decls.Type_ > 0 →
      n.A = (n.Stat.Decls.Interface : ℚ) / (n.Stat.Decls.Type_ : ℚ)) ∧
    (n.Stat.Decls.Type_ = 0 → n.A = 0) := by
  obtain ⟨n0, hf, rfl⟩ := fresh_metrics_node sp pkgs allPkgs n hn
  obtain ⟨_, _, _, _, hA, hI, _⟩ := hf
  obtain ⟨_, hS, _, _, hA', _⟩ := metricsOf_fresh allPkgs n0 hA hI
  rw [hS, hA']
  constructor
  · intro h; rw [if_pos h]
  · intro h; rw [if_neg (by omega)]

/-- Witness of C3: `base` of the test project has three type specs, two of them exported
interfaces, and A = 2/3. -/
theorem C3_witness :
    ({ Package := testproject.base, Stat := testproject.statPackage testproject.base,
       Ca := 3, Ce := 0, A := 2 / 3, I := 0, D := 1 / 3 } : Node) ∈
      ((From testproject.statPackage [testproject.base]).ComputeMetrics testproject.pkgs).nodes ∧
    (((testproject.statPackage testproject.base).Decls.Type_ > 0 →
      (2 / 3 : ℚ) = ((testproject.statPackage testproject.base).Decls.Interface : ℚ) /
        ((testproject.statPackage testproject.base).Decls.Type_ : ℚ)) ∧
    ((testproject.statPackage testproject.base).Decls.Type_ = 0 → (2 / 3 : ℚ) = 0)) :=
  ⟨by decide!,
    C3_abstractness testproject.statPackage [testproject.base] testproject.pkgs
      { Package := testproject.base, Stat := testproject.statPackage testproject.base,
        Ca := 3, Ce := 0, A := 2 / 3, I := 0, D := 1 / 3 }
      (by decide!)⟩

/-- C4: after ComputeMetrics on a graph freshly built by From, each node has
I = Ce / (Ce + Ca) when Ce + Ca is not zero, and I = 0 when it is zero. -/
theorem C4_instability (sp : Package → stat.Stat) (pkgs allPkgs : List Package) (n : Node)
    (hn : n ∈ ((From sp pkgs).ComputeMetrics allPkgs).nodes) :
    (n.Ce + n.Ca ≠ 0 → n.I = n.Ce / (n.Ce + n.Ca)) ∧
    (n.Ce + n.Ca = 0 → n.I = 0) := by
  obtain ⟨n0, hf, rfl⟩ := fresh_metrics_node sp pkgs allPkgs n hn
  obtain ⟨_, _, _, _, hA, hI, _⟩ := hf
  obtain ⟨_, _, hCa, hCe, _, hI', _⟩ := metricsOf_fresh allPkgs n0 hA hI
  rw [hCa, hCe, hI']
  have hnn : (0 : ℚ) ≤ (countCa allPkgs n0 : ℚ) + (n0.Package.Imports.length : ℚ) := by
    positivity
  constructor
  · intro h
    have hpos : (countCa allPkgs n0 : ℚ) + (n0.Package.Imports.length : ℚ) > 0 := by
      rcases hnn.lt_or_eq with h' | h'
      · exact h'
      · exact absurd (by rw [add_comm]; exact h'.symm) h
    rw [if_pos hpos, add_comm]
  · intro h
    have hz : ¬ ((countCa allPkgs n0 : ℚ) + (n0.Package.Imports.length : ℚ) > 0) := by
      rw [add_comm, h]; exact lt_irrefl 0
    rw [if_neg hz]

/-- Witness of C4: `service` of the test project has Ce = 2 and Ca = 1, and I = 2/3. -/
theorem C4_witness :
    ({ Package := testproject.service, ImportsNodes := [1, 2],
       Stat := testproject.statPackage testproject.service,
       Ca := 1, Ce := 2, A := 1 / 2, I := 2 / 3, D := 1 / 6 } : Node) ∈
      ((From testproject.statPackage testproject.pkgs).ComputeMetrics testproject.pkgs).nodes ∧
    (((2 : ℚ) + 1 ≠ 0 → (2 / 3 : ℚ) = 2 / (2 + 1)) ∧ ((2 : ℚ) + 1 = 0 → (2 / 3 : ℚ) = 0)) :=
  ⟨by decide!,
    C4_instability testproject.statPackage testproject.pkgs testproject.pkgs
      { Package := testproject.service, ImportsNodes := [1, 2],
        Stat := testproject.statPackage testproject.service,
        Ca := 1, Ce := 2, A := 1 / 2, I := 2 / 3, D := 1 / 6 }
      (by decide!)⟩

/-- C5: after ComputeMetrics on a graph freshly built by From from packages whose
declaration stats come from the classifier, every node has D = |A + I - 1| and
A, I and D all lie between 0 and 1 (over exact rational arithmetic). -/
theorem C5_metric_ranges (sp : Package → stat.Stat) (pkgs allPkgs : List Package)
    (hcls : ∀ p ∈ pkgs, (sp p).Decls.classified) (n : Node)
    (hn : n ∈ ((From sp pkgs).ComputeMetrics allPkgs).nodes) :
    n.D = |n.A + n.I - 1| ∧ 0 ≤ n.A ∧ n.A ≤ 1 ∧ 0 ≤ n.I ∧ n.I ≤ 1 ∧ 0 ≤ n.D ∧ n.D ≤ 1 := by
  obtain ⟨n0, hf, rfl⟩ := fresh_metrics_node sp pkgs allPkgs n hn
  obtain ⟨hmem, hStat, _, _, hA, hI, _⟩ := hf
  obtain ⟨_, _, _, _, hA', hI', hD'⟩ := metricsOf_fresh allPkgs n0 hA hI
  obtain ⟨hi0, hiT⟩ := stat.classified_bounds _ (hcls _ hmem)
  rw [← hStat] at hi0 hiT
  have hA0 : 0 ≤ (metricsOf allPkgs n0).A ∧ (metricsOf allPkgs n0).A ≤ 1 := by
    rw [hA']
    by_cases h : n0.Stat.Decls.Type_ > 0
    · rw [if_pos h]
      have hT : (0 : ℚ) < (n0.Stat.Decls.Type_ : ℚ) := by exact_mod_cast h
      have hi : (0 : ℚ) ≤ (n0.Stat.Decls.Interface : ℚ) := by exact_mod_cast hi0
      have hle : (n0.Stat.Decls.Interface : ℚ) ≤ (n0.Stat.Decls.Type_ : ℚ) := by
        exact_mod_cast hiT
      exact ⟨div_nonneg hi hT.le, (div_le_one hT).mpr hle⟩
    · rw [if_neg h]; exact ⟨le_refl 0, zero_le_one⟩
  have hI0 : 0 ≤ (metricsOf allPkgs n0).I ∧ (metricsOf allPkgs n0).I ≤ 1 := by
    rw [hI']
    have hca : (0 : ℚ) ≤ (countCa allPkgs n0 : ℚ) := by positivity
    have hce : (0 : ℚ) ≤ (n0.Package.Imports.length : ℚ) := by positivity
    by_cases h : (countCa allPkgs n0 : ℚ) + (n0.Package.Imports.length : ℚ) > 0
    · rw [if_pos h]
      exact ⟨div_nonneg hce h.le, (div_le_one h).mpr (by linarith)⟩
    · rw [if_neg h]; exact ⟨le_refl 0, zero_le_one⟩
  refine ⟨hD', hA0.1, hA0.2, hI0.1, hI0.2, ?_, ?_⟩
  · rw [hD']; exact abs_nonneg _
  · rw [hD', abs_le]
    constructor <;> linarith [hA0.1, hA0.2, hI0.1, hI0.2]

/-- Witness of C5: the five packages of the test project, their stats being the
classifier results of their files; `service` has A = 1/2, I = 2/3, D = 1/6. -/
theorem C5_witness :
    (∀ p ∈ testproject.pkgs, (testproject.statPackage p).Decls.classified) ∧
    ({ Package := testproject.service, ImportsNodes := [1, 2],
       Stat := testproject.statPackage testproject.service,
       Ca := 1, Ce := 2, A := 1 / 2, I := 2 / 3, D := 1 / 6 } : Node) ∈
      ((From testproject.statPackage testproject.pkgs).ComputeMetrics testproject.pkgs).nodes ∧
    ((1 / 6 : ℚ) = |(1 / 2 : ℚ) + 2 / 3 - 1| ∧ (0 : ℚ) ≤ 1 / 2 ∧ (1 / 2 : ℚ) ≤ 1 ∧
      (0 : ℚ) ≤ 2 / 3 ∧ (2 / 3 : ℚ) ≤ 1 ∧ (0 : ℚ) ≤ 1 / 6 ∧ (1 / 6 : ℚ) ≤ 1) :=
  ⟨fun p _ => ⟨testproject.files p.ID, by
      unfold testproject.files
      split_ifs <;> decide, rfl⟩,
    by decide!,
    C5_metric_ranges testproject.statPackage testproject.pkgs testproject.pkgs
      (fun p _ => ⟨testproject.files p.ID, by
        unfold testproject.files
        split_ifs <;> decide, rfl⟩)
      { Package := testproject.service, ImportsNodes := [1, 2],
        Stat := testproject.statPackage testproject.service,
        Ca := 1, Ce := 2, A := 1 / 2, I := 2 / 3, D := 1 / 6 }
      (by decide!)⟩

/-- C10: ComputeMetrics is idempotent: on every graph and universe, a second call with
the same universe leaves the whole graph, and so Ca, Ce, A, I and D of every node, as
the first call left it. -/
theorem C10_ComputeMetrics_idempotent (g : Graph) (allPkgs : List Package) :
    (g.ComputeMetrics allPkgs).ComputeMetrics allPkgs = g.ComputeMetrics allPkgs :=
  ComputeMetrics_twice g allPkgs

end pkggraph

/-! ## Lemmas on ComputeStructuralCoupling -/

namespace pkggraph

theorem applyOp_Packages (g : Graph) (op : Nat × Bool) : (applyOp g op).Packages = g.Packages :=
  rfl

theorem applyOp_Sorted (g : Graph) (op : Nat × Bool) : (applyOp g op).Sorted = g.Sorted :=
  rfl

theorem applyOp_pkgs (g : Graph) (op : Nat × Bool) :
    (applyOp g op).heap.map (fun n => n.Package) = g.heap.map (fun n => n.Package) := by
  unfold applyOp Graph.update
  apply modify_map_inv
  intro n
  cases op.2 <;> rfl

theorem foldl_applyOp_static (ops : List (Nat × Bool)) :
    ∀ g : Graph, (ops.foldl applyOp g).Packages = g.Packages ∧
      (ops.foldl applyOp g).Sorted = g.Sorted ∧
      (ops.foldl applyOp g).heap.map (fun n => n.Package) = g.heap.map (fun n => n.Package) := by
  induction ops with
  | nil => intro g; exact ⟨rfl, rfl, rfl⟩
  | cons op ops ih =>
    intro g
    obtain ⟨h1, h2, h3⟩ := ih (applyOp g op)
    rw [List.foldl_cons, h1, h2, h3, applyOp_pkgs]
    exact ⟨rfl, rfl, rfl⟩

theorem couplePair_eq_ops (Implements : GoType → Interface → Bool) (cp : pkgConcretes)
    (cn : Nat) (g : Graph) (ip : pkgIfaces) :
    couplePair Implements cp cn g ip =
      (pairOps Implements g.Packages (g.heap.map (fun n => n.Package)) cp cn ip).foldl
        applyOp g := by
  unfold couplePair pairOps
  by_cases hid : cp.id = ip.id
  · simp [hid]
  · simp only [if_neg hid]
    cases hget : mapGet g.Packages ip.id with
    | none => rfl
    | some inn =>
      simp only
      by_cases hs : satisfied Implements cp ip = false
      · simp [hs]
      · simp only [if_neg hs, List.getElem?_map]
        cases hc : g.heap[cn]? with
        | none => simp
        | some cnode =>
          cases hi : g.heap[inn]? with
          | none => simp
          | some inode =>
            simp only [Option.map_some']
            by_cases h1 : inode.Package.PkgPath ∈ cnode.Package.Imports <;>
              by_cases h2 : cnode.Package.PkgPath ∈ inode.Package.Imports <;>
              simp [h1, h2, applyOp]

theorem foldl_couplePair_eq_ops (Implements : GoType → Interface → Bool) (cp : pkgConcretes)
    (cn : Nat) (ips : List pkgIfaces) :
    ∀ g : Graph, ips.foldl (couplePair Implements cp cn) g =
      (ips.flatMap
        (pairOps Implements g.Packages (g.heap.map (fun n => n.Package)) cp cn)).foldl
        applyOp g := by
  induction ips with
  | nil => intro g; rfl
  | cons ip ips ih =>
    intro g
    rw [List.foldl_cons, ih, couplePair_eq_ops]
    obtain ⟨h1, _, h3⟩ := foldl_applyOp_static
      (pairOps Implements g.Packages (g.heap.map (fun n => n.Package)) cp cn ip) g
    rw [h1, h3, List.flatMap_cons, List.foldl_append]

theorem ComputeStructuralCoupling_eq_ops (g : Graph) (Implements : GoType → Interface → Bool) :
    g.ComputeStructuralCoupling Implements = (allOps Implements g).foldl applyOp g := by
  unfold Graph.ComputeStructuralCoupling allOps
  dsimp only
  generalize (collect g).1 = ips
  generalize (collect g).2 = cps
  suffices h : ∀ (g0 g : Graph), g.Packages = g0.Packages →
      g.heap.map (fun n => n.Package) = g0.heap.map (fun n => n.Package) →
      cps.foldl (fun g cp =>
        match mapGet g.Packages cp.id with
        | none => g
        | some cn => ips.foldl (couplePair Implements cp cn) g) g =
      (cps.flatMap (fun cp =>
        match mapGet g0.Packages cp.id with
        | none => []
        | some cn => ips.flatMap
            (pairOps Implements g0.Packages (g0.heap.map (fun n => n.Package)) cp cn))).foldl
        applyOp g from h g g rfl rfl
  induction cps with
  | nil => intro g0 g _ _; rfl
  | cons cp cps ih =>
    intro g0 g hP hH
    rw [List.foldl_cons, List.flatMap_cons, List.foldl_append]
    cases hget : mapGet g0.Packages cp.id with
    | none =>
      rw [hP, hget]
      exact ih g0 g hP hH
    | some cn =>
      rw [hP, hget]
      simp only
      rw [foldl_couplePair_eq_ops, hP, hH]
      apply ih
      · rw [(foldl_applyOp_static _ g).1, hP]
      · rw [(foldl_applyOp_static _ g).2.2, hH]

theorem foldl_applyOp_getElem? (ops : List (Nat × Bool)) :
    ∀ (g : Graph) (i : Nat), (ops.foldl applyOp g).heap[i]? =
      (g.heap[i]?).map (fun n =>
        { n with SCe := n.SCe + (ops.count (i, true) : ℚ),
                 SCa := n.SCa + (ops.count (i, false) : ℚ) }) := by
  induction ops with
  | nil =>
    intro g i
    rw [List.foldl_nil]
    cases hg : g.heap[i]? with
    | none => rfl
    | some n => simp
  | cons op ops ih =>
    intro g i
    rw [List.foldl_cons, ih]
    unfold applyOp Graph.update
    simp only [List.getElem?_modify]
    obtain ⟨r, b⟩ := op
    cases hg : g.heap[i]? with
    | none => simp
    | some n =>
      simp only [Option.map_some', Option.some.injEq, List.count_cons]
      by_cases h : r = i
      · subst h
        cases b <;> simp [incSCe, incSCa] <;> ring
      · have h1 : ((r, b) == (i, true)) = false := by simp [h]
        have h2 : ((r, b) == (i, false)) = false := by simp [h]
        simp [h, h1, h2]

theorem create_eq (sp : Package → stat.Stat) (g : Graph) (p : Package) :
    From.create sp g p =
      { heap := g.heap ++ [LoadNode sp p],
        Packages := mapSet g.Packages p.ID g.heap.length,
        Sorted := g.Sorted ++ [g.heap.length] } := by
  unfold From.create Graph.AddNode
  simp [LoadNode]

theorem mapSet_fresh (m : List (String × Nat)) (k : String) (v : Nat)
    (h : k ∉ m.map Prod.fst) : mapSet m k v = m ++ [(k, v)] := by
  induction m with
  | nil => rfl
  | cons e rest ih =>
    obtain ⟨k', v'⟩ := e
    simp only [List.map_cons, List.mem_cons, not_or] at h
    unfold mapSet
    rw [if_neg (fun hk => h.1 hk.symm), ih h.2]
    rfl

theorem foldl_create_eq (sp : Package → stat.Stat) (pkgs : List Package) :
    ∀ g : Graph, (pkgs.map (fun p => p.ID)).Nodup →
      (∀ p ∈ pkgs, p.ID ∉ g.Packages.map Prod.fst) →
      pkgs.foldl (From.create sp) g =
        { heap := g.heap ++ pkgs.map (LoadNode sp),
          Packages := g.Packages ++
            (pkgs.map (fun p => p.ID)).zip (List.range' g.heap.length pkgs.length),
          Sorted := g.Sorted ++ List.range' g.heap.length pkgs.length } := by
  induction pkgs with
  | nil => intro g _ _; simp
  | cons p ps ih =>
    intro g hnd hfresh
    simp only [List.map_cons, List.nodup_cons] at hnd
    rw [List.foldl_cons, create_eq, ih _ hnd.2]
    · rw [mapSet_fresh _ _ _ (hfresh p (List.mem_cons_self _ _))]
      simp [List.range'_succ, Nat.add_comm]
    · intro q hq
      rw [mapSet_fresh _ _ _ (hfresh p (List.mem_cons_self _ _))]
      simp only [List.map_append, List.map_cons, List.map_nil, List.mem_append,
        List.mem_singleton, not_or]
      refine ⟨hfresh q (List.mem_cons_of_mem _ hq), ?_⟩
      intro hqp
      exact hnd.1 (hqp ▸ List.mem_map_of_mem (fun p => p.ID) hq)

theorem From_static (sp : Package → stat.Stat) (pkgs : List Package)
    (hnd : (pkgs.map (fun p => p.ID)).Nodup) :
    (From sp pkgs).Packages = (pkgs.map (fun p => p.ID)).zip (List.range pkgs.length) ∧
      List.Perm (From sp pkgs).Sorted (List.range pkgs.length) ∧
      (From sp pkgs).heap.map (fun n => n.Package) = pkgs := by
  refine ⟨?_, ?_, ?_⟩
  · unfold From
    simp only [forEachNode_Packages]
    rw [foldl_create_eq sp pkgs {} hnd (by intro p _; simp)]
    simp [List.range_eq_range']
  · unfold From
    simp only [forEachNode_Sorted]
    rw [foldl_create_eq sp pkgs {} hnd (by intro p _; simp)]
    unfold SortNodes
    simp only [List.nil_append, List.length_nil, ← List.range_eq_range']
    exact List.perm_insertionSort _ _
  · rw [From_heap_map sp pkgs (fun n => n.Package) (fun _ _ => rfl), List.map_map]
    exact List.map_id pkgs

theorem mapGet_zip (ids : List String) :
    ∀ (s j : Nat) (id : String), ids.Nodup → ids[j]? = some id →
      mapGet (ids.zip (List.range' s ids.length)) id = some (s + j) := by
  induction ids with
  | nil => intro s j id _ h; simp at h
  | cons a rest ih =>
    intro s j id hnd h
    simp only [List.nodup_cons] at hnd
    simp only [List.length_cons, List.range'_succ, List.zip_cons_cons]
    unfold mapGet
    cases j with
    | zero =>
      simp only [List.getElem?_cons_zero, Option.some.injEq] at h
      rw [if_pos h]; rfl
    | succ j =>
      simp only [List.getElem?_cons_succ] at h
      have hne : a ≠ id := fun e => hnd.1 (e ▸ List.mem_iff_getElem?.mpr ⟨j, h⟩)
      rw [if_neg hne, ih (s + 1) j id hnd.2 h]
      congr 1; omega

theorem From_mapGet (sp : Package → stat.Stat) (pkgs : List Package)
    (hnd : (pkgs.map (fun p => p.ID)).Nodup) (j : Nat) (p : Package)
    (hp : pkgs[j]? = some p) : mapGet (From sp pkgs).Packages p.ID = some j := by
  rw [(From_static sp pkgs hnd).1, List.range_eq_range']
  have h := mapGet_zip (pkgs.map (fun p => p.ID)) 0 j p.ID hnd (by simp [hp])
  simpa using h

theorem filterMap_range_getElem? {α : Type} (l : List α) :
    (List.range l.length).filterMap (fun i => l[i]?) = l := by
  induction l using List.reverseRecOn with
  | nil => rfl
  | append_singleton l a ih =>
    rw [List.length_append, List.length_singleton, List.range_succ, List.filterMap_append]
    have h1 : (List.range l.length).filterMap (fun i => (l ++ [a])[i]?) =
        (List.range l.length).filterMap (fun i => l[i]?) := by
      apply List.filterMap_congr
      intro i hi
      rw [List.getElem?_append_left (List.mem_range.mp hi)]
    rw [h1, ih]
    simp

theorem nodes_eq_heap (g : Graph) (h : g.Packages.map Prod.snd = List.range g.heap.length) :
    g.nodes = g.heap := by
  unfold Graph.nodes
  have h2 : g.Packages.filterMap (fun e => g.heap[e.2]?) =
      (g.Packages.map Prod.snd).filterMap (fun i => g.heap[i]?) := by
    rw [List.filterMap_map]; rfl
  rw [h2, h, filterMap_range_getElem?]

theorem sortedNodes_perm_heap (g : Graph) (h : List.Perm g.Sorted (List.range g.heap.length)) :
    List.Perm g.sortedNodes g.heap := by
  unfold Graph.sortedNodes
  have h2 := List.Perm.filterMap (fun i => g.heap[i]?) h
  rw [filterMap_range_getElem?] at h2
  exact h2

end pkggraph

namespace pkggraph

theorem scanScope_eq (objs : List Object) :
    scanScope objs =
      (objs.filterMap Object.methodInterface, objs.filterMap Object.concreteType) := by
  unfold scanScope
  suffices h : ∀ (acc : List Interface × List GoType),
      objs.foldl
        (fun acc obj =>
          match obj with
          | Object.TypeName t =>
            match t.underlyingInterface with
            | some iface => if iface.NumMethods > 0 then (acc.1 ++ [iface], acc.2) else acc
            | none => (acc.1, acc.2 ++ [t])
          | Object.OtherObject => acc) acc =
      (acc.1 ++ objs.filterMap Object.methodInterface,
        acc.2 ++ objs.filterMap Object.concreteType) by
    simpa using h ([], [])
  induction objs with
  | nil => intro acc; simp
  | cons o rest ih =>
    intro acc
    rw [List.foldl_cons, ih]
    cases o with
    | OtherObject => simp [Object.methodInterface, Object.concreteType]
    | TypeName t =>
      cases hu : t.underlyingInterface with
      | none => simp [Object.methodInterface, Object.concreteType, hu]
      | some iface =>
        by_cases hm : iface.NumMethods > 0
        · have hm' : 1 ≤ iface.NumMethods := hm
          simp [Object.methodInterface, Object.concreteType, hu, hm, hm']
        · have hm' : ¬ 1 ≤ iface.NumMethods := hm
          simp [Object.methodInterface, Object.concreteType, hu, hm, hm']

theorem collectStep_eq (acc : List pkgIfaces × List pkgConcretes) (n : Node) :
    collectStep acc n =
      (acc.1 ++ (iEntry n.Package).toList, acc.2 ++ (cEntry n.Package).toList) := by
  unfold collectStep iEntry cEntry Package.methodInterfaces Package.concreteTypes
  cases hT : n.Package.Types with
  | none => simp
  | some objs =>
    simp only [scanScope_eq]
    by_cases h1 : (objs.filterMap Object.methodInterface).length > 0 <;>
      by_cases h2 : (objs.filterMap Object.concreteType).length > 0 <;>
      simp [h1, h2]

theorem foldl_collectStep (nodes : List Node) :
    ∀ acc : List pkgIfaces × List pkgConcretes,
      nodes.foldl collectStep acc =
        (acc.1 ++ (nodes.map (fun n => n.Package)).filterMap iEntry,
          acc.2 ++ (nodes.map (fun n => n.Package)).filterMap cEntry) := by
  induction nodes with
  | nil => intro acc; simp
  | cons n rest ih =>
    intro acc
    rw [List.foldl_cons, ih, collectStep_eq]
    cases hi : iEntry n.Package <;> cases hc : cEntry n.Package <;>
      simp [List.filterMap_cons, hi, hc]

theorem foldl_deref {α : Type} (heap : List Node) (step : α → Node → α) (refs : List Nat) :
    ∀ a : α, refs.foldl (fun acc r => match heap[r]? with
        | some n => step acc n
        | none => acc) a =
      (refs.filterMap (fun r => heap[r]?)).foldl step a := by
  induction refs with
  | nil => intro a; rfl
  | cons r rs ih =>
    intro a
    rw [List.foldl_cons, ih]
    cases h : heap[r]? with
    | none => simp [List.filterMap_cons, h]
    | some n => simp [List.filterMap_cons, h]

theorem collect_eq (g : Graph) :
    collect g =
      ((g.sortedNodes.map (fun n => n.Package)).filterMap iEntry,
        (g.sortedNodes.map (fun n => n.Package)).filterMap cEntry) := by
  unfold collect Graph.sortedNodes
  rw [foldl_deref, foldl_collectStep]
  simp

theorem flatMap_filterMap {α β γ : Type} (l : List α) (f : α → Option β) (k : β → List γ) :
    (l.filterMap f).flatMap k =
      l.flatMap (fun a => match f a with
        | none => []
        | some b => k b) := by
  induction l with
  | nil => rfl
  | cons a rest ih =>
    cases h : f a with
    | none => simp [List.filterMap_cons, h, ih]
    | some b => simp [List.filterMap_cons, h, ih]

theorem allOps_eq (Implements : GoType → Interface → Bool) (g : Graph) :
    allOps Implements g =
      (g.sortedNodes.map (fun n => n.Package)).flatMap (fun C =>
        (g.sortedNodes.map (fun n => n.Package)).flatMap (fun I =>
          pkgOps Implements g.Packages (g.heap.map (fun n => n.Package)) C I)) := by
  unfold allOps
  rw [collect_eq]
  simp only
  rw [flatMap_filterMap]
  apply List.flatMap_congr
  intro C _
  unfold pkgOps
  cases cEntry C with
  | none => simp
  | some cp =>
    simp only
    cases mapGet g.Packages cp.id with
    | none => simp
    | some cn =>
      simp only
      rw [flatMap_filterMap]
      apply List.flatMap_congr
      intro I _
      cases iEntry I <;> rfl

theorem count_flatMap_sum {α β : Type} [BEq β] (l : List α) (f : α → List β) (x : β) :
    (l.flatMap f).count x = (l.map (fun a => (f a).count x)).sum := by
  induction l with
  | nil => rfl
  | cons a rest ih => simp [List.flatMap_cons, List.count_append, ih]

theorem sum_map_ite_eq {α : Type} [DecidableEq α] (l : List α) (a : α) (K : Nat) :
    (l.map (fun c => if c = a then K else 0)).sum = l.count a * K := by
  induction l with
  | nil => simp
  | cons c rest ih =>
    rw [List.map_cons, List.sum_cons, ih, List.count_cons]
    by_cases h : c = a
    · simp [h]; ring
    · simp [h]

theorem countP_eq_sum {α : Type} (l : List α) (p : α → Bool) :
    l.countP p = (l.map (fun a => if p a then 1 else 0)).sum := by
  induction l with
  | nil => rfl
  | cons c rest ih =>
    rw [List.map_cons, List.sum_cons, List.countP_cons, ih]
    cases p c <;> simp [Nat.add_comm]

theorem sum_map_zero {α : Type} (l : List α) (f : α → Nat) (h : ∀ a ∈ l, f a = 0) :
    (l.map f).sum = 0 := by
  induction l with
  | nil => rfl
  | cons c rest ih =>
    rw [List.map_cons, List.sum_cons, h c (List.mem_cons_self _ _),
      ih (fun a ha => h a (List.mem_cons_of_mem _ ha))]

theorem satisfied_iff (Implements : GoType → Interface → Bool) (C I : Package)
    (cp : pkgConcretes) (ip : pkgIfaces) (hc : cEntry C = some cp) (hi : iEntry I = some ip) :
    satisfied Implements cp ip = true ↔ satisfies Implements C I := by
  unfold cEntry at hc
  unfold iEntry at hi
  split at hc
  · split at hi
    · simp only [Option.some.injEq] at hc hi
      subst hc; subst hi
      simp [satisfied, satisfies, List.any_eq_true]
    · exact absurd hi (by simp)
  · exact absurd hc (by simp)

theorem not_satisfies_of_cEntry_none (Implements : GoType → Interface → Bool) (C I : Package)
    (hc : cEntry C = none) : ¬ satisfies Implements C I := by
  unfold cEntry at hc
  split at hc
  · exact absurd hc (by simp)
  · rename_i h
    have h0 : C.concreteTypes = [] := by
      cases hl : C.concreteTypes with
      | nil => rfl
      | cons a l => rw [hl] at h; simp at h
    simp [satisfies, h0]

theorem not_satisfies_of_iEntry_none (Implements : GoType → Interface → Bool) (C I : Package)
    (hi : iEntry I = none) : ¬ satisfies Implements C I := by
  unfold iEntry at hi
  split at hi
  · exact absurd hi (by simp)
  · rename_i h
    have h0 : I.methodInterfaces = [] := by
      cases hl : I.methodInterfaces with
      | nil => rfl
      | cons a l => rw [hl] at h; simp at h
    simp [satisfies, h0]

theorem cEntry_id (C : Package) (cp : pkgConcretes) (hc : cEntry C = some cp) : cp.id = C.ID := by
  unfold cEntry at hc
  split at hc
  · simp only [Option.some.injEq] at hc; rw [← hc]
  · exact absurd hc (by simp)

theorem iEntry_id (I : Package) (ip : pkgIfaces) (hi : iEntry I = some ip) : ip.id = I.ID := by
  unfold iEntry at hi
  split at hi
  · simp only [Option.some.injEq] at hi; rw [← hi]
  · exact absurd hi (by simp)

theorem pkgOps_fresh (Implements : GoType → Interface → Bool) (sp : Package → stat.Stat)
    (pkgs : List Package) (hnd : (pkgs.map (fun p => p.ID)).Nodup) (cn inn : Nat)
    (C I : Package) (hC : pkgs[cn]? = some C) (hI : pkgs[inn]? = some I) :
    pkgOps Implements (From sp pkgs).Packages pkgs C I =
      if C.ID ≠ I.ID ∧ satisfies Implements C I then
        (if importsDirectly C I then [] else [(cn, true)]) ++
          (if importsDirectly I C then [] else [(inn, false)])
      else [] := by
  unfold pkgOps
  cases hc : cEntry C with
  | none =>
    simp only
    rw [if_neg (fun h => not_satisfies_of_cEntry_none Implements C I hc h.2)]
  | some cp =>
    simp only
    rw [cEntry_id C cp hc, From_mapGet sp pkgs hnd cn C hC]
    simp only
    cases hi : iEntry I with
    | none =>
      simp only
      rw [if_neg (fun h => not_satisfies_of_iEntry_none Implements C I hi h.2)]
    | some ip =>
      simp only
      unfold pairOps
      rw [cEntry_id C cp hc, iEntry_id I ip hi, From_mapGet sp pkgs hnd inn I hI]
      simp only [hC, hI]
      by_cases hid : C.ID = I.ID
      · simp [hid]
      · by_cases hs : satisfies Implements C I
        · have hs' : satisfied Implements cp ip = true :=
            (satisfied_iff Implements C I cp ip hc hi).mpr hs
          simp [hid, hs, hs', importsDirectly]
        · have hs' : satisfied Implements cp ip = false := by
            cases h : satisfied Implements cp ip with
            | false => rfl
            | true => exact absurd ((satisfied_iff Implements C I cp ip hc hi).mp h) hs
          simp [hid, hs, hs']

theorem index_eq_iff (pkgs : List Package) (hnd : (pkgs.map (fun p => p.ID)).Nodup)
    (i j : Nat) (Pi Pj : Package) (hi : pkgs[i]? = some Pi) (hj : pkgs[j]? = some Pj) :
    j = i ↔ Pj = Pi := by
  constructor
  · intro h; subst h; rw [hi] at hj; exact (Option.some.inj hj).symm
  · intro h
    subst h
    have hlt : j < pkgs.length := (List.getElem?_eq_some_iff.mp hj).1
    exact List.getElem?_inj hlt (List.Nodup.of_map _ hnd) (hj.trans hi.symm)

theorem count_sce (Implements : GoType → Interface → Bool) (sp : Package → stat.Stat)
    (pkgs : List Package) (hnd : (pkgs.map (fun p => p.ID)).Nodup) (i : Nat) (Pi : Package)
    (hi : pkgs[i]? = some Pi) :
    (pkgs.flatMap (fun C => pkgs.flatMap (fun I =>
        pkgOps Implements (From sp pkgs).Packages pkgs C I))).count (i, true) =
      pkgs.countP (fun I =>
        decide (I.ID ≠ Pi.ID ∧ satisfies Implements Pi I ∧ ¬ importsDirectly Pi I)) := by
  have hmem : Pi ∈ pkgs := List.mem_iff_getElem?.mpr ⟨i, hi⟩
  rw [count_flatMap_sum]
  have inner : ∀ C ∈ pkgs,
      (pkgs.flatMap (fun I =>
        pkgOps Implements (From sp pkgs).Packages pkgs C I)).count (i, true) =
      if C = Pi then pkgs.countP (fun I =>
        decide (I.ID ≠ Pi.ID ∧ satisfies Implements Pi I ∧ ¬ importsDirectly Pi I)) else 0 := by
    intro C hC
    obtain ⟨cn, hcn⟩ := List.mem_iff_getElem?.mp hC
    rw [count_flatMap_sum]
    by_cases hCP : C = Pi
    · subst hCP
      have hci : cn = i := (index_eq_iff pkgs hnd i cn C C hi hcn).mpr rfl
      subst hci
      rw [if_pos rfl, countP_eq_sum]
      apply congrArg
      apply List.map_congr_left
      intro I hI
      obtain ⟨inn, hinn⟩ := List.mem_iff_getElem?.mp hI
      rw [pkgOps_fresh Implements sp pkgs hnd cn inn C I hcn hinn]
      by_cases h1 : C.ID = I.ID
      · simp [h1]
      · have h1' : ¬ I.ID = C.ID := fun h => h1 h.symm
        by_cases h2 : satisfies Implements C I <;> by_cases h3 : importsDirectly C I <;>
          by_cases h4 : importsDirectly I C <;> simp [h1, h1', h2, h3, h4]
    · rw [if_neg hCP]
      apply sum_map_zero
      intro I hI
      obtain ⟨inn, hinn⟩ := List.mem_iff_getElem?.mp hI
      have hne : ¬ cn = i := fun h => hCP ((index_eq_iff pkgs hnd i cn Pi C hi hcn).mp h)
      rw [pkgOps_fresh Implements sp pkgs hnd cn inn C I hcn hinn]
      by_cases h1 : C.ID = I.ID
      · simp [h1]
      · by_cases h2 : satisfies Implements C I <;> by_cases h3 : importsDirectly C I <;>
          by_cases h4 : importsDirectly I C <;> simp [h1, h2, h3, h4, hne, List.count_cons]
  rw [List.map_congr_left inner, sum_map_ite_eq,
    List.count_eq_one_of_mem (List.Nodup.of_map _ hnd) hmem, Nat.one_mul]

theorem count_sca (Implements : GoType → Interface → Bool) (sp : Package → stat.Stat)
    (pkgs : List Package) (hnd : (pkgs.map (fun p => p.ID)).Nodup) (i : Nat) (Pi : Package)
    (hi : pkgs[i]? = some Pi) :
    (pkgs.flatMap (fun C => pkgs.flatMap (fun I =>
        pkgOps Implements (From sp pkgs).Packages pkgs C I))).count (i, false) =
      pkgs.countP (fun C =>
        decide (C.ID ≠ Pi.ID ∧ satisfies Implements C Pi ∧ ¬ importsDirectly Pi C)) := by
  have hmem : Pi ∈ pkgs := List.mem_iff_getElem?.mpr ⟨i, hi⟩
  rw [count_flatMap_sum, countP_eq_sum]
  apply congrArg
  apply List.map_congr_left
  intro C hC
  obtain ⟨cn, hcn⟩ := List.mem_iff_getElem?.mp hC
  rw [count_flatMap_sum]
  have inner : ∀ I ∈ pkgs,
      (pkgOps Implements (From sp pkgs).Packages pkgs C I).count (i, false) =
      if I = Pi then (if decide (C.ID ≠ Pi.ID ∧ satisfies Implements C Pi ∧
        ¬ importsDirectly Pi C) = true then 1 else 0) else 0 := by
    intro I hI
    obtain ⟨inn, hinn⟩ := List.mem_iff_getElem?.mp hI
    rw [pkgOps_fresh Implements sp pkgs hnd cn inn C I hcn hinn]
    by_cases hIP : I = Pi
    · subst hIP
      have hci : inn = i := (index_eq_iff pkgs hnd i inn I I hi hinn).mpr rfl
      subst hci
      by_cases h1 : C.ID = I.ID
      · simp [h1]
      · by_cases h2 : satisfies Implements C I <;> by_cases h3 : importsDirectly C I <;>
          by_cases h4 : importsDirectly I C <;> simp [h1, h2, h3, h4]
    · have hne : ¬ inn = i := fun h => hIP ((index_eq_iff pkgs hnd i inn Pi I hi hinn).mp h)
      rw [if_neg hIP]
      by_cases h1 : C.ID = I.ID
      · simp [h1]
      · by_cases h2 : satisfies Implements C I <;> by_cases h3 : importsDirectly C I <;>
          by_cases h4 : importsDirectly I C <;> simp [h1, h2, h3, h4, hne, List.count_cons]
  rw [List.map_congr_left inner, sum_map_ite_eq,
    List.count_eq_one_of_mem (List.Nodup.of_map _ hnd) hmem, Nat.one_mul]

theorem CSC_static (g : Graph) (Implements : GoType → Interface → Bool) :
    (g.ComputeStructuralCoupling Implements).Packages = g.Packages ∧
      (g.ComputeStructuralCoupling Implements).Sorted = g.Sorted ∧
      (g.ComputeStructuralCoupling Implements).heap.map (fun n => n.Package) =
        g.heap.map (fun n => n.Package) := by
  rw [ComputeStructuralCoupling_eq_ops]
  exact foldl_applyOp_static _ g

theorem CSC_getElem? (g : Graph) (Implements : GoType → Interface → Bool) (i : Nat) :
    (g.ComputeStructuralCoupling Implements).heap[i]? =
      (g.heap[i]?).map (fun n =>
        { n with SCe := n.SCe + ((allOps Implements g).count (i, true) : ℚ),
                 SCa := n.SCa + ((allOps Implements g).count (i, false) : ℚ) }) := by
  rw [ComputeStructuralCoupling_eq_ops]
  exact foldl_applyOp_getElem? _ g i

theorem allOps_fresh_perm (Implements : GoType → Interface → Bool) (sp : Package → stat.Stat)
    (pkgs : List Package) (hnd : (pkgs.map (fun p => p.ID)).Nodup) :
    List.Perm (allOps Implements (From sp pkgs))
      (pkgs.flatMap (fun C => pkgs.flatMap (fun I =>
        pkgOps Implements (From sp pkgs).Packages pkgs C I))) := by
  obtain ⟨_, hS, hH⟩ := From_static sp pkgs hnd
  have hlen : (From sp pkgs).heap.length = pkgs.length := by
    have := congrArg List.length hH
    simpa using this
  have hperm : List.Perm ((From sp pkgs).sortedNodes.map (fun n => n.Package)) pkgs := by
    have h1 := sortedNodes_perm_heap (From sp pkgs) (by rw [hlen]; exact hS)
    have h2 := List.Perm.map (fun n => n.Package) h1
    rw [hH] at h2
    exact h2
  rw [allOps_eq, hH]
  refine List.Perm.trans (List.Perm.flatMap_right _ hperm) ?_
  apply List.Perm.flatMap_left
  intro C _
  exact List.Perm.flatMap_right _ hperm

theorem CSC_fresh_node (Implements : GoType → Interface → Bool) (sp : Package → stat.Stat)
    (pkgs : List Package) (hnd : (pkgs.map (fun p => p.ID)).Nodup) :
    ((From sp pkgs).ComputeStructuralCoupling Implements).nodes.map (fun n => n.Package) = pkgs ∧
    ∀ C ∈ ((From sp pkgs).ComputeStructuralCoupling Implements).nodes,
      C.SCe = (pkgs.countP (fun I => decide (I.ID ≠ C.Package.ID ∧
          satisfies Implements C.Package I ∧ ¬ importsDirectly C.Package I)) : ℚ) ∧
      C.SCa = (pkgs.countP (fun K => decide (K.ID ≠ C.Package.ID ∧
          satisfies Implements K C.Package ∧ ¬ importsDirectly C.Package K)) : ℚ) := by
  obtain ⟨hP, _, hH⟩ := From_static sp pkgs hnd
  obtain ⟨hP', _, hH'⟩ := CSC_static (From sp pkgs) Implements
  have hlen : ((From sp pkgs).ComputeStructuralCoupling Implements).heap.length =
      pkgs.length := by
    have := congrArg List.length (hH'.trans hH)
    simpa using this
  have hnodes : ((From sp pkgs).ComputeStructuralCoupling Implements).nodes =
      ((From sp pkgs).ComputeStructuralCoupling Implements).heap := by
    apply nodes_eq_heap
    rw [hP', hP, hlen, List.map_snd_zip]
    simp
  rw [hnodes]
  refine ⟨hH'.trans hH, ?_⟩
  intro C hC
  obtain ⟨i, hi⟩ := List.mem_iff_getElem?.mp hC
  rw [CSC_getElem?] at hi
  cases hg : (From sp pkgs).heap[i]? with
  | none => rw [hg] at hi; simp at hi
  | some n0 =>
    rw [hg] at hi
    simp only [Option.map_some', Option.some.injEq] at hi
    have hfresh := From_heap_fresh sp pkgs n0 (List.mem_iff_getElem?.mpr ⟨i, hg⟩)
    obtain ⟨_, _, _, _, _, _, _, hSCa, hSCe⟩ := hfresh
    have hpi : pkgs[i]? = some n0.Package := by
      have := congrArg (fun l => l[i]?) hH
      simp only [List.getElem?_map, hg, Option.map_some'] at this
      exact this.symm
    have hperm := allOps_fresh_perm Implements sp pkgs hnd
    rw [← hi]
    simp only [hSCa, hSCe, zero_add]
    have he : (allOps Implements (From sp pkgs)).count (i, true) = _ :=
      (List.Perm.countP_eq (fun x => x == (i, true)) hperm).trans
        (count_sce Implements sp pkgs hnd i n0.Package hpi)
    have ha : (allOps Implements (From sp pkgs)).count (i, false) = _ :=
      (List.Perm.countP_eq (fun x => x == (i, false)) hperm).trans
        (count_sca Implements sp pkgs hnd i n0.Package hpi)
    rw [he, ha]
    exact ⟨rfl, rfl⟩

end pkggraph

/-! ## The structural coupling of ComputeStructuralCoupling -/

namespace pkggraph

/-- C6: on a graph freshly built by From from packages with pairwise distinct IDs, after
ComputeStructuralCoupling each node C has SCe equal to the number of nodes I with another
ID such that some named non-interface type T of C, or *T, implements some interface with
at least one method of I, and C does not directly import I. A node that C imports is
never counted, whatever its interfaces. -/
theorem C6_SCe_counts_satisfied_not_imported (Implements : GoType → Interface → Bool)
    (sp : Package → stat.Stat) (pkgs : List Package)
    (hnd : (pkgs.map (fun p => p.ID)).Nodup) (C : Node)
    (hC : C ∈ ((From sp pkgs).ComputeStructuralCoupling Implements).nodes) :
    C.SCe = (((From sp pkgs).ComputeStructuralCoupling Implements).nodes.countP
      (fun I => decide (I.Package.ID ≠ C.Package.ID ∧
        satisfies Implements C.Package I.Package ∧
        ¬ importsDirectly C.Package I.Package)) : ℚ) := by
  obtain ⟨hmap, hall⟩ := CSC_fresh_node Implements sp pkgs hnd
  rw [(hall C hC).1]
  conv_lhs => rw [← hmap]
  rw [List.countP_map]
  rfl

/-- Witness of C6: in the test project `compat` has SCe = 1, for `base`. -/
theorem C6_witness :
    (testproject.pkgs.map (fun p => p.ID)).Nodup ∧
    ({ Package := testproject.compat, Stat := testproject.statPackage testproject.compat,
       SCe := 1 } : Node) ∈
      ((From testproject.statPackage testproject.pkgs).ComputeStructuralCoupling
        testproject.Implements).nodes ∧
    (1 : ℚ) = (((From testproject.statPackage testproject.pkgs).ComputeStructuralCoupling
        testproject.Implements).nodes.countP
      (fun I => decide (I.Package.ID ≠ testproject.compat.ID ∧
        satisfies testproject.Implements testproject.compat I.Package ∧
        ¬ importsDirectly testproject.compat I.Package)) : ℚ) :=
  ⟨by decide!, by decide!,
    C6_SCe_counts_satisfied_not_imported testproject.Implements testproject.statPackage
      testproject.pkgs (by decide!)
      { Package := testproject.compat, Stat := testproject.statPackage testproject.compat,
        SCe := 1 }
      (by decide!)⟩

/-- C7: on a graph freshly built by From from packages with pairwise distinct IDs, after
ComputeStructuralCoupling each node I has SCa equal to the number of nodes C with another
ID having some named non-interface type T such that T or *T implements some interface
with at least one method of I, and I does not directly import C. The node itself is
never counted. -/
theorem C7_SCa_counts_satisfying_not_imported (Implements : GoType → Interface → Bool)
    (sp : Package → stat.Stat) (pkgs : List Package)
    (hnd : (pkgs.map (fun p => p.ID)).Nodup) (I : Node)
    (hI : I ∈ ((From sp pkgs).ComputeStructuralCoupling Implements).nodes) :
    I.SCa = (((From sp pkgs).ComputeStructuralCoupling Implements).nodes.countP
      (fun C => decide (C.Package.ID ≠ I.Package.ID ∧
        satisfies Implements C.Package I.Package ∧
        ¬ importsDirectly I.Package C.Package)) : ℚ) := by
  obtain ⟨hmap, hall⟩ := CSC_fresh_node Implements sp pkgs hnd
  rw [(hall I hI).2]
  conv_lhs => rw [← hmap]
  rw [List.countP_map]
  rfl

/-- Witness of C7: in the test project `base` has SCa = 1, for `compat`; its own type
`Config` does not count. -/
theorem C7_witness :
    (testproject.pkgs.map (fun p => p.ID)).Nodup ∧
    ({ Package := testproject.base, Stat := testproject.statPackage testproject.base,
       SCa := 1 } : Node) ∈
      ((From testproject.statPackage testproject.pkgs).ComputeStructuralCoupling
        testproject.Implements).nodes ∧
    (1 : ℚ) = (((From testproject.statPackage testproject.pkgs).ComputeStructuralCoupling
        testproject.Implements).nodes.countP
      (fun C => decide (C.Package.ID ≠ testproject.base.ID ∧
        satisfies testproject.Implements C.Package testproject.base ∧
        ¬ importsDirectly testproject.base C.Package)) : ℚ) :=
  ⟨by decide!, by decide!,
    C7_SCa_counts_satisfying_not_imported testproject.Implements testproject.statPackage
      testproject.pkgs (by decide!)
      { Package := testproject.base, Stat := testproject.statPackage testproject.base,
        SCa := 1 }
      (by decide!)⟩

/-- C8, the code at the end-to-end scenario: `A` has one interface with one method and
imports nothing, `B` imports `A` and has one concrete type implementing the interface.
ComputeStructuralCoupling leaves SCe(B) = 0 but sets SCa(A) = 1: the importer `B` is
counted in SCa(A), because the code tests whether `A` imports `B`. -/
theorem C8_scenario_SCa_counts_the_importer :
    ((From (fun _ => {}) [scenario.A, scenario.B]).ComputeStructuralCoupling
        scenario.Implements).nodes.map (fun n => (n.Package.ID, n.SCa, n.SCe)) =
      [("A", 1, 0), ("B", 0, 0)] := by
  decide!

theorem pairOps_count_le (Implements : GoType → Interface → Bool)
    (Packages : List (String × Nat)) (P : List Package) (cp : pkgConcretes) (cn : Nat)
    (ip : pkgIfaces) (i : Nat) (b : Bool) :
    (pairOps Implements Packages P cp cn ip).count (i, b) ≤ 1 := by
  unfold pairOps
  by_cases hid : cp.id = ip.id
  · simp [hid]
  · rw [if_neg hid]
    cases mapGet Packages ip.id with
    | none => simp
    | some inn =>
      simp only
      by_cases hs : satisfied Implements cp ip = false
      · simp [hs]
      · rw [if_neg hs]
        cases P[cn]? with
        | none => simp
        | some cpkg =>
          cases P[inn]? with
          | none => simp
          | some ipkg =>
            simp only
            by_cases h1 : ipkg.PkgPath ∈ cpkg.Imports <;>
              by_cases h2 : cpkg.PkgPath ∈ ipkg.Imports <;>
              cases b <;> simp [h1, h2, List.count_cons] <;> split <;> omega

theorem countP_eq_sum_rat {α : Type} (l : List α) (p : α → Prop) [DecidablePred p] :
    (l.countP (fun a => decide (p a)) : ℚ) =
      (l.map (fun a => if p a then (1 : ℚ) else 0)).sum := by
  induction l with
  | nil => simp
  | cons c rest ih =>
    rw [List.map_cons, List.sum_cons, List.countP_cons, ← ih]
    by_cases h : p c <;> simp [h]
    ring

/-- C9: structural coupling has OR-semantics per ordered pair of packages. The body of
the inner loop, run once for a pair (concrete package, interface package), raises SCe of
any node by 0 or 1 and SCa of any node by 0 or 1, however many types and interfaces
match; and after one run on a graph freshly built by From from packages with pairwise
distinct IDs, SCe and SCa of every node are sums, over the nodes, of a contribution that
is 1 or 0. -/
theorem C9_or_semantics_per_pair (Implements : GoType → Interface → Bool)
    (sp : Package → stat.Stat) (pkgs : List Package)
    (hnd : (pkgs.map (fun p => p.ID)).Nodup) (N : Node)
    (hN : N ∈ ((From sp pkgs).ComputeStructuralCoupling Implements).nodes) :
    (∀ (cp : pkgConcretes) (cn : Nat) (g : Graph) (ip : pkgIfaces) (i : Nat) (n : Node),
      g.heap[i]? = some n →
      ∃ n', (couplePair Implements cp cn g ip).heap[i]? = some n' ∧
        (n'.SCe = n.SCe ∨ n'.SCe = n.SCe + 1) ∧ (n'.SCa = n.SCa ∨ n'.SCa = n.SCa + 1)) ∧
    N.SCe = (((From sp pkgs).ComputeStructuralCoupling Implements).nodes.map
      (fun I => if I.Package.ID ≠ N.Package.ID ∧ satisfies Implements N.Package I.Package ∧
        ¬ importsDirectly N.Package I.Package then (1 : ℚ) else 0)).sum ∧
    N.SCa = (((From sp pkgs).ComputeStructuralCoupling Implements).nodes.map
      (fun C => if C.Package.ID ≠ N.Package.ID ∧ satisfies Implements C.Package N.Package ∧
        ¬ importsDirectly N.Package C.Package then (1 : ℚ) else 0)).sum := by
  refine ⟨?_, ?_, ?_⟩
  · intro cp cn g ip i n hn
    rw [couplePair_eq_ops, foldl_applyOp_getElem?, hn]
    refine ⟨_, rfl, ?_, ?_⟩
    · have h := pairOps_count_le Implements g.Packages (g.heap.map (fun n => n.Package))
        cp cn ip i true
      rcases Nat.le_one_iff_eq_zero_or_eq_one.mp h with h0 | h1
      · left; simp [h0]
      · right; simp [h1]
    · have h := pairOps_count_le Implements g.Packages (g.heap.map (fun n => n.Package))
        cp cn ip i false
      rcases Nat.le_one_iff_eq_zero_or_eq_one.mp h with h0 | h1
      · left; simp [h0]
      · right; simp [h1]
  · obtain ⟨hmap, hall⟩ := CSC_fresh_node Implements sp pkgs hnd
    rw [(hall N hN).1, ← countP_eq_sum_rat]
    conv_lhs => rw [← hmap]
    rw [List.countP_map]
    rfl
  · obtain ⟨hmap, hall⟩ := CSC_fresh_node Implements sp pkgs hnd
    rw [(hall N hN).2, ← countP_eq_sum_rat]
    conv_lhs => rw [← hmap]
    rw [List.countP_map]
    rfl

/-- Witness of C9: in the test project both `*ByteReader` and `*ByteWriter` of `compat`
implement interfaces of `base`, neither package imports the other, and SCe(compat) is
1, not 2. -/
theorem C9_witness :
    (testproject.Implements (GoType.Pointer (GoType.Named 20 none)) testproject.Reader = true ∧
      testproject.Implements (GoType.Pointer (GoType.Named 21 none)) testproject.Writer = true) ∧
    (testproject.pkgs.map (fun p => p.ID)).Nodup ∧
    ({ Package := testproject.compat, Stat := testproject.statPackage testproject.compat,
       SCe := 1 } : Node) ∈
      ((From testproject.statPackage testproject.pkgs).ComputeStructuralCoupling
        testproject.Implements).nodes ∧
    (1 : ℚ) = (((From testproject.statPackage testproject.pkgs).ComputeStructuralCoupling
        testproject.Implements).nodes.map
      (fun I => if I.Package.ID ≠ testproject.compat.ID ∧
        satisfies testproject.Implements testproject.compat I.Package ∧
        ¬ importsDirectly testproject.compat I.Package then (1 : ℚ) else 0)).sum :=
  ⟨by decide, by decide!, by decide!,
    (C9_or_semantics_per_pair testproject.Implements testproject.statPackage
      testproject.pkgs (by decide!)
      { Package := testproject.compat, Stat := testproject.statPackage testproject.compat,
        SCe := 1 }
      (by decide!)).2.1⟩

end pkggraph

/-! ## ComputeMetrics and the values held before the call -/

namespace pkggraph

theorem metricsOf_spec (allPkgs : List Package) (n0 : Node) :
    (metricsOf allPkgs n0).Package = n0.Package ∧
    (metricsOf allPkgs n0).Stat = n0.Stat ∧
    (metricsOf allPkgs n0).Ca = (countCa allPkgs n0 : ℚ) ∧
    (metricsOf allPkgs n0).Ce = (n0.Package.Imports.length : ℚ) ∧
    (metricsOf allPkgs n0).A =
      (if n0.Stat.Decls.Type_ > 0
        then (n0.Stat.Decls.Interface : ℚ) / (n0.Stat.Decls.Type_ : ℚ) else n0.A) ∧
    (metricsOf allPkgs n0).I =
      (if (countCa allPkgs n0 : ℚ) + (n0.Package.Imports.length : ℚ) > 0
        then (n0.Package.Imports.length : ℚ) /
          ((countCa allPkgs n0 : ℚ) + (n0.Package.Imports.length : ℚ)) else n0.I) ∧
    (metricsOf allPkgs n0).D = |(metricsOf allPkgs n0).A + (metricsOf allPkgs n0).I - 1| := by
  unfold metricsOf caStep ceStep aidStep
  by_cases h1 : n0.Stat.Decls.Type_ > 0 <;>
    by_cases h2 : (countCa allPkgs n0 : ℚ) + (n0.Package.Imports.length : ℚ) > 0 <;>
    simp [h1, h2]

/-- C11, counterexample: on a graph whose only node has no type declarations and no
imports, and held A = 1/2 and I = 1/2 before the call, ComputeMetrics with the empty
universe leaves A = 1/2 although Type = 0, and I = 1/2 although Ca + Ce = 0. -/
theorem C11_counterexample_stale_A_and_I :
    (scenario.staleGraph.ComputeMetrics []).nodes.map
        (fun n => (n.Stat.Decls.Type_, n.A, n.Ca + n.Ce, n.I)) =
      [(0, 1 / 2, 0, 1 / 2)] := by
  decide!

/-- C11, amended: ComputeMetrics recomputes Ca, Ce and D of every node from the imports,
the universe and the A and I it ends with; A is recomputed from the declaration stats
when Type > 0 and otherwise keeps the value held before the call; I is recomputed when
Ca + Ce > 0 and otherwise keeps the value held before the call. So A = 0 for a node
without type declarations, and I = 0 for a node with Ca + Ce = 0, when the field was 0
before the call. -/
theorem C11_recomputed_or_kept (g : Graph) (allPkgs : List Package) (n : Node)
    (hn : n ∈ (g.ComputeMetrics allPkgs).nodes) :
    ∃ n0 ∈ g.nodes, n.Package = n0.Package ∧ n.Stat = n0.Stat ∧
      n.Ca = (allPkgs.countP
        (fun m => decide (m.ID ≠ n.Package.ID ∧ n.Package.PkgPath ∈ m.Imports)) : ℚ) ∧
      n.Ce = (n.Package.Imports.length : ℚ) ∧
      n.A = (if n.Stat.Decls.Type_ > 0
        then (n.Stat.Decls.Interface : ℚ) / (n.Stat.Decls.Type_ : ℚ) else n0.A) ∧
      n.I = (if n.Ca + n.Ce > 0 then n.Ce / (n.Ca + n.Ce) else n0.I) ∧
      n.D = |n.A + n.I - 1| ∧
      (n0.A = 0 → n.Stat.Decls.Type_ = 0 → n.A = 0) ∧
      (n0.I = 0 → n.Ca + n.Ce = 0 → n.I = 0) := by
  rw [ComputeMetrics_nodes] at hn
  obtain ⟨n0, h0, rfl⟩ := List.mem_map.mp hn
  obtain ⟨hP, hS, hCa, hCe, hA, hI, hD⟩ := metricsOf_spec allPkgs n0
  refine ⟨n0, h0, hP, hS, ?_, ?_, ?_, ?_, hD, ?_, ?_⟩
  · rw [hCa, countCa_eq, hP]
  · rw [hCe, hP]
  · rw [hA, hS]
  · rw [hI, hCa, hCe]
  · intro h0A hT
    rw [hA, ← hS, if_neg (by omega), h0A]
  · intro h0I hz
    rw [hCa, hCe] at hz
    rw [hI, if_neg (by rw [hz]; exact lt_irrefl 0), h0I]

/-- Witness of C11: the stale graph; Ca, Ce and D are recomputed, A and I are kept. -/
theorem C11_witness :
    ({ Package := { ID := "p", PkgPath := "p" }, A := 1 / 2, I := 1 / 2, D := 0 } : Node) ∈
      (scenario.staleGraph.ComputeMetrics []).nodes ∧
    ∃ n0 ∈ scenario.staleGraph.nodes, n0.A = 1 / 2 ∧ n0.I = 1 / 2 :=
  ⟨by decide!, by
    obtain ⟨n0, h0, _, _, _, _, hA, hI, _⟩ := C11_recomputed_or_kept scenario.staleGraph []
      { Package := { ID := "p", PkgPath := "p" }, A := 1 / 2, I := 1 / 2, D := 0 }
      (by decide!)
    simp only [gt_iff_lt, lt_self_iff_false, if_false] at hA
    norm_num at hI
    exact ⟨n0, h0, hA.symm, hI.symm⟩⟩

end pkggraph

namespace pkggraph

theorem countCa_perm (U U' : List Package) (h : List.Perm U' U) (n : Node) :
    countCa U' n = countCa U n := by
  rw [countCa_eq, countCa_eq]
  exact List.Perm.countP_eq _ h

theorem countCa_cons (U : List Package) (p : Package) (n : Node) :
    countCa (p :: U) n =
      countCa U n + (if p.ID ≠ n.Package.ID ∧ n.Package.PkgPath ∈ p.Imports then 1 else 0) := by
  rw [countCa_eq, countCa_eq, List.countP_cons]
  by_cases h : p.ID ≠ n.Package.ID ∧ n.Package.PkgPath ∈ p.Imports
  · simp [h]
  · rw [if_neg h]
    simp only [decide_eq_true_eq, h, if_false]

/-- C12: Ca is monotone in the universe. Let `U'` be the universe `U` with one more
package `p`, wherever the map places it. For every graph and every node of it, Ca
computed with `U'` is not smaller than Ca computed with `U`, and it is exactly 1 larger
when `p` has another ID than the node and directly imports it. -/
theorem C12_Ca_monotone_in_universe (g : Graph) (U U' : List Package) (p : Package)
    (hperm : List.Perm U' (p :: U)) (e : String × Nat) (he : e ∈ g.Packages) (n n' : Node)
    (hn : (g.ComputeMetrics U).heap[e.2]? = some n)
    (hn' : (g.ComputeMetrics U').heap[e.2]? = some n') :
    n.Ca ≤ n'.Ca ∧
      (p.ID ≠ n.Package.ID → importsDirectly p n.Package → n'.Ca = n.Ca + 1) := by
  have hi : e.2 ∈ g.Packages.map Prod.snd := List.mem_map_of_mem Prod.snd he
  rw [ComputeMetrics_getElem?, if_pos hi] at hn hn'
  cases hg : g.heap[e.2]? with
  | none => rw [hg] at hn; simp at hn
  | some n0 =>
    rw [hg] at hn hn'
    simp only [Option.map_some', Option.some.injEq] at hn hn'
    obtain ⟨hP, _, hCa, _⟩ := metricsOf_spec U n0
    obtain ⟨_, _, hCa', _⟩ := metricsOf_spec U' n0
    rw [← hn, ← hn', hCa, hCa', hP, countCa_perm (p :: U) U' hperm, countCa_cons]
    constructor
    · exact_mod_cast Nat.le_add_right _ _
    · intro h1 h2
      rw [if_pos ⟨h1, h2⟩]
      push_cast
      rfl

/-- Witness of C12: the graph holds `base` of the test project; adding `types`, which
imports `base`, to the universe that holds `base` alone raises Ca(base) from 0 to 1. -/
theorem C12_witness :
    List.Perm [testproject.types, testproject.base] [testproject.types, testproject.base] ∧
    (("testproject/base", 0) : String × Nat) ∈
      (From testproject.statPackage [testproject.base]).Packages ∧
    ((0 : ℚ) ≤ 1 ∧ (testproject.types.ID ≠ testproject.base.ID →
      importsDirectly testproject.types testproject.base → (1 : ℚ) = 0 + 1)) :=
  ⟨List.Perm.refl _, by decide,
    C12_Ca_monotone_in_universe (From testproject.statPackage [testproject.base])
      [testproject.base] [testproject.types, testproject.base] testproject.types
      (List.Perm.refl _) ("testproject/base", 0) (by decide)
      { Package := testproject.base, Stat := testproject.statPackage testproject.base,
        Ca := 0, Ce := 0, A := 2 / 3, I := 0, D := 1 / 3 }
      { Package := testproject.base, Stat := testproject.statPackage testproject.base,
        Ca := 1, Ce := 0, A := 2 / 3, I := 0, D := 1 / 3 }
      (by decide!) (by decide!)⟩

end pkggraph

/-! ## The counters of the classifier -/

namespace stat

theorem wrap64_wrap64_sub (a b : Int) : wrap64 (wrap64 a - b) = wrap64 (a - b) :=
  wrap64_congr _ _ (Int.ModEq.sub (wrap64_modEq a) (Int.ModEq.refl b))

theorem wrap64_add_sub_cancel (a b : Int) (h : isInt64 a) : wrap64 (wrap64 (a + b) - b) = a := by
  rw [wrap64_wrap64_sub, add_sub_cancel_right, wrap64_of_range a h.1 h.2]

theorem wrap64_add_assoc (a b c : Int) :
    wrap64 (wrap64 (a + b) + c) = wrap64 (a + wrap64 (b + c)) := by
  rw [wrap64_wrap64_add, add_comm a (wrap64 (b + c)), wrap64_wrap64_add]
  congr 1
  ring

/-- C19: Decls.Sub undoes Decls.Add under int64 wrap-around: for counters `s` holding
int64 values and any `b`, `s.Add(b)` followed by `s.Sub(b)` restores all six fields of
`s`; and Add is commutative and associative. -/
theorem C19_Sub_undoes_Add (s b c : Decls) (hs : s.inRange) :
    (s.Add b).Sub b = s ∧ s.Add b = b.Add s ∧ (s.Add b).Add c = s.Add (b.Add c) := by
  obtain ⟨h1, h2, h3, h4, h5, h6⟩ := hs
  refine ⟨?_, ?_, ?_⟩
  · cases s
    simp only [Decls.Add, Decls.Sub, Decls.mk.injEq] at *
    exact ⟨wrap64_add_sub_cancel _ _ h1, wrap64_add_sub_cancel _ _ h2,
      wrap64_add_sub_cancel _ _ h3, wrap64_add_sub_cancel _ _ h4,
      wrap64_add_sub_cancel _ _ h5, wrap64_add_sub_cancel _ _ h6⟩
  · simp only [Decls.Add, Decls.mk.injEq]
    exact ⟨by rw [add_comm], by rw [add_comm], by rw [add_comm], by rw [add_comm],
      by rw [add_comm], by rw [add_comm]⟩
  · simp only [Decls.Add, Decls.mk.injEq]
    exact ⟨wrap64_add_assoc _ _ _, wrap64_add_assoc _ _ _, wrap64_add_assoc _ _ _,
      wrap64_add_assoc _ _ _, wrap64_add_assoc _ _ _, wrap64_add_assoc _ _ _⟩

/-- Witness of C19: adding 1 to Func = 2^63 - 1 wraps to -2^63, and subtracting it again
gives 2^63 - 1 back. -/
theorem C19_witness :
    scenario.maxFunc.inRange ∧ (scenario.maxFunc.Add { Func := 1 }).Func = -2 ^ 63 ∧
    ((scenario.maxFunc.Add { Func := 1 }).Sub { Func := 1 } = scenario.maxFunc ∧
      scenario.maxFunc.Add { Func := 1 } = Decls.Add { Func := 1 } scenario.maxFunc ∧
      (scenario.maxFunc.Add { Func := 1 }).Add { Func := 1 } =
        scenario.maxFunc.Add (Decls.Add { Func := 1 } { Func := 1 })) :=
  ⟨by decide, by decide,
    C19_Sub_undoes_Add scenario.maxFunc { Func := 1 } { Func := 1 } (by decide)⟩

end stat

namespace stat

theorem foldl_typeSpecStep_others (specs : List Spec) :
    ∀ st : Decls, (specs.foldl typeSpecStep st).Func = st.Func ∧
      (specs.foldl typeSpecStep st).Const = st.Const ∧
      (specs.foldl typeSpecStep st).Var = st.Var ∧
      (specs.foldl typeSpecStep st).Other = st.Other := by
  induction specs with
  | nil => intro st; exact ⟨rfl, rfl, rfl, rfl⟩
  | cons sp rest ih =>
    intro st
    rw [List.foldl_cons]
    obtain ⟨h1, h2, h3, h4⟩ := ih (typeSpecStep st sp)
    rw [h1, h2, h3, h4]
    cases sp with
    | TypeSpec name ty =>
      by_cases h : ty = Expr.InterfaceType ∧ name.IsExported = true <;>
        simp [typeSpecStep, h]
    | ImportSpec => simp [typeSpecStep]
    | ValueSpec => simp [typeSpecStep]

theorem declStep_others (st : Decls) (d : Decl) (F C V O : Int)
    (hF : st.Func = wrap64 F) (hC : st.Const = wrap64 C) (hV : st.Var = wrap64 V)
    (hO : st.Other = wrap64 O) :
    (declStep st d).Func = wrap64 (F + (if d.isFunc then 1 else 0)) ∧
      (declStep st d).Const = wrap64 (C + (if d.isConst then 1 else 0)) ∧
      (declStep st d).Var = wrap64 (V + (if d.isVar then 1 else 0)) ∧
      (declStep st d).Other = wrap64 (O + (if d.isOther then 1 else 0)) := by
  cases d with
  | GenDecl tok specs =>
    cases tok
    case TYPE =>
      obtain ⟨h1, h2, h3, h4⟩ := foldl_typeSpecStep_others specs st
      simp only [declStep, h1, h2, h3, h4]
      simpa [Decl.isFunc, Decl.isConst, Decl.isVar, Decl.isOther] using ⟨hF, hC, hV, hO⟩
    all_goals
      simp [declStep, Decl.isFunc, Decl.isConst, Decl.isVar, Decl.isOther, hF, hC, hV, hO,
        wrap64_wrap64_add]
  | FuncDecl =>
    simp [declStep, Decl.isFunc, Decl.isConst, Decl.isVar, Decl.isOther, hF, hC, hV, hO,
      wrap64_wrap64_add]
  | BadDecl =>
    simp [declStep, Decl.isFunc, Decl.isConst, Decl.isVar, Decl.isOther, hF, hC, hV, hO,
      wrap64_wrap64_add]

theorem foldl_declStep_others (ds : List Decl) :
    ∀ (st : Decls) (F C V O : Int), st.Func = wrap64 F → st.Const = wrap64 C →
      st.Var = wrap64 V → st.Other = wrap64 O →
      (ds.foldl declStep st).Func = wrap64 (F + (ds.countP Decl.isFunc : Nat)) ∧
        (ds.foldl declStep st).Const = wrap64 (C + (ds.countP Decl.isConst : Nat)) ∧
        (ds.foldl declStep st).Var = wrap64 (V + (ds.countP Decl.isVar : Nat)) ∧
        (ds.foldl declStep st).Other = wrap64 (O + (ds.countP Decl.isOther : Nat)) := by
  induction ds with
  | nil => intro st F C V O hF hC hV hO; simpa using ⟨hF, hC, hV, hO⟩
  | cons d rest ih =>
    intro st F C V O hF hC hV hO
    obtain ⟨h1, h2, h3, h4⟩ := declStep_others st d F C V O hF hC hV hO
    obtain ⟨h5, h6, h7, h8⟩ := ih _ _ _ _ _ h1 h2 h3 h4
    rw [List.foldl_cons, h5, h6, h7, h8]
    simp only [List.countP_cons]
    refine ⟨?_, ?_, ?_, ?_⟩
    · congr 1
      cases d.isFunc <;> simp
      ring
    · congr 1
      cases d.isConst <;> simp
      ring
    · congr 1
      cases d.isVar <;> simp
      ring
    · congr 1
      cases d.isOther <;> simp
      ring

theorem decl_kinds (ds : List Decl) :
    ds.countP Decl.isFunc + ds.countP Decl.isConst + ds.countP Decl.isVar +
      ds.countP Decl.isOther + ds.countP Decl.isType = ds.length := by
  induction ds with
  | nil => rfl
  | cons d rest ih =>
    simp only [List.countP_cons, List.length_cons]
    cases d with
    | GenDecl tok specs =>
      cases tok <;> simp [Decl.isFunc, Decl.isConst, Decl.isVar, Decl.isOther, Decl.isType] <;>
        omega
    | FuncDecl =>
      simp [Decl.isFunc, Decl.isConst, Decl.isVar, Decl.isOther, Decl.isType]; omega
    | BadDecl =>
      simp [Decl.isFunc, Decl.isConst, Decl.isVar, Decl.isOther, Decl.isType]; omega

theorem DeclsFromAst_fields (f : File) (h : f.Decls.length + f.typeSpecCount < 2 ^ 63) :
    (DeclsFromAst f).Func = (f.Decls.countP Decl.isFunc : Nat) ∧
      (DeclsFromAst f).Type_ = (f.typeSpecCount : Nat) ∧
      (DeclsFromAst f).Const = (f.Decls.countP Decl.isConst : Nat) ∧
      (DeclsFromAst f).Var = (f.Decls.countP Decl.isVar : Nat) ∧
      (DeclsFromAst f).Other = (f.Decls.countP Decl.isOther : Nat) := by
  obtain ⟨hF, hC, hV, hO⟩ := foldl_declStep_others f.Decls {} 0 0 0 0
    (by decide) (by decide) (by decide) (by decide)
  obtain ⟨hT, _⟩ := DeclsFromAst_counts f
  have hk := decl_kinds f.Decls
  unfold DeclsFromAst at hT ⊢
  rw [hF, hC, hV, hO, hT, zero_add, zero_add, zero_add, zero_add,
    wrap64_of_range _ (by omega) (by omega), wrap64_of_range _ (by omega) (by omega),
    wrap64_of_range _ (by omega) (by omega), wrap64_of_range _ (by omega) (by omega),
    wrap64_of_range _ (by omega) (by omega)]
  exact ⟨rfl, rfl, rfl, rfl, rfl⟩

theorem wrap64_sum_of_counts (F T C V O : Nat) (h : F + T + C + V + O < 2 ^ 63) :
    wrap64 (wrap64 (wrap64 (wrap64 ((F : Int) + (T : Int)) + (C : Int)) + (V : Int)) +
      (O : Int)) = ((F + T + C + V + O : Nat) : Int) := by
  rw [wrap64_of_range ((F : Int) + (T : Int)) (by omega) (by omega),
    wrap64_of_range ((F : Int) + (T : Int) + (C : Int)) (by omega) (by omega),
    wrap64_of_range ((F : Int) + (T : Int) + (C : Int) + (V : Int)) (by omega) (by omega),
    wrap64_of_range ((F : Int) + (T : Int) + (C : Int) + (V : Int) + (O : Int))
      (by omega) (by omega)]
  push_cast
  rfl

/-- C17, counterexample: the file with the one declaration `type ( A int; B string )`
has one top-level declaration, and Total() of its classification is 2. -/
theorem C17_counterexample_two_specs :
    scenario.twoSpecs.Decls.length = 1 ∧ (DeclsFromAst scenario.twoSpecs).Total = 2 := by
  decide!

/-- C17, amended: every top-level declaration is of exactly one of the kinds function,
type, const, var, other. For a file whose declarations and type specs number less than
2^63, Func, Const, Var and Other count the declarations of their kind, one each; Type
counts the specs of the type declarations, not the type declarations; and Total() is the
number of declarations that are not type declarations plus the number of type specs. -/
theorem C17_Total_counts_declarations_and_type_specs (f : File)
    (h : f.Decls.length + f.typeSpecCount < 2 ^ 63) :
    (∀ d : Decl, [d.isFunc, d.isType, d.isConst, d.isVar, d.isOther].count true = 1) ∧
    (DeclsFromAst f).Func = (f.Decls.countP Decl.isFunc : Nat) ∧
    (DeclsFromAst f).Type_ = (f.typeSpecCount : Nat) ∧
    (DeclsFromAst f).Const = (f.Decls.countP Decl.isConst : Nat) ∧
    (DeclsFromAst f).Var = (f.Decls.countP Decl.isVar : Nat) ∧
    (DeclsFromAst f).Other = (f.Decls.countP Decl.isOther : Nat) ∧
    (DeclsFromAst f).Total =
      ((f.Decls.countP (fun d => !d.isType) + f.typeSpecCount : Nat) : Int) := by
  have hk := decl_kinds f.Decls
  have hnt : f.Decls.countP (fun d => !d.isType) + f.Decls.countP Decl.isType =
      f.Decls.length := by
    generalize f.Decls = ds
    induction ds with
    | nil => rfl
    | cons d rest ih =>
      simp only [List.countP_cons, List.length_cons]
      cases d.isType <;> simp <;> omega
  have hb : f.Decls.countP Decl.isFunc + f.typeSpecCount + f.Decls.countP Decl.isConst +
      f.Decls.countP Decl.isVar + f.Decls.countP Decl.isOther < 2 ^ 63 := by omega
  have hs : f.Decls.countP Decl.isFunc + f.typeSpecCount + f.Decls.countP Decl.isConst +
      f.Decls.countP Decl.isVar + f.Decls.countP Decl.isOther =
      f.Decls.countP (fun d => !d.isType) + f.typeSpecCount := by omega
  obtain ⟨hF, hT, hC, hV, hO⟩ := DeclsFromAst_fields f h
  refine ⟨?_, hF, hT, hC, hV, hO, ?_⟩
  · intro d
    cases d with
    | GenDecl tok specs => cases tok <;> rfl
    | FuncDecl => rfl
    | BadDecl => rfl
  · unfold Decls.Total
    rw [hF, hT, hC, hV, hO, wrap64_sum_of_counts _ _ _ _ _ hb, hs]

/-- Witness of C17: the file of `testproject/compat`, with two type declarations of one
spec each and two functions, has Total() = 4. -/
theorem C17_witness :
    ((testproject.files "testproject/compat").map
      (fun f => decide (f.Decls.length + f.typeSpecCount < 2 ^ 63))) = [true] ∧
    (testproject.files "testproject/compat").map (fun f => (DeclsFromAst f).Total) = [4] :=
  ⟨by decide, by
    have h : testproject.files "testproject/compat" =
        [{ Decls := [testproject.typeDecl "ByteReader" true Expr.OtherExpr, Decl.FuncDecl,
            testproject.typeDecl "ByteWriter" true Expr.OtherExpr, Decl.FuncDecl] }] := by
      decide
    rw [h, List.map_cons, List.map_nil,
      (C17_Total_counts_declarations_and_type_specs _ (by decide)).2.2.2.2.2.2]
    decide⟩

end stat

namespace stat

theorem typeSpecStep_eq (st : Decls) (spec : Spec) :
    typeSpecStep st spec =
      if spec.isExportedInterface then
        { st with Type_ := wrap64 (st.Type_ + 1), Interface := wrap64 (st.Interface + 1) }
      else { st with Type_ := wrap64 (st.Type_ + 1) } := by
  cases spec with
  | TypeSpec name ty =>
    by_cases h : ty = Expr.InterfaceType ∧ name.IsExported = true <;>
      simp [typeSpecStep, Spec.isExportedInterface, h]
  | ImportSpec => simp [typeSpecStep, Spec.isExportedInterface]
  | ValueSpec => simp [typeSpecStep, Spec.isExportedInterface]

/-- C18, counterexample: the counters `s` with Type = 2^62 and Interface = 0 satisfy
0 <= Interface <= Type, and `s.Add(s)` does not: its Type wraps around to -2^63. -/
theorem C18_counterexample_Add_overflow :
    (0 ≤ scenario.hugeTypes.Interface ∧
      scenario.hugeTypes.Interface ≤ scenario.hugeTypes.Type_) ∧
    (scenario.hugeTypes.Add scenario.hugeTypes).Type_ = -2 ^ 63 ∧
    ¬ (scenario.hugeTypes.Add scenario.hugeTypes).Interface ≤
      (scenario.hugeTypes.Add scenario.hugeTypes).Type_ := by
  decide!

/-- C18, amended: for every file with fewer than 2^63 type specs, DeclsFromAst returns
Type equal to the number of specs of its type declarations and Interface equal to the
number of those specs that are type specs with an exported name and an interface type;
every type spec adds 1 to Type, and 1 to Interface exactly when it is such a spec. Hence
0 <= Interface <= Type for the classifier result, and Decls.Add preserves this
inequality whenever the sum of the two Type counters does not overflow int64. -/
theorem C18_Type_and_Interface_counts (f : File) (hf : f.typeSpecCount < 2 ^ 63)
    (s b : Decls) (hs : 0 ≤ s.Interface ∧ s.Interface ≤ s.Type_)
    (hb : 0 ≤ b.Interface ∧ b.Interface ≤ b.Type_) (hno : s.Type_ + b.Type_ < 2 ^ 63) :
    ((DeclsFromAst f).Type_ = (f.typeSpecCount : Nat) ∧
      (DeclsFromAst f).Interface = (f.interfaceCount : Nat) ∧
      0 ≤ (DeclsFromAst f).Interface ∧ (DeclsFromAst f).Interface ≤ (DeclsFromAst f).Type_) ∧
    (∀ (st : Decls) (spec : Spec), typeSpecStep st spec =
      if spec.isExportedInterface then
        { st with Type_ := wrap64 (st.Type_ + 1), Interface := wrap64 (st.Interface + 1) }
      else { st with Type_ := wrap64 (st.Type_ + 1) }) ∧
    (0 ≤ (s.Add b).Interface ∧ (s.Add b).Interface ≤ (s.Add b).Type_) := by
  obtain ⟨hT, hI⟩ := DeclsFromAst_counts f
  have hle := interfaceCount_le f
  refine ⟨?_, typeSpecStep_eq, ?_⟩
  · rw [hT, hI, wrap64_of_range _ (by omega) (by omega),
      wrap64_of_range _ (by omega) (by omega)]
    refine ⟨rfl, rfl, ?_, ?_⟩ <;> omega
  · simp only [Decls.Add]
    rw [wrap64_of_range (s.Interface + b.Interface) (by omega) (by omega),
      wrap64_of_range (s.Type_ + b.Type_) (by omega) (by omega)]
    omega

/-- Witness of C18: the file of `testproject/base` has three type specs, two of them
exported interfaces; adding its counters to themselves keeps Interface <= Type. -/
theorem C18_witness :
    (testproject.files "testproject/base").map
      (fun f => (decide (f.typeSpecCount < 2 ^ 63), (DeclsFromAst f).Type_,
        (DeclsFromAst f).Interface)) = [(true, 3, 2)] ∧
    (0 ≤ (Decls.Add { Type_ := 3, Interface := 2 } { Type_ := 3, Interface := 2 }).Interface ∧
      (Decls.Add { Type_ := 3, Interface := 2 } { Type_ := 3, Interface := 2 }).Interface ≤
        (Decls.Add { Type_ := 3, Interface := 2 } { Type_ := 3, Interface := 2 }).Type_) :=
  ⟨by decide!,
    (C18_Type_and_Interface_counts
      { Decls := [testproject.typeDecl "Reader" true Expr.InterfaceType,
          testproject.typeDecl "Writer" true Expr.InterfaceType,
          testproject.typeDecl "Config" true Expr.OtherExpr] }
      (by decide) { Type_ := 3, Interface := 2 } { Type_ := 3, Interface := 2 }
      (by decide) (by decide) (by decide)).2.2⟩

end stat

/-! ## The graph From builds -/

namespace pkggraph

theorem idOf_eq (heap : List Node) (pkgs : List Package)
    (hH : heap.map (fun n => n.Package) = pkgs) (r : Nat) (p : Package)
    (hp : pkgs[r]? = some p) : idOf heap r = p.ID := by
  have h := congrArg (fun l => l[r]?) hH
  simp only [List.getElem?_map, hp] at h
  unfold idOf
  cases hg : heap[r]? with
  | none => rw [hg] at h; simp at h
  | some n =>
    rw [hg] at h
    simp only [Option.map_some', Option.some.injEq] at h
    simp only [h]

theorem idOf_congr (heap heap' : List Node)
    (h : heap.map (fun n => n.Package) = heap'.map (fun n => n.Package)) :
    idOf heap = idOf heap' := by
  funext r
  have h2 := congrArg (fun l => l[r]?) h
  simp only [List.getElem?_map] at h2
  unfold idOf
  cases hg : heap[r]? with
  | none =>
    rw [hg] at h2
    cases hg' : heap'[r]? with
    | none => rfl
    | some n' => rw [hg'] at h2; simp at h2
  | some n =>
    rw [hg] at h2
    cases hg' : heap'[r]? with
    | none => rw [hg'] at h2; simp at h2
    | some n' =>
      rw [hg'] at h2
      simp only [Option.map_some', Option.some.injEq] at h2
      simp only [h2]

theorem SortNodes_sorted (heap : List Node) (xs : List Nat) :
    (SortNodes heap xs).Pairwise (fun a b => ¬ idOf heap b < idOf heap a) := by
  unfold SortNodes
  haveI : IsTotal Nat (fun a b => ¬ idOf heap b < idOf heap a) :=
    ⟨fun a b => by
      by_cases h : idOf heap b < idOf heap a
      · right; exact lt_asymm h
      · left; exact h⟩
  haveI : IsTrans Nat (fun a b => ¬ idOf heap b < idOf heap a) :=
    ⟨fun a b c hab hbc => by
      have h1 := not_lt.mp hab
      have h2 := not_lt.mp hbc
      exact not_lt.mpr (le_trans h1 h2)⟩
  exact List.sorted_insertionSort _ xs

theorem SortNodes_perm (heap : List Node) (xs : List Nat) : List.Perm (SortNodes heap xs) xs :=
  List.perm_insertionSort _ xs

theorem SortNodes_strict (heap : List Node) (xs : List Nat) (hxs : xs.Nodup)
    (hinj : ∀ a ∈ xs, ∀ b ∈ xs, idOf heap a = idOf heap b → a = b) :
    ((SortNodes heap xs).map (idOf heap)).Pairwise (· < ·) := by
  rw [List.pairwise_map]
  have h1 := SortNodes_sorted heap xs
  have h2 : (SortNodes heap xs).Nodup := ((SortNodes_perm heap xs).nodup_iff).mpr hxs
  have h3 := List.Pairwise.and h1 h2
  refine List.Pairwise.imp_of_mem ?_ h3
  intro a b ha hb hab
  have ha' := (SortNodes_perm heap xs).mem_iff.mp ha
  have hb' := (SortNodes_perm heap xs).mem_iff.mp hb
  rcases lt_or_eq_of_le (not_lt.mp hab.1) with h | h
  · exact h
  · exact absurd (hinj a ha' b hb' h) hab.2

theorem filterMap_deref_map (heap : List Node) (xs : List Nat)
    (hv : ∀ r ∈ xs, r < heap.length) :
    (xs.filterMap (fun r => heap[r]?)).map (fun n => n.Package.ID) = xs.map (idOf heap) := by
  induction xs with
  | nil => rfl
  | cons r rest ih =>
    have hr : r < heap.length := hv r (List.mem_cons_self _ _)
    have hg : heap[r]? = some heap[r] := List.getElem?_eq_getElem hr
    rw [List.filterMap_cons, hg, List.map_cons, List.map_cons,
      ih (fun x hx => hv x (List.mem_cons_of_mem _ hx))]
    simp [idOf, hg]

theorem From_Sorted_eq (sp : Package → stat.Stat) (pkgs : List Package)
    (hnd : (pkgs.map (fun p => p.ID)).Nodup) :
    (From sp pkgs).Sorted = SortNodes (pkgs.map (LoadNode sp)) (List.range pkgs.length) := by
  unfold From
  simp only [forEachNode_Sorted]
  rw [foldl_create_eq sp pkgs {} hnd (by intro p _; simp)]
  simp [List.range_eq_range']

end pkggraph

namespace pkggraph

theorem ids_inj (pkgs : List Package) (hnd : (pkgs.map (fun p => p.ID)).Nodup)
    (heap : List Node) (hH : heap.map (fun n => n.Package) = pkgs) :
    ∀ a ∈ List.range pkgs.length, ∀ b ∈ List.range pkgs.length,
      idOf heap a = idOf heap b → a = b := by
  intro a ha b hb hab
  have ha' : a < pkgs.length := List.mem_range.mp ha
  have hb' : b < pkgs.length := List.mem_range.mp hb
  have hpa : pkgs[a]? = some pkgs[a] := List.getElem?_eq_getElem ha'
  have hpb : pkgs[b]? = some pkgs[b] := List.getElem?_eq_getElem hb'
  rw [idOf_eq heap pkgs hH a _ hpa, idOf_eq heap pkgs hH b _ hpb] at hab
  apply List.getElem?_inj (by simpa using ha') hnd
  simp [List.getElem?_map, hpa, hpb, hab]

/-- C13: for packages with pairwise distinct IDs, From returns a graph whose Sorted
sequence holds exactly one node per input package, with that package and so its ID, in
strictly ascending order of ID, and whose Packages map sends the ID of each of these
nodes to that same node and has the IDs of the packages as its only keys. -/
theorem C13_From_sorted_and_indexed (sp : Package → stat.Stat) (pkgs : List Package)
    (hnd : (pkgs.map (fun p => p.ID)).Nodup) :
    List.Perm ((From sp pkgs).sortedNodes.map (fun n => n.Package)) pkgs ∧
    (From sp pkgs).Sorted.Nodup ∧
    ((From sp pkgs).sortedNodes.map (fun n => n.Package.ID)).Pairwise (· < ·) ∧
    (∀ r ∈ (From sp pkgs).Sorted, ∃ n, (From sp pkgs).heap[r]? = some n ∧
      mapGet (From sp pkgs).Packages n.Package.ID = some r) ∧
    (From sp pkgs).Packages.map Prod.fst = pkgs.map (fun p => p.ID) := by
  obtain ⟨hP, hS, hH⟩ := From_static sp pkgs hnd
  have hlen : (From sp pkgs).heap.length = pkgs.length := by
    have := congrArg List.length hH
    simpa using this
  have hvalid : ∀ r ∈ (From sp pkgs).Sorted, r < (From sp pkgs).heap.length := by
    intro r hr
    rw [hlen]
    exact List.mem_range.mp (hS.mem_iff.mp hr)
  refine ⟨?_, ?_, ?_, ?_, ?_⟩
  · have h1 := sortedNodes_perm_heap (From sp pkgs) (by rw [hlen]; exact hS)
    have h2 := List.Perm.map (fun n => n.Package) h1
    rw [hH] at h2
    exact h2
  · exact (hS.nodup_iff).mpr (List.nodup_range _)
  · unfold Graph.sortedNodes
    rw [filterMap_deref_map _ _ hvalid, From_Sorted_eq sp pkgs hnd]
    have hH1 : (pkgs.map (LoadNode sp)).map (fun n => n.Package) = pkgs := by
      rw [List.map_map]; exact List.map_id pkgs
    rw [idOf_congr (From sp pkgs).heap (pkgs.map (LoadNode sp)) (hH.trans hH1.symm)]
    exact SortNodes_strict _ _ (List.nodup_range _) (ids_inj pkgs hnd _ hH1)
  · intro r hr
    have hr' : r < (From sp pkgs).heap.length := hvalid r hr
    refine ⟨(From sp pkgs).heap[r], List.getElem?_eq_getElem hr', ?_⟩
    apply From_mapGet sp pkgs hnd
    have h := congrArg (fun l => l[r]?) hH
    simp only [List.getElem?_map, List.getElem?_eq_getElem hr', Option.map_some'] at h
    exact h.symm
  · rw [hP, List.map_fst_zip]
    simp

/-- Witness of C13: the five packages of the test project. -/
theorem C13_witness :
    (testproject.pkgs.map (fun p => p.ID)).Nodup ∧
    ((From testproject.statPackage testproject.pkgs).sortedNodes.map
      (fun n => n.Package.ID)).Pairwise (· < ·) :=
  ⟨by decide!, (C13_From_sorted_and_indexed testproject.statPackage testproject.pkgs
    (by decide!)).2.2.1⟩

end pkggraph

namespace pkggraph

theorem mapGet_mapSet (m : List (String × Nat)) (k : String) (v : Nat) (k' : String) :
    mapGet (mapSet m k v) k' = if k = k' then some v else mapGet m k' := by
  induction m with
  | nil =>
    unfold mapSet mapGet
    by_cases h : k = k' <;> simp [h, mapGet]
  | cons e rest ih =>
    obtain ⟨k0, v0⟩ := e
    unfold mapSet
    by_cases h0 : k0 = k
    · subst h0
      rw [if_pos rfl]
      by_cases h : k0 = k' <;> simp [mapGet, h]
    · rw [if_neg h0]
      unfold mapGet
      by_cases h1 : k0 = k'
      · subst h1
        rw [if_pos rfl, if_pos rfl, if_neg (fun h => h0 h.symm)]
      · rw [if_neg h1, if_neg h1, ih]

theorem mapSet_snd_mem (m : List (String × Nat)) (k : String) (v : Nat) :
    ∀ x ∈ (mapSet m k v).map Prod.snd, x = v ∨ x ∈ m.map Prod.snd := by
  induction m with
  | nil => intro x hx; simp [mapSet] at hx; exact Or.inl hx
  | cons e rest ih =>
    obtain ⟨k0, v0⟩ := e
    intro x hx
    unfold mapSet at hx
    by_cases h0 : k0 = k
    · rw [if_pos h0] at hx
      simp only [List.map_cons, List.mem_cons] at hx ⊢
      rcases hx with h | h
      · exact Or.inl h
      · exact Or.inr (Or.inr h)
    · rw [if_neg h0] at hx
      simp only [List.map_cons, List.mem_cons] at hx ⊢
      rcases hx with h | h
      · exact Or.inr (Or.inl h)
      · rcases ih x h with h' | h'
        · exact Or.inl h'
        · exact Or.inr (Or.inr h')

theorem mapSet_snd_nodup (m : List (String × Nat)) (k : String) (v : Nat)
    (hnd : (m.map Prod.snd).Nodup) (hv : v ∉ m.map Prod.snd) :
    ((mapSet m k v).map Prod.snd).Nodup := by
  induction m with
  | nil => simp [mapSet]
  | cons e rest ih =>
    obtain ⟨k0, v0⟩ := e
    simp only [List.map_cons, List.nodup_cons, List.mem_cons, not_or] at hnd hv
    unfold mapSet
    by_cases h0 : k0 = k
    · rw [if_pos h0]
      simp only [List.map_cons, List.nodup_cons]
      exact ⟨hv.2, hnd.2⟩
    · rw [if_neg h0]
      simp only [List.map_cons, List.nodup_cons]
      refine ⟨?_, ih hnd.2 hv.2⟩
      intro hmem
      rcases mapSet_snd_mem rest k v v0 hmem with h | h
      · exact hv.1 h.symm
      · exact hnd.1 h

theorem create_indexed (sp : Package → stat.Stat) (g : Graph) (p : Package)
    (hg : g.indexed) : (From.create sp g p).indexed := by
  obtain ⟨ha, hb, hc⟩ := hg
  rw [create_eq]
  refine ⟨?_, ?_, ?_⟩
  · intro k r hk
    simp only [mapGet_mapSet] at hk
    by_cases h : p.ID = k
    · rw [if_pos h] at hk
      simp only [Option.some.injEq] at hk
      subst hk
      exact ⟨LoadNode sp p, by simp, h⟩
    · rw [if_neg h] at hk
      obtain ⟨n, hn, hid⟩ := ha k r hk
      refine ⟨n, ?_, hid⟩
      have hlt : r < g.heap.length := (List.getElem?_eq_some_iff.mp hn).1
      simp only [List.getElem?_append_left hlt, hn]
  · exact mapSet_snd_nodup _ _ _ hb (fun h => Nat.lt_irrefl _ (hc _ h))
  · intro r hr
    simp only [List.length_append, List.length_singleton]
    rcases mapSet_snd_mem _ _ _ r hr with h | h
    · omega
    · have := hc r h
      omega

theorem foldl_create_indexed (sp : Package → stat.Stat) (pkgs : List Package) :
    ∀ g : Graph, g.indexed → (pkgs.foldl (From.create sp) g).indexed := by
  induction pkgs with
  | nil => intro g hg; exact hg
  | cons p ps ih => intro g hg; exact ih _ (create_indexed sp g p hg)

theorem link_eq (g : Graph) (n : Node) :
    From.link g n =
      { n with ImportsNodes :=
          n.ImportsNodes ++ n.Package.Imports.filterMap (mapGet g.Packages) } := by
  unfold From.link
  generalize n.Package.Imports = ids
  induction ids generalizing n with
  | nil => simp
  | cons id ids ih =>
    rw [List.foldl_cons, List.filterMap_cons]
    cases h : mapGet g.Packages id with
    | none => simp only; exact ih n
    | some d =>
      simp only
      rw [ih]
      simp

theorem forEachNode_getElem?_once (g : Graph) (body : Node → Node) (i : Nat)
    (hnd : (g.Packages.map Prod.snd).Nodup) (hi : i ∈ g.Packages.map Prod.snd) :
    (g.forEachNode body).heap[i]? = (g.heap[i]?).map body := by
  rw [forEachNode_getElem?, List.count_eq_one_of_mem hnd hi]
  rfl

theorem SortNodes_congr (heap heap' : List Node) (xs : List Nat)
    (h : heap.map (fun n => n.Package) = heap'.map (fun n => n.Package)) :
    SortNodes heap xs = SortNodes heap' xs := by
  unfold SortNodes
  rw [idOf_congr heap heap' h]

end pkggraph

namespace pkggraph

theorem indexed_of_same (g g' : Graph) (hP : g'.Packages = g.Packages)
    (hH : g'.heap.map (fun n => n.Package) = g.heap.map (fun n => n.Package))
    (hg : g.indexed) : g'.indexed := by
  obtain ⟨ha, hb, hc⟩ := hg
  have hlen : g'.heap.length = g.heap.length := by
    have := congrArg List.length hH
    simpa using this
  refine ⟨?_, ?_, ?_⟩
  · intro k r hk
    rw [hP] at hk
    obtain ⟨n, hn, hid⟩ := ha k r hk
    have h2 := congrArg (fun l => l[r]?) hH
    simp only [List.getElem?_map, hn, Option.map_some'] at h2
    cases hg' : g'.heap[r]? with
    | none => rw [hg'] at h2; simp at h2
    | some n' =>
      rw [hg'] at h2
      simp only [Option.map_some', Option.some.injEq] at h2
      exact ⟨n', rfl, by rw [h2]; exact hid⟩
  · rw [hP]; exact hb
  · rw [hP, hlen]; exact hc

theorem build_nodes (G : Graph) (hidx : G.indexed)
    (hfresh : ∀ n ∈ G.heap, n.ImportsNodes = []) :
    ∀ n ∈ ((G.forEachNode (From.link G)).forEachNode
        (From.sortImports (G.forEachNode (From.link G)))).nodes,
      n ∈ (((G.forEachNode (From.link G)).forEachNode
        (From.sortImports (G.forEachNode (From.link G)))).heap) ∧
      (∃ n0 ∈ G.heap, n.Package = n0.Package) ∧
      n.ImportsNodes =
        SortNodes ((G.forEachNode (From.link G)).forEachNode
            (From.sortImports (G.forEachNode (From.link G)))).heap
          (n.Package.Imports.filterMap (mapGet G.Packages)) := by
  intro n hn
  refine ⟨nodes_subset_heap _ n hn, ?_⟩
  unfold Graph.nodes at hn
  obtain ⟨e, he, hen⟩ := List.mem_filterMap.mp hn
  simp only [forEachNode_Packages] at he
  have hi : e.2 ∈ G.Packages.map Prod.snd := List.mem_map_of_mem Prod.snd he
  have hlinkP : ∀ m, (From.link G m).Package = m.Package := by
    intro m; rw [link_eq]
  have hH2 : (G.forEachNode (From.link G)).heap.map (fun n => n.Package) =
      G.heap.map (fun n => n.Package) :=
    forEachNode_map_inv _ _ _ hlinkP
  have hH3 : ((G.forEachNode (From.link G)).forEachNode
      (From.sortImports (G.forEachNode (From.link G)))).heap.map (fun n => n.Package) =
      (G.forEachNode (From.link G)).heap.map (fun n => n.Package) :=
    forEachNode_map_inv _ _ _ (fun _ => rfl)
  rw [forEachNode_getElem?_once _ _ _ (by rw [forEachNode_Packages]; exact hidx.2.1)
      (by rw [forEachNode_Packages]; exact hi),
    forEachNode_getElem?_once _ _ _ hidx.2.1 hi] at hen
  cases hg : G.heap[e.2]? with
  | none => rw [hg] at hen; simp at hen
  | some n0 =>
    rw [hg] at hen
    simp only [Option.map_some', Option.some.injEq] at hen
    have hn0 : n0 ∈ G.heap := List.mem_iff_getElem?.mpr ⟨e.2, hg⟩
    rw [← hen]
    refine ⟨⟨n0, hn0, ?_⟩, ?_⟩
    · simp only [From.sortImports, hlinkP]
    · simp only [From.sortImports, hlinkP]
      rw [link_eq, hfresh n0 hn0, List.nil_append]
      exact SortNodes_congr _ _ _ hH3.symm

theorem From_indexed (sp : Package → stat.Stat) (pkgs : List Package) :
    (From sp pkgs).indexed := by
  have h1 : (pkgs.foldl (From.create sp) {}).indexed :=
    foldl_create_indexed sp pkgs {} ⟨by intro k r h; simp [mapGet] at h, by simp, by simp⟩
  refine indexed_of_same _ _ ?_ ?_ h1
  · unfold From
    simp only [forEachNode_Packages]
  · rw [From_heap_map sp pkgs (fun n => n.Package) (fun _ _ => rfl), foldl_create_heap]
    rfl

theorem From_node_imports (sp : Package → stat.Stat) (pkgs : List Package) (n : Node)
    (hn : n ∈ (From sp pkgs).nodes) :
    n.ImportsNodes = SortNodes (From sp pkgs).heap
      (n.Package.Imports.filterMap (mapGet (From sp pkgs).Packages)) := by
  have h1 : (pkgs.foldl (From.create sp) {}).indexed :=
    foldl_create_indexed sp pkgs {} ⟨by intro k r h; simp [mapGet] at h, by simp, by simp⟩
  have hfresh : ∀ m ∈ (pkgs.foldl (From.create sp) {}).heap, m.ImportsNodes = [] := by
    intro m hm
    rw [foldl_create_heap] at hm
    simp only [List.nil_append, List.mem_map] at hm
    obtain ⟨p, _, rfl⟩ := hm
    rfl
  have hb := build_nodes
    { heap := (pkgs.foldl (From.create sp) {}).heap
      Packages := (pkgs.foldl (From.create sp) {}).Packages
      Sorted := SortNodes (pkgs.foldl (From.create sp) {}).heap
        (pkgs.foldl (From.create sp) {}).Sorted }
    (indexed_of_same _ _ rfl rfl h1) hfresh n hn
  have hP : (From sp pkgs).Packages = (pkgs.foldl (From.create sp) {}).Packages := by
    unfold From
    simp only [forEachNode_Packages]
  rw [hP]
  exact hb.2.2

end pkggraph

namespace pkggraph

/-- C14: in the graph From returns, the ImportsNodes of every node are exactly the graph
nodes whose ID is a key of the direct import map of its package, each once, in strictly
ascending order of ID; an import whose key is no ID of the graph is dropped, so a node all
of whose imports are absent from the graph has no ImportsNodes. The import map has
pairwise distinct keys, as every map has. -/
theorem C14_ImportsNodes_are_direct_imports_in_graph (sp : Package → stat.Stat)
    (pkgs : List Package) (himp : ∀ p ∈ pkgs, p.Imports.Nodup) (n : Node)
    (hn : n ∈ (From sp pkgs).nodes) :
    (∀ r, r ∈ n.ImportsNodes ↔
      ∃ m, (From sp pkgs).heap[r]? = some m ∧
        mapGet (From sp pkgs).Packages m.Package.ID = some r ∧
        m.Package.ID ∈ n.Package.Imports) ∧
    n.ImportsNodes.Nodup ∧
    (n.ImportsNodes.map (idOf (From sp pkgs).heap)).Pairwise (· < ·) ∧
    ((∀ id ∈ n.Package.Imports, mapGet (From sp pkgs).Packages id = none) →
      n.ImportsNodes = []) := by
  obtain ⟨ha, _, _⟩ := From_indexed sp pkgs
  have hI := From_node_imports sp pkgs n hn
  have hpk : n.Package ∈ pkgs := (From_nodes_fresh sp pkgs n hn).1
  have hmemL : ∀ r, r ∈ n.Package.Imports.filterMap (mapGet (From sp pkgs).Packages) ↔
      ∃ id ∈ n.Package.Imports, mapGet (From sp pkgs).Packages id = some r := by
    intro r; exact List.mem_filterMap
  have hidOf : ∀ id r, mapGet (From sp pkgs).Packages id = some r →
      idOf (From sp pkgs).heap r = id := by
    intro id r h
    obtain ⟨m, hm, hid⟩ := ha id r h
    simp [idOf, hm, hid]
  have hLnd : (n.Package.Imports.filterMap (mapGet (From sp pkgs).Packages)).Nodup := by
    apply List.Nodup.filterMap _ (himp _ hpk)
    intro a a' b hb hb'
    have h1 := hidOf a b (by simpa using hb)
    have h2 := hidOf a' b (by simpa using hb')
    exact h1.symm.trans h2
  refine ⟨?_, ?_, ?_, ?_⟩
  · intro r
    rw [hI, (SortNodes_perm _ _).mem_iff, hmemL]
    constructor
    · rintro ⟨id, hid, hget⟩
      obtain ⟨m, hm, hmid⟩ := ha id r hget
      exact ⟨m, hm, by rw [hmid]; exact hget, by rw [hmid]; exact hid⟩
    · rintro ⟨m, _, hget, hmem⟩
      exact ⟨m.Package.ID, hmem, hget⟩
  · rw [hI]
    exact ((SortNodes_perm _ _).nodup_iff).mpr hLnd
  · rw [hI]
    apply SortNodes_strict _ _ hLnd
    intro a haL b hbL hab
    obtain ⟨ida, _, hga⟩ := (hmemL a).mp haL
    obtain ⟨idb, _, hgb⟩ := (hmemL b).mp hbL
    rw [hidOf ida a hga, hidOf idb b hgb] at hab
    rw [hab, hgb] at hga
    exact (Option.some.inj hga).symm
  · intro hnone
    rw [hI]
    have hL : n.Package.Imports.filterMap (mapGet (From sp pkgs).Packages) = [] := by
      apply List.eq_nil_iff_forall_not_mem.mpr
      intro r hr
      obtain ⟨id, hid, hget⟩ := (hmemL r).mp hr
      rw [hnone id hid] at hget
      exact absurd hget (by simp)
    rw [hL]
    rfl

/-- Witness of C14: `Z` imports only `W`, which is not in the graph, and gets no
ImportsNodes. -/
theorem C14_witness :
    (∀ p ∈ [({ ID := "Z", PkgPath := "Z", Imports := ["W"] } : Package)], p.Imports.Nodup) ∧
    ({ Package := { ID := "Z", PkgPath := "Z", Imports := ["W"] }, ImportsNodes := [] } : Node) ∈
      (From (fun _ => {}) [{ ID := "Z", PkgPath := "Z", Imports := ["W"] }]).nodes ∧
    (([] : List Nat).Nodup ∧
      ((∀ id ∈ ["W"], mapGet (From (fun _ => {})
          [{ ID := "Z", PkgPath := "Z", Imports := ["W"] }]).Packages id = none) →
        ([] : List Nat) = [])) :=
  ⟨by decide, by decide!,
    ⟨(C14_ImportsNodes_are_direct_imports_in_graph (fun _ => {})
        [{ ID := "Z", PkgPath := "Z", Imports := ["W"] }] (by decide)
        { Package := { ID := "Z", PkgPath := "Z", Imports := ["W"] }, ImportsNodes := [] }
        (by decide!)).2.1,
      (C14_ImportsNodes_are_direct_imports_in_graph (fun _ => {})
        [{ ID := "Z", PkgPath := "Z", Imports := ["W"] }] (by decide)
        { Package := { ID := "Z", PkgPath := "Z", Imports := ["W"] }, ImportsNodes := [] }
        (by decide!)).2.2.2⟩⟩

end pkggraph

/-! ## ComputeStructuralCoupling on any graph -/

namespace pkggraph

theorem update_getElem? (g : Graph) (i : Nat) (f : Node → Node) (j : Nat) :
    (g.update i f).heap[j]? = if i = j then (g.heap[j]?).map f else g.heap[j]? := by
  unfold Graph.update
  simp only [List.getElem?_modify]
  by_cases h : i = j
  · simp [h]
  · simp [h]

theorem sortedNodes_map {β : Type} (g : Graph) (proj : Node → β) :
    g.sortedNodes.map proj = g.Sorted.filterMap (fun r => (g.heap.map proj)[r]?) := by
  unfold Graph.sortedNodes
  rw [List.map_filterMap]
  apply List.filterMap_congr
  intro r _
  rw [List.getElem?_map]

theorem allOps_congr (Implements : GoType → Interface → Bool) (g1 g2 : Graph)
    (hP : g1.Packages = g2.Packages) (hS : g1.Sorted = g2.Sorted)
    (hH : g1.heap.map (fun n => n.Package) = g2.heap.map (fun n => n.Package)) :
    allOps Implements g1 = allOps Implements g2 := by
  rw [allOps_eq, allOps_eq, sortedNodes_map g1, sortedNodes_map g2, hP, hS, hH]

theorem withEmptyScope_fields (p : Package) :
    (withEmptyScope p).ID = p.ID ∧ (withEmptyScope p).PkgPath = p.PkgPath ∧
      (withEmptyScope p).Imports = p.Imports ∧
      (withEmptyScope p).concreteTypes = p.concreteTypes ∧
      (withEmptyScope p).methodInterfaces = p.methodInterfaces := by
  unfold withEmptyScope Package.concreteTypes Package.methodInterfaces
  cases h : p.Types with
  | none => simp [h]
  | some objs => simp [h]

theorem withEmptyScope_entries (p : Package) :
    cEntry (withEmptyScope p) = cEntry p ∧ iEntry (withEmptyScope p) = iEntry p := by
  obtain ⟨h1, _, _, h4, h5⟩ := withEmptyScope_fields p
  unfold cEntry iEntry
  rw [h1, h4, h5]
  exact ⟨rfl, rfl⟩

theorem pairOps_withEmptyScope (Implements : GoType → Interface → Bool)
    (Packages : List (String × Nat)) (P : List Package) (cp : pkgConcretes) (cn : Nat)
    (ip : pkgIfaces) :
    pairOps Implements Packages (P.map withEmptyScope) cp cn ip =
      pairOps Implements Packages P cp cn ip := by
  unfold pairOps
  by_cases hid : cp.id = ip.id
  · rw [if_pos hid, if_pos hid]
  · rw [if_neg hid, if_neg hid]
    cases mapGet Packages ip.id with
    | none => rfl
    | some inn =>
      simp only [List.getElem?_map]
      cases P[cn]? with
      | none => rfl
      | some cpkg =>
        cases P[inn]? with
        | none => rfl
        | some ipkg =>
          simp only [Option.map_some', (withEmptyScope_fields cpkg).2.1,
            (withEmptyScope_fields cpkg).2.2.1, (withEmptyScope_fields ipkg).2.1,
            (withEmptyScope_fields ipkg).2.2.1]

theorem pkgOps_withEmptyScope (Implements : GoType → Interface → Bool)
    (Packages : List (String × Nat)) (P : List Package) (C I : Package) :
    pkgOps Implements Packages (P.map withEmptyScope) (withEmptyScope C) (withEmptyScope I) =
      pkgOps Implements Packages P C I := by
  unfold pkgOps
  rw [(withEmptyScope_entries C).1, (withEmptyScope_entries I).2]
  cases cEntry C with
  | none => rfl
  | some cp =>
    simp only
    cases mapGet Packages cp.id with
    | none => rfl
    | some cn =>
      simp only
      cases iEntry I with
      | none => rfl
      | some ip => exact pairOps_withEmptyScope Implements Packages P cp cn ip

theorem allOps_withEmptyScopes (Implements : GoType → Interface → Bool) (g : Graph) :
    allOps Implements g.withEmptyScopes = allOps Implements g := by
  have hS : g.withEmptyScopes.sortedNodes.map (fun n => n.Package) =
      (g.sortedNodes.map (fun n => n.Package)).map withEmptyScope := by
    rw [sortedNodes_map, sortedNodes_map]
    unfold Graph.withEmptyScopes
    simp only [List.map_map, List.map_filterMap, List.getElem?_map]
    apply List.filterMap_congr
    intro r _
    cases g.heap[r]? <;> rfl
  have hH : g.withEmptyScopes.heap.map (fun n => n.Package) =
      (g.heap.map (fun n => n.Package)).map withEmptyScope := by
    unfold Graph.withEmptyScopes
    simp only [List.map_map]
    rfl
  rw [allOps_eq, allOps_eq, hS, hH]
  have hP : g.withEmptyScopes.Packages = g.Packages := rfl
  rw [hP, List.flatMap_map]
  apply List.flatMap_congr
  intro C _
  rw [List.flatMap_map]
  apply List.flatMap_congr
  intro I _
  exact pkgOps_withEmptyScope Implements g.Packages _ C I

end pkggraph

namespace pkggraph

theorem cEntry_nonempty (C : Package) (cp : pkgConcretes) (hc : cEntry C = some cp) :
    C.concreteTypes ≠ [] := by
  unfold cEntry at hc
  split at hc
  · rename_i h
    intro h0
    rw [h0] at h
    exact absurd h (by simp)
  · exact absurd hc (by simp)

theorem iEntry_nonempty (I : Package) (ip : pkgIfaces) (hi : iEntry I = some ip) :
    I.methodInterfaces ≠ [] := by
  unfold iEntry at hi
  split at hi
  · rename_i h
    intro h0
    rw [h0] at h
    exact absurd h (by simp)
  · exact absurd hi (by simp)

theorem pkgOps_mem (Implements : GoType → Interface → Bool) (Packages : List (String × Nat))
    (P : List Package) (C I : Package) (op : Nat × Bool)
    (h : op ∈ pkgOps Implements Packages P C I) :
    (op.2 = true ∧ C.concreteTypes ≠ [] ∧ mapGet Packages C.ID = some op.1) ∨
      (op.2 = false ∧ I.methodInterfaces ≠ [] ∧ mapGet Packages I.ID = some op.1) := by
  unfold pkgOps at h
  cases hc : cEntry C with
  | none => rw [hc] at h; exact absurd h (List.not_mem_nil _)
  | some cp =>
    rw [hc] at h
    simp only at h
    cases hcn : mapGet Packages cp.id with
    | none => rw [hcn] at h; exact absurd h (List.not_mem_nil _)
    | some cn =>
      rw [hcn] at h
      simp only at h
      cases hi : iEntry I with
      | none => rw [hi] at h; exact absurd h (List.not_mem_nil _)
      | some ip =>
        rw [hi] at h
        simp only at h
        unfold pairOps at h
        by_cases hid : cp.id = ip.id
        · rw [if_pos hid] at h; exact absurd h (List.not_mem_nil _)
        · rw [if_neg hid] at h
          cases hinn : mapGet Packages ip.id with
          | none => rw [hinn] at h; exact absurd h (List.not_mem_nil _)
          | some inn =>
            rw [hinn] at h
            simp only at h
            by_cases hs : satisfied Implements cp ip = false
            · rw [if_pos hs] at h; exact absurd h (List.not_mem_nil _)
            · rw [if_neg hs] at h
              cases hpc : P[cn]? with
              | none => rw [hpc] at h; exact absurd h (List.not_mem_nil _)
              | some cpkg =>
                cases hpi : P[inn]? with
                | none => rw [hpc, hpi] at h; exact absurd h (List.not_mem_nil _)
                | some ipkg =>
                  rw [hpc, hpi] at h
                  simp only at h
                  rcases List.mem_append.mp h with h1 | h1
                  · left
                    have : op = (cn, true) := by
                      by_cases hx : ipkg.PkgPath ∈ cpkg.Imports
                      · rw [if_pos hx] at h1; exact absurd h1 (List.not_mem_nil _)
                      · rw [if_neg hx] at h1; exact List.mem_singleton.mp h1
                    subst this
                    refine ⟨rfl, cEntry_nonempty C cp hc, ?_⟩
                    rw [← cEntry_id C cp hc]; exact hcn
                  · right
                    have : op = (inn, false) := by
                      by_cases hx : cpkg.PkgPath ∈ ipkg.Imports
                      · rw [if_pos hx] at h1; exact absurd h1 (List.not_mem_nil _)
                      · rw [if_neg hx] at h1; exact List.mem_singleton.mp h1
                    subst this
                    refine ⟨rfl, iEntry_nonempty I ip hi, ?_⟩
                    rw [← iEntry_id I ip hi]; exact hinn

theorem keyed_sortedNodes (g : Graph) (hk : g.keyed) (C : Package)
    (hC : C ∈ g.sortedNodes.map (fun n => n.Package)) (r : Nat)
    (hr : mapGet g.Packages C.ID = some r) :
    ∃ n, g.heap[r]? = some n ∧ n.Package = C := by
  obtain ⟨n, hn, rfl⟩ := List.mem_map.mp hC
  unfold Graph.sortedNodes at hn
  obtain ⟨r0, hr0, hn0⟩ := List.mem_filterMap.mp hn
  have h := hk r0 hr0 n hn0
  rw [hr] at h
  cases h
  exact ⟨n, hn0, rfl⟩

theorem allOps_target (Implements : GoType → Interface → Bool) (g : Graph) (hk : g.keyed)
    (op : Nat × Bool) (h : op ∈ allOps Implements g) :
    ∃ n, g.heap[op.1]? = some n ∧
      ((op.2 = true ∧ n.Package.concreteTypes ≠ []) ∨
        (op.2 = false ∧ n.Package.methodInterfaces ≠ [])) := by
  rw [allOps_eq] at h
  obtain ⟨C, hC, h1⟩ := List.mem_flatMap.mp h
  obtain ⟨I, hI, h2⟩ := List.mem_flatMap.mp h1
  rcases pkgOps_mem Implements _ _ C I op h2 with ⟨hb, hne, hm⟩ | ⟨hb, hne, hm⟩
  · obtain ⟨n, hn, hp⟩ := keyed_sortedNodes g hk C hC op.1 hm
    exact ⟨n, hn, Or.inl ⟨hb, hp ▸ hne⟩⟩
  · obtain ⟨n, hn, hp⟩ := keyed_sortedNodes g hk I hI op.1 hm
    exact ⟨n, hn, Or.inr ⟨hb, hp ▸ hne⟩⟩

theorem allOps_count_sce_zero (Implements : GoType → Interface → Bool) (g : Graph)
    (hk : g.keyed) (i : Nat) (n : Node) (hi : g.heap[i]? = some n)
    (h0 : n.Package.concreteTypes = []) : (allOps Implements g).count (i, true) = 0 := by
  apply List.count_eq_zero.mpr
  intro hmem
  obtain ⟨m, hm, hcase⟩ := allOps_target Implements g hk (i, true) hmem
  rw [hi] at hm
  cases hm
  rcases hcase with ⟨_, hne⟩ | ⟨hb, _⟩
  · exact hne h0
  · exact absurd hb (by simp)

theorem allOps_count_sca_zero (Implements : GoType → Interface → Bool) (g : Graph)
    (hk : g.keyed) (i : Nat) (n : Node) (hi : g.heap[i]? = some n)
    (h0 : n.Package.methodInterfaces = []) : (allOps Implements g).count (i, false) = 0 := by
  apply List.count_eq_zero.mpr
  intro hmem
  obtain ⟨m, hm, hcase⟩ := allOps_target Implements g hk (i, false) hmem
  rw [hi] at hm
  cases hm
  rcases hcase with ⟨hb, _⟩ | ⟨_, hne⟩
  · exact absurd hb (by simp)
  · exact hne h0

theorem From_keyed (sp : Package → stat.Stat) (pkgs : List Package)
    (hnd : (pkgs.map (fun p => p.ID)).Nodup) : (From sp pkgs).keyed := by
  obtain ⟨_, hS, hH⟩ := From_static sp pkgs hnd
  intro r _ n hn
  apply From_mapGet sp pkgs hnd
  have h := congrArg (fun l => l[r]?) hH
  simp only [List.getElem?_map] at h
  rw [Option.mem_def.mp hn] at h
  exact h.symm

theorem keyed_of_same (g1 g2 : Graph) (hk : g2.keyed) (hP : g1.Packages = g2.Packages)
    (hS : g1.Sorted = g2.Sorted)
    (hH : g1.heap.map (fun n => n.Package) = g2.heap.map (fun n => n.Package)) :
    g1.keyed := by
  intro r hr n hn
  have h := congrArg (fun l => l[r]?) hH
  simp only [List.getElem?_map] at h
  rw [Option.mem_def.mp hn] at h
  cases h2 : g2.heap[r]? with
  | none => rw [h2] at h; exact absurd h (by simp)
  | some m =>
    rw [h2] at h
    simp only [Option.map_some', Option.some.injEq] at h
    rw [hP, h]
    exact hk r (hS ▸ hr) m h2

end pkggraph

/-! ## Nodes without type information -/

namespace pkggraph

theorem withEmptyScope_idem (p : Package) :
    withEmptyScope (withEmptyScope p) = withEmptyScope p := by
  unfold withEmptyScope
  cases h : p.Types with
  | none => rfl
  | some objs => simp [h]

theorem emptied_withEmptyScopes (g : Graph) (i : Nat) :
    (g.update i Node.withEmptyScope).withEmptyScopes = g.withEmptyScopes := by
  unfold Graph.withEmptyScopes
  have hh : (g.update i Node.withEmptyScope).heap.map Node.withEmptyScope =
      g.heap.map Node.withEmptyScope := by
    apply List.ext_getElem?
    intro j
    rw [List.getElem?_map, List.getElem?_map, update_getElem?]
    by_cases h : i = j
    · rw [if_pos h]
      cases g.heap[j]? with
      | none => rfl
      | some m =>
        simp only [Option.map_some', Option.some.injEq]
        unfold Node.withEmptyScope
        simp only [withEmptyScope_idem]
    · rw [if_neg h]
  rw [hh]
  rfl

theorem allOps_emptied (Implements : GoType → Interface → Bool) (g : Graph) (i : Nat) :
    allOps Implements (g.update i Node.withEmptyScope) = allOps Implements g := by
  rw [← allOps_withEmptyScopes Implements (g.update i _), emptied_withEmptyScopes g i,
    allOps_withEmptyScopes]

theorem entries_of_no_types (p : Package) (ht : p.Types = none) :
    p.concreteTypes = [] ∧ p.methodInterfaces = [] ∧ iEntry p = none ∧ cEntry p = none := by
  have h1 : p.concreteTypes = [] := by unfold Package.concreteTypes; rw [ht]
  have h2 : p.methodInterfaces = [] := by unfold Package.methodInterfaces; rw [ht]
  refine ⟨h1, h2, ?_, ?_⟩
  · unfold iEntry; rw [h2]; rfl
  · unfold cEntry; rw [h1]; rfl

theorem filterMap_filter_none {β : Type} (h : Nat → Option β) (i : Nat) (hi : h i = none)
    (xs : List Nat) : (xs.filter (fun r => r != i)).filterMap h = xs.filterMap h := by
  induction xs with
  | nil => rfl
  | cons r rest ih =>
    by_cases hr : r = i
    · subst hr
      rw [List.filter_cons_of_neg (by simp), List.filterMap_cons, hi, ih]
    · rw [List.filter_cons_of_pos (by simpa using hr), List.filterMap_cons, List.filterMap_cons,
        ih]

theorem collect_unsorted (g : Graph) (i : Nat) (n : Node) (hi : g.heap[i]? = some n)
    (ht : n.Package.Types = none) :
    collect { g with Sorted := g.Sorted.filter (fun r => r != i) } = collect g := by
  obtain ⟨_, _, hie, hce⟩ := entries_of_no_types n.Package ht
  rw [collect_eq, collect_eq]
  unfold Graph.sortedNodes
  simp only [List.filterMap_map, List.filterMap_filterMap]
  rw [filterMap_filter_none _ i (by simp [hi, hie]), filterMap_filter_none _ i (by simp [hi, hce])]

theorem allOps_unsorted (Implements : GoType → Interface → Bool) (g : Graph) (i : Nat)
    (n : Node) (hi : g.heap[i]? = some n) (ht : n.Package.Types = none) :
    allOps Implements { g with Sorted := g.Sorted.filter (fun r => r != i) } =
      allOps Implements g := by
  unfold allOps
  rw [collect_unsorted g i n hi ht]

/-- C15: ComputeStructuralCoupling skips a node whose package has no type information
(`Types == nil`). In a graph where every node of Sorted is the node Packages holds for its
ID, such a node comes out as it went in, SCa and SCe included. In every graph the nodes
come out as they would if that node were not in Sorted at all, and every node gets the SCa
and SCe it would get if that node had type information with an empty scope, declaring
neither interfaces nor concrete types. The call returns a graph with the same Packages,
the same Sorted and the same packages. -/
theorem C15_nodes_without_type_information_are_skipped
    (Implements : GoType → Interface → Bool) (g : Graph) (i : Nat) (n : Node)
    (hi : g.heap[i]? = some n) (ht : n.Package.Types = none) :
    (g.keyed → (g.ComputeStructuralCoupling Implements).heap[i]? = some n) ∧
    (Graph.ComputeStructuralCoupling
        { g with Sorted := g.Sorted.filter (fun r => r != i) } Implements).heap =
      (g.ComputeStructuralCoupling Implements).heap ∧
    (∀ j : Nat, (((g.update i Node.withEmptyScope).ComputeStructuralCoupling
        Implements).heap[j]?).map (fun m => (m.SCa, m.SCe)) =
      ((g.ComputeStructuralCoupling Implements).heap[j]?).map (fun m => (m.SCa, m.SCe))) ∧
    ((g.ComputeStructuralCoupling Implements).Packages = g.Packages ∧
      (g.ComputeStructuralCoupling Implements).Sorted = g.Sorted ∧
      (g.ComputeStructuralCoupling Implements).heap.map (fun m => m.Package) =
        g.heap.map (fun m => m.Package)) := by
  refine ⟨?_, ?_, ?_, CSC_static g Implements⟩
  · intro hk
    obtain ⟨hc, hm, _, _⟩ := entries_of_no_types n.Package ht
    rw [CSC_getElem?, hi, allOps_count_sce_zero Implements g hk i n hi hc,
      allOps_count_sca_zero Implements g hk i n hi hm]
    simp
  · apply List.ext_getElem?
    intro j
    rw [CSC_getElem?, CSC_getElem?, allOps_unsorted Implements g i n hi ht]
  · intro j
    rw [CSC_getElem?, CSC_getElem?, allOps_emptied Implements g i, update_getElem?]
    by_cases h : i = j
    · subst h
      rw [if_pos rfl, hi]
      rfl
    · rw [if_neg h]

/-- Witness of C15: `A` has an interface, the type of `C` implements it, and `U` was
loaded without type information: `U` comes out as it went in, while `A` and `C` get
their SCa and SCe. -/
theorem C15_witness :
    (From (fun _ => {}) [scenario.A, scenario.C, scenario.U]).heap[2]? =
      some { Package := scenario.U } ∧
    scenario.U.Types = none ∧
    (From (fun _ => {}) [scenario.A, scenario.C, scenario.U]).keyed ∧
    ((From (fun _ => {}) [scenario.A, scenario.C, scenario.U]).ComputeStructuralCoupling
      scenario.Implements).heap[2]? = some { Package := scenario.U } ∧
    ((From (fun _ => {}) [scenario.A, scenario.C, scenario.U]).ComputeStructuralCoupling
      scenario.Implements).heap.map (fun m => (m.Package.ID, m.SCa, m.SCe)) =
      [("A", 1, 0), ("C", 0, 1), ("U", 0, 0)] :=
  ⟨by decide!, rfl, by decide!,
    (C15_nodes_without_type_information_are_skipped scenario.Implements
      (From (fun _ => {}) [scenario.A, scenario.C, scenario.U]) 2 { Package := scenario.U }
      (by decide!) rfl).1 (by decide!),
    by decide!⟩

end pkggraph

/-! ## Interfaces without methods -/

namespace pkggraph

theorem methodInterface_some (obj : Object) (iface : Interface)
    (h : obj.methodInterface = some iface) :
    ∃ t, obj = Object.TypeName t ∧ t.underlyingInterface = some iface ∧
      1 ≤ iface.NumMethods := by
  cases obj with
  | OtherObject => exact absurd h (by simp [Object.methodInterface])
  | TypeName t =>
    simp only [Object.methodInterface] at h
    cases hu : t.underlyingInterface with
    | none => rw [hu] at h; exact absurd h (by simp)
    | some i0 =>
      rw [hu] at h
      simp only at h
      by_cases hm : 1 ≤ i0.NumMethods
      · rw [if_pos hm] at h
        cases h
        exact ⟨t, rfl, hu, hm⟩
      · rw [if_neg hm] at h
        exact absurd h (by simp)

theorem concreteType_some (obj : Object) (t : GoType) (h : obj.concreteType = some t) :
    obj = Object.TypeName t ∧ t.underlyingInterface = none := by
  cases obj with
  | OtherObject => exact absurd h (by simp [Object.concreteType])
  | TypeName t0 =>
    simp only [Object.concreteType] at h
    by_cases hu : t0.underlyingInterface = none
    · rw [if_pos hu] at h
      cases h
      exact ⟨rfl, hu⟩
    · rw [if_neg hu] at h
      exact absurd h (by simp)

theorem methodInterfaces_mem (p : Package) (iface : Interface)
    (h : iface ∈ p.methodInterfaces) :
    ∃ objs t, p.Types = some objs ∧ Object.TypeName t ∈ objs ∧
      t.underlyingInterface = some iface ∧ 1 ≤ iface.NumMethods := by
  unfold Package.methodInterfaces at h
  cases ht : p.Types with
  | none => rw [ht] at h; exact absurd h (List.not_mem_nil _)
  | some objs =>
    rw [ht] at h
    obtain ⟨obj, hobj, ho⟩ := List.mem_filterMap.mp h
    obtain ⟨t, rfl, hu, hm⟩ := methodInterface_some obj iface ho
    exact ⟨objs, t, rfl, hobj, hu, hm⟩

theorem methodInterfaces_have_methods (p : Package) :
    ∀ iface ∈ p.methodInterfaces, 1 ≤ iface.NumMethods := by
  intro iface h
  obtain ⟨_, _, _, _, _, hm⟩ := methodInterfaces_mem p iface h
  exact hm

theorem methodInterfaces_nil (p : Package)
    (h0 : ∀ objs, p.Types = some objs → ∀ t iface, Object.TypeName t ∈ objs →
      t.underlyingInterface = some iface → iface.NumMethods = 0) :
    p.methodInterfaces = [] := by
  apply List.eq_nil_iff_forall_not_mem.mpr
  intro iface h
  obtain ⟨objs, t, ht, hobj, hu, hm⟩ := methodInterfaces_mem p iface h
  have := h0 objs ht t iface hobj hu
  omega

theorem any_congr_mem {α : Type} (l : List α) (p q : α → Bool) (h : ∀ a ∈ l, p a = q a) :
    l.any p = l.any q := by
  induction l with
  | nil => rfl
  | cons a rest ih =>
    rw [List.any_cons, List.any_cons, h a (List.mem_cons_self _ _),
      ih (fun b hb => h b (List.mem_cons_of_mem _ hb))]

theorem satisfied_oracle_congr (Impl1 Impl2 : GoType → Interface → Bool) (cp : pkgConcretes)
    (ip : pkgIfaces) (hm : ∀ iface ∈ ip.ifaces, 1 ≤ iface.NumMethods)
    (hagree : ∀ t iface, 1 ≤ iface.NumMethods → Impl2 t iface = Impl1 t iface) :
    satisfied Impl2 cp ip = satisfied Impl1 cp ip := by
  unfold satisfied
  apply any_congr_mem
  intro ct _
  apply any_congr_mem
  intro iface hi
  rw [hagree ct iface (hm iface hi), hagree (GoType.Pointer ct) iface (hm iface hi)]

theorem iEntry_ifaces (I : Package) (ip : pkgIfaces) (hi : iEntry I = some ip) :
    ip.ifaces = I.methodInterfaces := by
  unfold iEntry at hi
  split at hi
  · simp only [Option.some.injEq] at hi; rw [← hi]
  · exact absurd hi (by simp)

theorem pkgOps_oracle_congr (Impl1 Impl2 : GoType → Interface → Bool)
    (Packages : List (String × Nat)) (P : List Package) (C I : Package)
    (hagree : ∀ t iface, 1 ≤ iface.NumMethods → Impl2 t iface = Impl1 t iface) :
    pkgOps Impl2 Packages P C I = pkgOps Impl1 Packages P C I := by
  unfold pkgOps
  cases cEntry C with
  | none => rfl
  | some cp =>
    simp only
    cases mapGet Packages cp.id with
    | none => rfl
    | some cn =>
      simp only
      cases hi : iEntry I with
      | none => rfl
      | some ip =>
        simp only
        unfold pairOps
        rw [satisfied_oracle_congr Impl1 Impl2 cp ip
          (by rw [iEntry_ifaces I ip hi]; exact methodInterfaces_have_methods I) hagree]

theorem allOps_oracle_congr (Impl1 Impl2 : GoType → Interface → Bool) (g : Graph)
    (hagree : ∀ t iface, 1 ≤ iface.NumMethods → Impl2 t iface = Impl1 t iface) :
    allOps Impl2 g = allOps Impl1 g := by
  rw [allOps_eq, allOps_eq]
  apply List.flatMap_congr
  intro C _
  apply List.flatMap_congr
  intro I _
  exact pkgOps_oracle_congr Impl1 Impl2 _ _ C I hagree

/-- C16: interfaces without methods take no part in structural coupling. In a graph where
every node of Sorted is the node Packages holds for its ID, a node whose package has only
interface types without methods keeps its SCa through ComputeStructuralCoupling. In every
graph the result depends on the answers of the implements oracle for interfaces with at
least one method only: two oracles that agree on those give the same graph, so an
interface without methods adds to no SCe and to no SCa whatever the oracle answers for it.
The scan of a scope records only interfaces with at least one method as interfaces, and
only types whose underlying type is no interface as concrete types. -/
theorem C16_method_less_interfaces_take_no_part
    (Implements : GoType → Interface → Bool) (g : Graph) :
    (∀ (i : Nat) (n : Node), g.keyed → g.heap[i]? = some n →
      (∀ objs, n.Package.Types = some objs → ∀ t iface, Object.TypeName t ∈ objs →
        t.underlyingInterface = some iface → iface.NumMethods = 0) →
      ((g.ComputeStructuralCoupling Implements).heap[i]?).map (fun m => m.SCa) =
        some n.SCa) ∧
    (∀ Implements2 : GoType → Interface → Bool,
      (∀ t iface, 1 ≤ iface.NumMethods → Implements2 t iface = Implements t iface) →
      g.ComputeStructuralCoupling Implements2 = g.ComputeStructuralCoupling Implements) ∧
    (∀ objs : List Object,
      (∀ iface ∈ (scanScope objs).1, 1 ≤ iface.NumMethods) ∧
      (∀ t ∈ (scanScope objs).2, t.underlyingInterface = none)) := by
  refine ⟨?_, ?_, ?_⟩
  · intro i n hk hi h0
    rw [CSC_getElem?, hi,
      allOps_count_sca_zero Implements g hk i n hi (methodInterfaces_nil n.Package h0)]
    simp
  · intro Implements2 hagree
    rw [ComputeStructuralCoupling_eq_ops, ComputeStructuralCoupling_eq_ops,
      allOps_oracle_congr Implements Implements2 g hagree]
  · intro objs
    rw [scanScope_eq]
    constructor
    · intro iface h
      obtain ⟨obj, _, ho⟩ := List.mem_filterMap.mp h
      obtain ⟨_, _, _, hm⟩ := methodInterface_some obj iface ho
      exact hm
    · intro t h
      obtain ⟨obj, _, ho⟩ := List.mem_filterMap.mp h
      exact (concreteType_some obj t ho).2

/-- Witness of C16: the only type of `E` is an interface without methods and the oracle
answers yes to everything; the concrete type of `C` adds nothing to SCa of `E`, and the
oracle that answers yes for interfaces with methods only gives the same graph. -/
theorem C16_witness :
    (From (fun _ => {}) [scenario.E, scenario.C]).keyed ∧
    (From (fun _ => {}) [scenario.E, scenario.C]).heap[0]? = some { Package := scenario.E } ∧
    (((From (fun _ => {}) [scenario.E, scenario.C]).ComputeStructuralCoupling
      scenario.always).heap[0]?).map (fun m => m.SCa) = some 0 ∧
    (From (fun _ => {}) [scenario.E, scenario.C]).ComputeStructuralCoupling
        scenario.withMethods =
      (From (fun _ => {}) [scenario.E, scenario.C]).ComputeStructuralCoupling scenario.always :=
  ⟨by decide!, by decide!,
    (C16_method_less_interfaces_take_no_part scenario.always
      (From (fun _ => {}) [scenario.E, scenario.C])).1 0 { Package := scenario.E }
      (by decide!) (by decide!)
      (by
        intro objs h t iface hmem hu
        simp only [scenario.E, Option.some.injEq] at h
        subst h
        simp only [List.mem_singleton, Object.TypeName.injEq] at hmem
        subst hmem
        simp only [GoType.underlyingInterface, Option.some.injEq] at hu
        subst hu
        rfl),
    (C16_method_less_interfaces_take_no_part scenario.always
      (From (fun _ => {}) [scenario.E, scenario.C])).2.1 scenario.withMethods
      (by
        intro t iface h
        simp [scenario.withMethods, scenario.always, h])⟩

end pkggraph

/-! ## Repeated runs of ComputeStructuralCoupling -/

namespace pkggraph

theorem nodes_map {β : Type} (g : Graph) (proj : Node → β) :
    g.nodes.map proj = g.Packages.filterMap (fun e => (g.heap.map proj)[e.2]?) := by
  unfold Graph.nodes
  rw [List.map_filterMap]
  apply List.filterMap_congr
  intro e _
  rw [List.getElem?_map]

theorem allOps_CSC (Impl Impl2 : GoType → Interface → Bool) (g : Graph) :
    allOps Impl (g.ComputeStructuralCoupling Impl2) = allOps Impl g := by
  obtain ⟨hP, hS, hH⟩ := CSC_static g Impl2
  exact allOps_congr Impl _ _ hP hS hH

theorem CSC_twice_getElem? (Implements : GoType → Interface → Bool) (g : Graph) (i : Nat) :
    ((g.ComputeStructuralCoupling Implements).ComputeStructuralCoupling Implements).heap[i]? =
      ((g.ComputeStructuralCoupling Implements).heap[i]?).map (fun n =>
        { n with SCe := n.SCe + ((allOps Implements g).count (i, true) : ℚ),
                 SCa := n.SCa + ((allOps Implements g).count (i, false) : ℚ) }) := by
  rw [CSC_getElem? (g.ComputeStructuralCoupling Implements), allOps_CSC]

theorem CSC_fresh_twice (Implements : GoType → Interface → Bool) (sp : Package → stat.Stat)
    (pkgs : List Package) :
    (((From sp pkgs).ComputeStructuralCoupling Implements).ComputeStructuralCoupling
        Implements).heap.map (fun n => (n.SCa, n.SCe)) =
      ((From sp pkgs).ComputeStructuralCoupling Implements).heap.map
        (fun n => (2 * n.SCa, 2 * n.SCe)) := by
  apply List.ext_getElem?
  intro i
  rw [List.getElem?_map, List.getElem?_map, CSC_twice_getElem?, CSC_getElem?]
  cases h : (From sp pkgs).heap[i]? with
  | none => rfl
  | some n =>
    obtain ⟨_, _, _, _, _, _, _, ha, he⟩ :=
      From_heap_fresh sp pkgs n (List.mem_iff_getElem?.mpr ⟨i, h⟩)
    simp only [Option.map_some', Option.some.injEq, Prod.mk.injEq, ha, he]
    constructor <;> ring

/-- C20: ComputeStructuralCoupling adds to the SCa and SCe the nodes hold and never resets
them. On every graph a run adds to SCa and SCe of each node numbers that depend on the
packages, Packages and Sorted only, so a second run adds the same numbers again. On a
graph freshly built by From, where SCa and SCe start at 0, every node has after two runs
exactly twice the SCa and SCe it has after one run. The runs leave Ca, Ce, A, I and D of
every node as they are. The function is not idempotent: at the graph of `A` and `C` the
second run changes the graph. -/
theorem C20_ComputeStructuralCoupling_accumulates
    (Implements : GoType → Interface → Bool) (sp : Package → stat.Stat) (pkgs : List Package)
    (g : Graph) :
    (∀ i : Nat,
      ((g.ComputeStructuralCoupling Implements).heap[i]?).map (fun n => (n.SCa, n.SCe)) =
        (g.heap[i]?).map (fun n =>
          (n.SCa + ((allOps Implements g).count (i, false) : ℚ),
            n.SCe + ((allOps Implements g).count (i, true) : ℚ))) ∧
      (((g.ComputeStructuralCoupling Implements).ComputeStructuralCoupling
          Implements).heap[i]?).map (fun n => (n.SCa, n.SCe)) =
        ((g.ComputeStructuralCoupling Implements).heap[i]?).map (fun n =>
          (n.SCa + ((allOps Implements g).count (i, false) : ℚ),
            n.SCe + ((allOps Implements g).count (i, true) : ℚ)))) ∧
    ((((From sp pkgs).ComputeStructuralCoupling Implements).ComputeStructuralCoupling
        Implements).nodes.map (fun n => (n.SCa, n.SCe)) =
      ((From sp pkgs).ComputeStructuralCoupling Implements).nodes.map
        (fun n => (2 * n.SCa, 2 * n.SCe)) ∧
     (((From sp pkgs).ComputeStructuralCoupling Implements).ComputeStructuralCoupling
        Implements).sortedNodes.map (fun n => (n.SCa, n.SCe)) =
      ((From sp pkgs).ComputeStructuralCoupling Implements).sortedNodes.map
        (fun n => (2 * n.SCa, 2 * n.SCe))) ∧
    (g.ComputeStructuralCoupling Implements).heap.map
        (fun n => (n.Package, n.Stat, n.Ca, n.Ce, n.A, n.I, n.D)) =
      g.heap.map (fun n => (n.Package, n.Stat, n.Ca, n.Ce, n.A, n.I, n.D)) ∧
    ((From (fun _ => {}) [scenario.A, scenario.C]).ComputeStructuralCoupling
        scenario.Implements).ComputeStructuralCoupling scenario.Implements ≠
      (From (fun _ => {}) [scenario.A, scenario.C]).ComputeStructuralCoupling
        scenario.Implements := by
  refine ⟨?_, ⟨?_, ?_⟩, ?_, by decide!⟩
  · intro i
    constructor
    · rw [CSC_getElem?]
      cases g.heap[i]? <;> rfl
    · rw [CSC_twice_getElem?]
      cases (g.ComputeStructuralCoupling Implements).heap[i]? <;> rfl
  · rw [nodes_map, nodes_map, CSC_fresh_twice,
      (CSC_static ((From sp pkgs).ComputeStructuralCoupling Implements) Implements).1]
  · rw [sortedNodes_map, sortedNodes_map, CSC_fresh_twice,
      (CSC_static ((From sp pkgs).ComputeStructuralCoupling Implements) Implements).2.1]
  · apply List.ext_getElem?
    intro i
    rw [List.getElem?_map, List.getElem?_map, CSC_getElem?]
    cases g.heap[i]? <;> rfl

end pkggraph

/-! ## The totals of Ca and Ce -/

namespace pkggraph

theorem sum_countP_comm {α β : Type} (l1 : List α) (l2 : List β) (r : α → β → Bool) :
    (l1.map (fun a => l2.countP (r a))).sum =
      (l2.map (fun b => l1.countP (fun a => r a b))).sum := by
  induction l1 with
  | nil => simp
  | cons a rest ih =>
    rw [List.map_cons, List.sum_cons, ih, countP_eq_sum l2 (r a), ← List.sum_map_add]
    apply congrArg
    apply List.map_congr_left
    intro b _
    rw [List.countP_cons]
    cases r a b <;> simp [Nat.add_comm]

theorem countP_mem_eq_length {α : Type} [DecidableEq α] (K L : List α) (hK : K.Nodup)
    (hL : L.Nodup) (hsub : ∀ a ∈ L, a ∈ K) :
    K.countP (fun a => decide (a ∈ L)) = L.length := by
  rw [List.countP_eq_length_filter]
  apply List.Perm.length_eq
  apply (List.perm_ext_iff_of_nodup (hK.filter _) hL).mpr
  intro a
  simp only [List.mem_filter, decide_eq_true_eq]
  exact ⟨fun h => h.2, fun h => ⟨hsub a h, h⟩⟩

theorem importers_count (pkgs : List Package) (hnd : (pkgs.map (fun p => p.ID)).Nodup)
    (hpath : ∀ p ∈ pkgs, p.PkgPath = p.ID)
    (hclosed : ∀ p ∈ pkgs, ∀ k ∈ p.Imports, ∃ q ∈ pkgs, q.PkgPath = k)
    (hself : ∀ p ∈ pkgs, p.PkgPath ∉ p.Imports) (m : Package) (hm : m ∈ pkgs)
    (hkeys : m.Imports.Nodup) :
    pkgs.countP (fun p => decide (m.ID ≠ p.ID ∧ p.PkgPath ∈ m.Imports)) = m.Imports.length := by
  have hmap : pkgs.map (fun p => p.PkgPath) = pkgs.map (fun p => p.ID) :=
    List.map_congr_left hpath
  have h1 : pkgs.countP (fun p => decide (m.ID ≠ p.ID ∧ p.PkgPath ∈ m.Imports)) =
      pkgs.countP (fun p => decide (p.PkgPath ∈ m.Imports)) := by
    apply List.countP_congr
    intro p hp
    simp only [decide_eq_true_eq]
    constructor
    · exact fun h => h.2
    · intro h
      refine ⟨?_, h⟩
      intro hid
      have hpm : p = m := by
        obtain ⟨a, ha⟩ := List.mem_iff_getElem?.mp hp
        obtain ⟨b, hb⟩ := List.mem_iff_getElem?.mp hm
        have hab : a = b := by
          have hlt : a < (pkgs.map (fun p => p.ID)).length := by
            rw [List.length_map]
            exact (List.getElem?_eq_some_iff.mp ha).1
          apply List.getElem?_inj hlt hnd
          simp [List.getElem?_map, ha, hb, hid]
        rw [hab, hb] at ha
        exact (Option.some.inj ha).symm
      rw [hpm] at h
      exact hself m hm h
  rw [h1]
  have h2 : pkgs.countP (fun p => decide (p.PkgPath ∈ m.Imports)) =
      (pkgs.map (fun p => p.PkgPath)).countP (fun k => decide (k ∈ m.Imports)) := by
    rw [List.countP_map]
    rfl
  rw [h2]
  apply countP_mem_eq_length _ _ (hmap ▸ hnd) hkeys
  intro k hk
  obtain ⟨q, hq, hqk⟩ := hclosed m hm k hk
  exact List.mem_map.mpr ⟨q, hq, hqk⟩

theorem closed_universe_balance (pkgs : List Package)
    (hnd : (pkgs.map (fun p => p.ID)).Nodup)
    (hpath : ∀ p ∈ pkgs, p.PkgPath = p.ID)
    (hkeys : ∀ p ∈ pkgs, p.Imports.Nodup)
    (hclosed : ∀ p ∈ pkgs, ∀ k ∈ p.Imports, ∃ q ∈ pkgs, q.PkgPath = k)
    (hself : ∀ p ∈ pkgs, p.PkgPath ∉ p.Imports) :
    (pkgs.map (fun p => pkgs.countP
      (fun m => decide (m.ID ≠ p.ID ∧ p.PkgPath ∈ m.Imports)))).sum =
      (pkgs.map (fun p => p.Imports.length)).sum := by
  rw [sum_countP_comm pkgs pkgs (fun p m => decide (m.ID ≠ p.ID ∧ p.PkgPath ∈ m.Imports))]
  apply congrArg
  apply List.map_congr_left
  intro m hm
  exact importers_count pkgs hnd hpath hclosed hself m hm (hkeys m hm)

theorem From_nodes_packages (sp : Package → stat.Stat) (pkgs : List Package)
    (hnd : (pkgs.map (fun p => p.ID)).Nodup) :
    (From sp pkgs).nodes.map (fun n => n.Package) = pkgs := by
  obtain ⟨hP, _, hH⟩ := From_static sp pkgs hnd
  have hlen : (From sp pkgs).heap.length = pkgs.length := by
    have := congrArg List.length hH
    simpa using this
  rw [nodes_eq_heap, hH]
  rw [hP, hlen, List.map_snd_zip]
  simp

/-- C21: coupling totals balance on a closed universe. When the universe passed to
ComputeMetrics holds exactly the packages the graph was built from, the IDs of the
packages are pairwise distinct, the path of every package is its ID, every key of every
map of imports is the path of a package of the set and no package imports itself, then
the sum of Ca over the nodes of the graph equals the sum of Ce over the nodes. The keys
of a map of imports are pairwise distinct, as those of every map. -/
theorem C21_coupling_totals_balance (sp : Package → stat.Stat) (pkgs allPkgs : List Package)
    (hperm : List.Perm allPkgs pkgs)
    (hnd : (pkgs.map (fun p => p.ID)).Nodup)
    (hpath : ∀ p ∈ pkgs, p.PkgPath = p.ID)
    (hkeys : ∀ p ∈ pkgs, p.Imports.Nodup)
    (hclosed : ∀ p ∈ pkgs, ∀ k ∈ p.Imports, ∃ q ∈ pkgs, q.PkgPath = k)
    (hself : ∀ p ∈ pkgs, p.PkgPath ∉ p.Imports) :
    (((From sp pkgs).ComputeMetrics allPkgs).nodes.map (fun n => n.Ca)).sum =
      (((From sp pkgs).ComputeMetrics allPkgs).nodes.map (fun n => n.Ce)).sum := by
  have hN := From_nodes_packages sp pkgs hnd
  have hCa : ((From sp pkgs).ComputeMetrics allPkgs).nodes.map (fun n => n.Ca) =
      ((From sp pkgs).nodes.map (fun n => n.Package)).map (fun p => ((pkgs.countP
        (fun m => decide (m.ID ≠ p.ID ∧ p.PkgPath ∈ m.Imports)) : Nat) : ℚ)) := by
    rw [ComputeMetrics_nodes, List.map_map, List.map_map]
    apply List.map_congr_left
    intro n _
    simp only [Function.comp_apply]
    rw [(metricsOf_spec allPkgs n).2.2.1, countCa_eq]
    exact congrArg _ (List.Perm.countP_eq _ hperm)
  have hCe : ((From sp pkgs).ComputeMetrics allPkgs).nodes.map (fun n => n.Ce) =
      ((From sp pkgs).nodes.map (fun n => n.Package)).map
        (fun p => ((p.Imports.length : Nat) : ℚ)) := by
    rw [ComputeMetrics_nodes, List.map_map, List.map_map]
    apply List.map_congr_left
    intro n _
    simp only [Function.comp_apply]
    rw [(metricsOf_spec allPkgs n).2.2.2.1]
  rw [hN] at hCa hCe
  have e1 : pkgs.map (fun p => ((pkgs.countP
        (fun m => decide (m.ID ≠ p.ID ∧ p.PkgPath ∈ m.Imports)) : Nat) : ℚ)) =
      (pkgs.map (fun p => pkgs.countP
        (fun m => decide (m.ID ≠ p.ID ∧ p.PkgPath ∈ m.Imports)))).map (Nat.cast : Nat → ℚ) := by
    rw [List.map_map]; rfl
  have e2 : pkgs.map (fun p => ((p.Imports.length : Nat) : ℚ)) =
      (pkgs.map (fun p => p.Imports.length)).map (Nat.cast : Nat → ℚ) := by
    rw [List.map_map]; rfl
  rw [hCa, hCe, e1, e2, ← Nat.cast_list_sum, ← Nat.cast_list_sum,
    closed_universe_balance pkgs hnd hpath hkeys hclosed hself]

/-- Witness of C21: the five packages of the test project import each other only; the
sums of Ca and of Ce are both 5. -/
theorem C21_witness :
    (testproject.pkgs.map (fun p => p.ID)).Nodup ∧
    (∀ p ∈ testproject.pkgs, p.PkgPath = p.ID) ∧
    (∀ p ∈ testproject.pkgs, p.Imports.Nodup) ∧
    (∀ p ∈ testproject.pkgs, ∀ k ∈ p.Imports, ∃ q ∈ testproject.pkgs, q.PkgPath = k) ∧
    (∀ p ∈ testproject.pkgs, p.PkgPath ∉ p.Imports) ∧
    (((From testproject.statPackage testproject.pkgs).ComputeMetrics
        testproject.pkgs.reverse).nodes.map (fun n => n.Ce)).sum = 5 ∧
    (((From testproject.statPackage testproject.pkgs).ComputeMetrics
        testproject.pkgs.reverse).nodes.map (fun n => n.Ca)).sum =
      (((From testproject.statPackage testproject.pkgs).ComputeMetrics
        testproject.pkgs.reverse).nodes.map (fun n => n.Ce)).sum :=
  ⟨by decide!, by decide!, by decide!, by decide!, by decide!, by decide!,
    C21_coupling_totals_balance testproject.statPackage testproject.pkgs
      testproject.pkgs.reverse (List.reverse_perm _) (by decide!) (by decide!) (by decide!)
      (by decide!) (by decide!)⟩

end pkggraph

end Goda
